import Mathlib

/-!
# MqttLite: a shallow embedding of the packet codec and connection logic

The C++ class `MqttLite` (src/MqttLite.h, src/MqttLite.cpp) is embedded as explicit state
passing over the structure `MqttLite`.

* The heap buffer `m_buffer` is a map from index to byte together with its allocated size
  `m_bufferSize`; every access goes through `load` / `store`, which report an access outside
  the allocation as a `Fault` (undefined behaviour in C++) instead of performing it.
* The 3-byte stack array `bufferLength` of `writePacket` is treated the same way.
* The transport (`Client`) is a record: whether it is connected, its queue of inbound bytes,
  the log of byte sequences handed to `write`, and the counts that `write` will report.
* `millis()` is the field `millis`; a busy-wait on an empty inbound queue runs to its deadline.
* Machine integers are natural numbers reduced modulo `2^w` where the source can wrap.
-/

/-- Undefined behaviour reached by the code: an access outside an array. -/
inductive Fault where
  /-- Access to `m_buffer[index]` with `index ≥ m_bufferSize`. -/
  | bufferOverrun (index : Nat)
  /-- Access to `bufferLength[index]` with `index ≥ 3` in `writePacket`. -/
  | scratchOverrun (index : Nat)
  /-- The iteration bound of a modelled loop was exhausted (shown unreachable). -/
  | outOfFuel
  deriving DecidableEq, Repr

/-- The Arduino `Client` the library talks to (an external collaborator). -/
structure Client where
  /-- What `connected()` answers. -/
  up : Bool
  /-- Bytes that `available()` / `read()` will deliver, in order. -/
  inbound : List Nat
  /-- Every byte sequence handed to `write(buf, len)`, oldest first. -/
  written : List (List Nat)
  /-- Counts the next `write` calls report; when exhausted a write reports its full length. -/
  reports : List Nat
  /-- Number of `stop()` calls so far. -/
  stops : Nat
  deriving DecidableEq, Repr

namespace Client

/-- Transport query `connected()`. -/
def connected (c : Client) : Bool := c.up

/-- Transport operation `stop()`. -/
def stop (c : Client) : Client := { c with up := false, stops := c.stops + 1 }

/-- Transport query `available()`. -/
def available (c : Client) : Nat := c.inbound.length

/-- Transport operation `write(buf, len)`: logs the bytes and reports a count. -/
def write (c : Client) (bytes : List Nat) : Nat × Client :=
  match c.reports with
  | [] => (bytes.length, { c with written := c.written ++ [bytes] })
  | r :: rs => (r, { c with written := c.written ++ [bytes], reports := rs })

end Client

/-- One invocation of a registered handler, with the arguments it was given and the buffer
contents at the time of the call (the pointers are offsets into `m_buffer`). -/
inductive HandlerCall where
  /-- Call `m_publishCallback(topic, payload, length)`. -/
  | publish (topic payload length : Nat) (memory : Nat → Nat)
  /-- Call `m_rawCallback(type, flags, length, data)`. -/
  | raw (type flags length data : Nat) (memory : Nat → Nat)

/-- The fields of the C++ class, the clock and the log of handler calls. -/
structure MqttLite where
  m_client : Client
  /-- Whether a publish handler is registered (non-null `m_publishCallback`). -/
  m_publishCallback : Bool
  /-- Whether a raw handler is registered (non-null `m_rawCallback`). -/
  m_rawCallback : Bool
  m_bufferSize : Nat
  m_timeout : Nat
  m_keepAlive : Nat
  m_state : Int
  m_buffer : Nat → Nat
  m_lastIn : Nat
  m_lastOut : Nat
  m_pongReceived : Bool
  m_messageId : Nat
  /-- Current reading of `millis()`. -/
  millis : Nat
  /-- Handler invocations so far, oldest first. -/
  calls : List HandlerCall

namespace MqttLite

/-- Macro `BUFFER_OFFSET`. -/
def BUFFER_OFFSET : Nat := 5

/-- Macro `MQTT_LEVEL`. -/
def MQTT_LEVEL : Nat := 4

/-- Declared size of the stack array `uint8_t bufferLength[3]` in `writePacket`. -/
def BUFFER_LENGTH_SIZE : Nat := 3

def STATE_CONNECTION_TIMEOUT : Int := -4
def STATE_CONNECTION_LOST : Int := -3
def STATE_CONNECT_FAILED : Int := -2
def STATE_DISCONNECTED : Int := -1
def STATE_CONNECTED : Int := 0
def STATE_CONNECT_BAD_PROTOCOL : Int := 1
def STATE_CONNECT_BAD_CLIENT_ID : Int := 2
def STATE_CONNECT_UNAVAILABLE : Int := 3
def STATE_CONNECT_BAD_CREDENTIALS : Int := 4
def STATE_CONNECT_UNAUTHORIZED : Int := 5

/-- Enumeration `packet_type_t`. -/
inductive packet_type_t where
  | PACKET_TYPE_CONNECT
  | PACKET_TYPE_CONNECT_ACK
  | PACKET_TYPE_PUBLISH
  | PACKET_TYPE_PUBLISH_ACK
  | PACKET_TYPE_PUBLISH_RECEIVED
  | PACKET_TYPE_PUBLISH_RELEASE
  | PACKET_TYPE_PUBLISH_COMPLETE
  | PACKET_TYPE_SUBSCRIBE
  | PACKET_TYPE_SUBSCRIBE_ACK
  | PACKET_TYPE_UNSUBSCRIBE
  | PACKET_TYPE_UNSUBSCRIBE_ACK
  | PACKET_TYPE_PING_REQUEST
  | PACKET_TYPE_PING_RESPONSE
  | PACKET_TYPE_DISCONNECT
  deriving DecidableEq, Repr

/-- Numeric value of a `packet_type_t` enumerator. -/
def packet_type_t.val : packet_type_t → Nat
  | .PACKET_TYPE_CONNECT => 1
  | .PACKET_TYPE_CONNECT_ACK => 2
  | .PACKET_TYPE_PUBLISH => 3
  | .PACKET_TYPE_PUBLISH_ACK => 4
  | .PACKET_TYPE_PUBLISH_RECEIVED => 5
  | .PACKET_TYPE_PUBLISH_RELEASE => 6
  | .PACKET_TYPE_PUBLISH_COMPLETE => 7
  | .PACKET_TYPE_SUBSCRIBE => 8
  | .PACKET_TYPE_SUBSCRIBE_ACK => 9
  | .PACKET_TYPE_UNSUBSCRIBE => 10
  | .PACKET_TYPE_UNSUBSCRIBE_ACK => 11
  | .PACKET_TYPE_PING_REQUEST => 12
  | .PACKET_TYPE_PING_RESPONSE => 13
  | .PACKET_TYPE_DISCONNECT => 14

/-- Enumeration `qos_t`. -/
inductive qos_t where
  | QOS0
  | QOS1
  | QOS2
  deriving DecidableEq, Repr

/-- Numeric value of a `qos_t` enumerator. -/
def qos_t.val : qos_t → Nat
  | .QOS0 => 0
  | .QOS1 => 1
  | .QOS2 => 2

/-- Conversion of an `int` expression to `uint8_t`. -/
def toUInt8 (x : Int) : Nat := (x % 256).toNat

/-- Assignment `m_buffer[index] = value` (the value is truncated to a byte). -/
def store (s : MqttLite) (index value : Nat) : Except Fault MqttLite :=
  if index < s.m_bufferSize then
    .ok { s with m_buffer := fun j => if j = index then value % 256 else s.m_buffer j }
  else
    .error (.bufferOverrun index)

/-- Read of `m_buffer[index]`. -/
def load (s : MqttLite) (index : Nat) : Except Fault Nat :=
  if index < s.m_bufferSize then .ok (s.m_buffer index % 256) else .error (.bufferOverrun index)

/-- Copy of bytes from outside the buffer to `m_buffer[index ..]`, byte by byte
(`memmove(m_buffer + index, src, len)` with `src` outside `m_buffer`). -/
def storeBytes : List Nat → Nat → MqttLite → Except Fault MqttLite
  | [], _, s => .ok s
  | b :: bs, index, s => do
    let s ← store s index b
    storeBytes bs (index + 1) s

/-- The `count` bytes of the buffer starting at `index`, as a reader of that memory sees them. -/
def bytesAt (memory : Nat → Nat) (index count : Nat) : List Nat :=
  (List.range count).map (fun j => memory (index + j) % 256)

/-- Length of a C string: the characters before the first NUL. -/
def strlen (p_value : List Nat) : Nat := (p_value.takeWhile (fun c => c % 256 ≠ 0)).length

/-- The `while(*p_value)` loop of `writeString`; `i` is the `uint16_t` counter. -/
def writeStringLoop (p_position : Nat) : List Nat → Nat → MqttLite → Except Fault (Nat × MqttLite)
  | [], i, s => .ok (i, s)
  | c :: cs, i, s =>
    if c % 256 = 0 then .ok (i, s)
    else do
      let s ← store s (BUFFER_OFFSET + p_position + i) c
      writeStringLoop p_position cs ((i + 1) % 65536) s

/-- Method `MqttLite::writeString`: returns the counter `i` (as `uint16_t`). The expression
`i - 2` is computed in `int`; `>> 8` is the arithmetic shift and `& 0x0ff` the remainder
modulo 256 of the two-complement value. -/
def writeString (s : MqttLite) (p_position : Nat) (p_value : List Nat) :
    Except Fault (Nat × MqttLite) := do
  let (i, s) ← writeStringLoop p_position p_value 2 s
  let s ← store s (BUFFER_OFFSET + p_position) (toUInt8 (((i : Int) - 2) >>> (8 : Nat)))
  let s ← store s (BUFFER_OFFSET + p_position + 1) (toUInt8 (((i : Int) - 2) % 256))
  .ok (i, s)

/-- The `do ... while(length)` loop of `writePacket` that fills `bufferLength`. The first
argument is the number of entries of the 3-byte array still free (`3 - index`); the list is
the array contents written so far, so `index` is its length. -/
def lengthLoop : Nat → Nat → List Nat → Except Fault (List Nat)
  | 0, _, bufferLength => .error (.scratchOverrun bufferLength.length)
  | free + 1, length, bufferLength =>
    let byte := length &&& 0x7f
    let length := length >>> 7
    if length ≠ 0 then lengthLoop free length (bufferLength ++ [byte ||| 0x80])
    else .ok (bufferLength ++ [byte])

/-- The fixed-header flags computed by `writePacket`. -/
def headerFlags (p_retain : Bool) (p_qos : qos_t) (p_dup : Bool) : Nat :=
  let flags := 0
  let flags := if p_retain then flags ||| 0b01 else flags
  let flags := flags ||| ((p_qos.val <<< 1) &&& (0b011 <<< 1))
  let flags := if p_dup then flags ||| (0b01 <<< 3) else flags
  flags

/-- Method `MqttLite::writePacket`. -/
def writePacket (s : MqttLite) (p_type : packet_type_t) (p_length : Nat) (p_retain : Bool)
    (p_qos : qos_t) (p_dup : Bool) : Except Fault (Bool × MqttLite) := do
  let bufferLength ← lengthLoop BUFFER_LENGTH_SIZE p_length []
  let index := bufferLength.length
  let flags := headerFlags p_retain p_qos p_dup
  let packet := BUFFER_OFFSET - index - 1
  let s ← store s packet ((p_type.val <<< 4) ||| flags)
  let s ← storeBytes bufferLength (packet + 1) s
  let length := (1 + index + p_length) % 2 ^ 32
  if packet + length > s.m_bufferSize then .error (.bufferOverrun s.m_bufferSize)
  else
    let r := s.m_client.write (bytesAt s.m_buffer packet length)
    let s := { s with m_client := r.2 }
    if r.1 ≠ length then .ok (false, s)
    else .ok (true, { s with m_lastOut := s.millis })

/-- The state after a busy-wait `while(!m_client->available())` that gives up: the clock
has reached the first instant at which `t - m_lastIn >= m_timeout` (modulo 2^32). -/
def waitExpired (s : MqttLite) : MqttLite :=
  if (s.millis + 2 ^ 32 - s.m_lastIn) % 2 ^ 32 ≥ s.m_timeout then s
  else { s with millis := (s.m_lastIn + s.m_timeout) % 2 ^ 32 }

/-- Method `MqttLite::readByte`; `p_length` is the value behind the pointer, returned
updated. An empty inbound queue means no byte arrives before the deadline. -/
def readByte (s : MqttLite) (p_length : Nat) : Except Fault (Bool × Nat × MqttLite) :=
  match s.m_client.inbound with
  | [] => .ok (false, p_length, waitExpired s)
  | b :: rest => do
    let s := { s with m_client := { s.m_client with inbound := rest } }
    let s ← store s p_length b
    .ok (true, (p_length + 1) % 2 ^ 32, { s with m_lastIn := s.millis })

/-- The `do ... while(m_buffer[length - 1] & 0x080)` loop of `readPacket`. Returns the
outcome, the cursor `length`, the accumulated `*p_length` and the state. The first argument
bounds the number of iterations. -/
def readLength : Nat → MqttLite → Nat → Nat → Nat → Except Fault (Bool × Nat × Nat × MqttLite)
  | 0, _, _, _, _ => .error .outOfFuel
  | fuel + 1, s, length, p_length, shift => do
    let (ok, length, s) ← readByte s length
    if ok = false then .ok (false, length, p_length, s)
    else if shift > 21 then .ok (false, length, p_length, s)
    else do
      let byte ← load s (length - 1)
      let p_length := (p_length + ((byte &&& 0x7f) <<< shift) % 2 ^ 32) % 2 ^ 32
      let shift := (shift + 7) % 256
      if byte &&& 0x080 ≠ 0 then readLength fuel s length p_length shift
      else .ok (true, length, p_length, s)

/-- The `for(i = 0; i < *p_length; ++i)` loop of `readPacket`; the first argument is the
number of iterations left. -/
def readPayload : Nat → MqttLite → Nat → Except Fault (Bool × MqttLite)
  | 0, s, _ => .ok (true, s)
  | n + 1, s, length => do
    let (ok, length, s) ← readByte s length
    if ok = false then .ok (false, s)
    else readPayload n s length

/-- Method `MqttLite::readPacket`; `p_length` is the value behind the pointer on entry, and
the second component of the result is its value on return. -/
def readPacket (s : MqttLite) (p_length : Nat) : Except Fault (Bool × Nat × MqttLite) := do
  let (ok, length, s) ← readByte s 0
  if ok = false then .ok (false, p_length, s)
  else do
    let (ok, _, p_length, s) ← readLength 5 s length 0 0
    if ok = false then .ok (false, p_length, s)
    else if (BUFFER_OFFSET + p_length) % 2 ^ 32 > s.m_bufferSize then .ok (false, p_length, s)
    else do
      let (ok, s) ← readPayload p_length s BUFFER_OFFSET
      .ok (ok, p_length, s)

/-- In-buffer copy `memmove(m_buffer + dst, m_buffer + src, count)`. -/
def moveBytes (s : MqttLite) (dst src count : Nat) : Except Fault MqttLite :=
  if src + count > s.m_bufferSize then .error (.bufferOverrun s.m_bufferSize)
  else if dst + count > s.m_bufferSize then .error (.bufferOverrun s.m_bufferSize)
  else
    .ok { s with m_buffer := fun j =>
            if dst ≤ j ∧ j < dst + count then s.m_buffer (src + (j - dst)) % 256
            else s.m_buffer j }

/-- The NUL-terminated string a handler reads at `ptr`, scanning at most `bound` bytes. -/
def cstringAt (memory : Nat → Nat) : Nat → Nat → List Nat
  | _, 0 => []
  | ptr, bound + 1 =>
    if memory ptr % 256 = 0 then []
    else (memory ptr % 256) :: cstringAt memory (ptr + 1) bound

/-- The three-callback constructor; `raw` supplies the indeterminate initial contents of
the members the constructor does not initialise. -/
def construct (p_client : Client) (p_publishCallback p_rawCallback : Bool)
    (p_bufferSize p_timeout p_keepAlive : Nat) (raw : MqttLite) : MqttLite :=
  { raw with
    m_client := p_client
    m_publishCallback := p_publishCallback
    m_rawCallback := p_rawCallback
    m_bufferSize := p_bufferSize
    m_timeout := (p_timeout * 1000) % 2 ^ 32
    m_keepAlive := (p_keepAlive * 1000) % 2 ^ 32
    m_state := STATE_DISCONNECTED
    calls := [] }

/-- Method `MqttLite::state`. -/
def state (s : MqttLite) : Int := s.m_state

/-- Method `MqttLite::connected`. -/
def connected (s : MqttLite) : Bool × MqttLite :=
  let s :=
    if s.m_state = STATE_CONNECTED ∧ s.m_client.connected = false then
      { s with m_state := STATE_CONNECTION_LOST, m_client := s.m_client.stop }
    else s
  (s.m_client.connected && decide (s.m_state = STATE_CONNECTED), s)

/-- The connect-flags byte computed by `connect` (lines 82-103). -/
def connectFlags (p_user p_password p_willTopic p_willMessage : Option (List Nat))
    (p_willRetain : Bool) (p_willQos : qos_t) (p_cleanSession : Bool) : Nat :=
  let connectFlags := 0x00
  let connectFlags :=
    if p_user.isSome then
      let connectFlags := connectFlags ||| (0b01 <<< 7)
      if p_password.isSome then connectFlags ||| (0b01 <<< 6) else connectFlags
    else connectFlags
  let connectFlags :=
    if p_willTopic.isSome ∧ p_willMessage.isSome then
      let connectFlags := if p_willRetain then connectFlags ||| (0b01 <<< 5) else connectFlags
      let connectFlags := connectFlags ||| ((p_willQos.val <<< 3) &&& (0b011 <<< 3))
      connectFlags ||| (0b01 <<< 2)
    else connectFlags
  if p_cleanSession then connectFlags ||| (0b01 <<< 1) else connectFlags

/-- The optional will strings of `connect` (lines 111-114): written only if both are given. -/
def connectWill (s : MqttLite) (length : Nat) :
    Option (List Nat) → Option (List Nat) → Except Fault (Nat × MqttLite)
  | some p_willTopic, some p_willMessage => do
    let (n, s) ← writeString s length p_willTopic
    let length := (length + n) % 2 ^ 32
    let (n, s) ← writeString s length p_willMessage
    .ok ((length + n) % 2 ^ 32, s)
  | _, _ => .ok (length, s)

/-- The optional credentials of `connect` (lines 116-122): the password only after a user. -/
def connectCredentials (s : MqttLite) (length : Nat) :
    Option (List Nat) → Option (List Nat) → Except Fault (Nat × MqttLite)
  | some p_user, some p_password => do
    let (n, s) ← writeString s length p_user
    let length := (length + n) % 2 ^ 32
    let (n, s) ← writeString s length p_password
    .ok ((length + n) % 2 ^ 32, s)
  | some p_user, none => do
    let (n, s) ← writeString s length p_user
    .ok ((length + n) % 2 ^ 32, s)
  | none, _ => .ok (length, s)

/-- Assembly of the CONNECT payload in `connect` (lines 72-122): returns `length`. -/
def connectPayload (s : MqttLite) (p_id : List Nat)
    (p_user p_password p_willTopic p_willMessage : Option (List Nat))
    (p_willRetain : Bool) (p_willQos : qos_t) (p_cleanSession : Bool) :
    Except Fault (Nat × MqttLite) := do
  let s ← store s (BUFFER_OFFSET + 0) 0x00
  let s ← store s (BUFFER_OFFSET + 1) 0x04
  let s ← store s (BUFFER_OFFSET + 2) 'M'.toNat
  let s ← store s (BUFFER_OFFSET + 3) 'Q'.toNat
  let s ← store s (BUFFER_OFFSET + 4) 'T'.toNat
  let s ← store s (BUFFER_OFFSET + 5) 'T'.toNat
  let s ← store s (BUFFER_OFFSET + 6) MQTT_LEVEL
  let s ← store s (BUFFER_OFFSET + 7)
    (connectFlags p_user p_password p_willTopic p_willMessage p_willRetain p_willQos
      p_cleanSession)
  let s ← store s (BUFFER_OFFSET + 8) ((s.m_keepAlive / 1000) >>> 8)
  let s ← store s (BUFFER_OFFSET + 9) ((s.m_keepAlive / 1000) &&& 0x0ff)
  let length := 10
  let (n, s) ← writeString s length p_id
  let length := (length + n) % 2 ^ 32
  let (length, s) ← connectWill s length p_willTopic p_willMessage
  connectCredentials s length p_user p_password

/-- The wait for and handling of the reply in `connect` (lines 130-163), entered after
the CONNECT packet has been written. -/
def connectReply (s : MqttLite) (length : Nat) : Except Fault (Bool × MqttLite) :=
  let s := { s with m_lastIn := s.millis }
  if s.m_client.available = 0 then
    let s := waitExpired s
    .ok (false, { s with m_client := s.m_client.stop, m_state := STATE_CONNECTION_TIMEOUT })
  else do
    let (ok, _, s) ← readPacket s length
    if ok = false then
      .ok (false, { s with m_client := s.m_client.stop, m_state := STATE_CONNECT_FAILED })
    else do
      let first ← load s 0
      let type := (first >>> 4) &&& 0x0f
      if type ≠ packet_type_t.PACKET_TYPE_CONNECT_ACK.val then
        .ok (false, { s with m_client := s.m_client.stop, m_state := STATE_CONNECT_FAILED })
      else do
        let code ← load s (BUFFER_OFFSET + 1)
        if code ≠ 0 then
          .ok (false, { s with m_client := s.m_client.stop, m_state := (code : Int) })
        else
          .ok (true, { s with m_state := STATE_CONNECTED, m_pongReceived := true,
                              m_messageId := 0 })

/-- Method `MqttLite::connect` (the eight-argument overload); a null pointer is `none`. -/
def connect (s : MqttLite) (p_id : List Nat)
    (p_user p_password p_willTopic p_willMessage : Option (List Nat))
    (p_willRetain : Bool) (p_willQos : qos_t) (p_cleanSession : Bool) :
    Except Fault (Bool × MqttLite) :=
  if s.m_client.connected = false then .ok (false, s)
  else do
    let (length, s) ← connectPayload s p_id p_user p_password p_willTopic p_willMessage
      p_willRetain p_willQos p_cleanSession
    let (ok, s) ← writePacket s .PACKET_TYPE_CONNECT length false .QOS0 false
    if ok = false then
      .ok (false, { s with m_client := s.m_client.stop, m_state := STATE_CONNECT_FAILED })
    else connectReply s length

/-- The message id selection and field of `publish` (lines 190-198): returns the id and
the advanced `length`. -/
def publishMessageId (s : MqttLite) (length : Nat) (p_qos : qos_t) (p_dupMessageId : Nat) :
    Except Fault (Nat × Nat × MqttLite) :=
  let messageId := 1
  if p_qos = .QOS1 ∨ p_qos = .QOS2 then do
    let r :=
      if p_dupMessageId = 0 then
        ((s.m_messageId + 1) % 65536, { s with m_messageId := (s.m_messageId + 1) % 65536 })
      else (messageId, s)
    let messageId := r.1
    let s ← store r.2 (BUFFER_OFFSET + length) (messageId >>> 8)
    let s ← store s (BUFFER_OFFSET + (length + 1)) (messageId &&& 0x0ff)
    .ok (messageId, length + 2, s)
  else .ok (messageId, length, s)

/-- Method `MqttLite::publish` (the overload with an explicit payload length, which is the
length of `p_payload`). `size_t` is 32 bits wide on the supported boards. -/
def publish (s : MqttLite) (p_topic p_payload : List Nat) (p_retain : Bool) (p_qos : qos_t)
    (p_dupMessageId : Nat) : Except Fault (Nat × MqttLite) :=
  let c := connected s
  let s := c.2
  if c.1 = false then .ok (0, s)
  else if (BUFFER_OFFSET + 2 + strlen p_topic + p_payload.length) % 2 ^ 32 > s.m_bufferSize then
    .ok (0, s)
  else do
    let length := 0
    let (n, s) ← writeString s length p_topic
    let length := (length + n) % 2 ^ 32
    let (messageId, length, s) ← publishMessageId s length p_qos p_dupMessageId
    let s ← storeBytes p_payload (BUFFER_OFFSET + length) s
    let length := (length + p_payload.length) % 2 ^ 32
    let (ok, s) ← writePacket s .PACKET_TYPE_PUBLISH length p_retain p_qos
      (decide (p_dupMessageId > 0))
    if ok = false then
      .ok (0, { s with m_state := STATE_CONNECTION_LOST, m_client := s.m_client.stop })
    else .ok (messageId, s)

/-- The message id selection shared by `subscribe` and `unsubscribe`. -/
def nextMessageId (s : MqttLite) (p_dupMessageId : Nat) : Nat × MqttLite :=
  if p_dupMessageId = 0 then
    ((s.m_messageId + 1) % 65536, { s with m_messageId := (s.m_messageId + 1) % 65536 })
  else (p_dupMessageId, s)

/-- Method `MqttLite::subscribe`. -/
def subscribe (s : MqttLite) (p_topic : List Nat) (p_qos : qos_t) (p_dupMessageId : Nat) :
    Except Fault (Nat × MqttLite) :=
  let c := connected s
  let s := c.2
  if c.1 = false then .ok (0, s)
  else if (BUFFER_OFFSET + 2 + 2 + strlen p_topic + 1) % 2 ^ 32 > s.m_bufferSize then .ok (0, s)
  else do
    let r := nextMessageId s p_dupMessageId
    let messageId := r.1
    let s ← store r.2 (BUFFER_OFFSET + 0) (messageId >>> 8)
    let s ← store s (BUFFER_OFFSET + 1) (messageId &&& 0x0ff)
    let length := 2
    let (n, s) ← writeString s length p_topic
    let length := (length + n) % 2 ^ 32
    let s ← store s (BUFFER_OFFSET + length) p_qos.val
    let length := length + 1
    let (ok, s) ← writePacket s .PACKET_TYPE_SUBSCRIBE length false .QOS1
      (decide (p_dupMessageId > 0))
    if ok = false then
      .ok (0, { s with m_state := STATE_CONNECTION_LOST, m_client := s.m_client.stop })
    else .ok (messageId, s)

/-- Method `MqttLite::unsubscribe`. -/
def unsubscribe (s : MqttLite) (p_topic : List Nat) (p_dupMessageId : Nat) :
    Except Fault (Nat × MqttLite) :=
  let c := connected s
  let s := c.2
  if c.1 = false then .ok (0, s)
  else if (BUFFER_OFFSET + 2 + 2 + strlen p_topic) % 2 ^ 32 > s.m_bufferSize then .ok (0, s)
  else do
    let r := nextMessageId s p_dupMessageId
    let messageId := r.1
    let s ← store r.2 (BUFFER_OFFSET + 0) (messageId >>> 8)
    let s ← store s (BUFFER_OFFSET + 1) (messageId &&& 0x0ff)
    let length := 2
    let (n, s) ← writeString s length p_topic
    let length := (length + n) % 2 ^ 32
    let (ok, s) ← writePacket s .PACKET_TYPE_UNSUBSCRIBE length false .QOS1
      (decide (p_dupMessageId > 0))
    if ok = false then
      .ok (0, { s with m_state := STATE_CONNECTION_LOST, m_client := s.m_client.stop })
    else .ok (messageId, s)

/-- The `case PACKET_TYPE_PUBLISH` branch of `loop` (lines 307-325); `length` is the
remaining length that `readPacket` returned. -/
def loopPublish (s : MqttLite) (length : Nat) : Except Fault MqttLite :=
  if s.m_publishCallback = false then .ok s
  else do
    let high ← load s (BUFFER_OFFSET + 0)
    let low ← load s (BUFFER_OFFSET + 1)
    let topicLength := ((high <<< 8) % 65536) ||| low
    let topic := BUFFER_OFFSET - 1
    let s ← moveBytes s topic (BUFFER_OFFSET + 2) topicLength
    let s ← store s (topic + topicLength) 0
    let first ← load s 0
    let qos := (first >>> 1) &&& 0b011
    let offset := if qos ≠ qos_t.QOS0.val then 2 else 0
    .ok { s with calls := s.calls ++
            [.publish topic (BUFFER_OFFSET + 2 + topicLength + offset)
              ((length + 2 ^ 32 - 2 - topicLength - offset) % 2 ^ 32) s.m_buffer] }

/-- The `switch(type)` of `loop` (lines 299-332). -/
def dispatch (s : MqttLite) (length : Nat) : Except Fault MqttLite := do
  let first ← load s 0
  let type := (first >>> 4) &&& 0x0f
  if type = packet_type_t.PACKET_TYPE_PING_REQUEST.val then do
    let (_, s) ← writePacket s .PACKET_TYPE_PING_RESPONSE 0 false .QOS0 false
    .ok s
  else if type = packet_type_t.PACKET_TYPE_PING_RESPONSE.val then
    .ok { s with m_pongReceived := true }
  else if type = packet_type_t.PACKET_TYPE_PUBLISH.val then loopPublish s length
  else if s.m_rawCallback = false then .ok s
  else
    .ok { s with calls := s.calls ++
            [.raw type (first &&& 0x0f) length BUFFER_OFFSET s.m_buffer] }

/-- The receive half of `loop` (lines 291-335). -/
def loopReceive (s : MqttLite) : Except Fault (Bool × MqttLite) :=
  if s.m_client.available ≠ 0 then do
    let (ok, length, s) ← readPacket s 0
    if ok = false then
      .ok (false, { s with m_client := s.m_client.stop, m_state := STATE_CONNECTION_LOST })
    else do
      let s ← dispatch s length
      .ok (true, s)
  else .ok (true, s)

/-- Method `MqttLite::loop`. `unsigned long` is 32 bits wide on the supported boards. -/
def loop (s : MqttLite) : Except Fault (Bool × MqttLite) :=
  let c := connected s
  let s := c.2
  if c.1 = false then .ok (false, s)
  else
    let t := s.millis
    if (t + 2 ^ 32 - s.m_lastIn) % 2 ^ 32 > s.m_keepAlive
        ∨ (t + 2 ^ 32 - s.m_lastOut) % 2 ^ 32 > s.m_keepAlive then
      if s.m_pongReceived = false then
        .ok (false, { s with m_state := STATE_CONNECTION_TIMEOUT, m_client := s.m_client.stop })
      else do
        let (_, s) ← writePacket s .PACKET_TYPE_PING_REQUEST 0 false .QOS0 false
        loopReceive { s with m_lastIn := t, m_pongReceived := false }
    else loopReceive s

/-- Method `MqttLite::disconnect`. -/
def disconnect (s : MqttLite) : Except Fault MqttLite :=
  let c := connected s
  let s := c.2
  if c.1 then do
    let (_, s) ← writePacket s .PACKET_TYPE_DISCONNECT 0 false .QOS0 false
    .ok { s with m_client := s.m_client.stop, m_state := STATE_DISCONNECTED }
  else .ok { s with m_client := s.m_client.stop, m_state := STATE_DISCONNECTED }


/-! ## Observations and specification-side definitions used to state the properties -/

/-- The memory `memory` with `bytes` (truncated to 8 bits) laid over it from `index` on. -/
def overlay (memory : Nat → Nat) (index : Nat) (bytes : List Nat) : Nat → Nat :=
  fun j => if index ≤ j ∧ j < index + bytes.length then bytes.getD (j - index) 0 % 256
           else memory j

/-- The value `Σ (b_i & 0x7f) << (shift + 7 i)` of a sequence of remaining-length bytes. -/
def lengthSum : Nat → List Nat → Nat
  | _, [] => 0
  | shift, b :: bs => ((b % 256) &&& 0x7f) <<< shift + lengthSum (shift + 7) bs

/-- A byte of the stream has the continuation bit `0x80` set. -/
def continues (b : Nat) : Prop := (b % 256) &&& 0x080 ≠ 0

instance (b : Nat) : Decidable (continues b) := by unfold continues; infer_instance

/-- Every element is a byte value. -/
def isBytes (bs : List Nat) : Prop := ∀ b ∈ bs, b < 256

/-- Every element is a non-NUL character: the list is the contents of a C string. -/
def isCString (cs : List Nat) : Prop := ∀ c ∈ cs, 0 < c ∧ c < 256

instance (bs : List Nat) : Decidable (isBytes bs) := by unfold isBytes; infer_instance

instance (cs : List Nat) : Decidable (isCString cs) := by unfold isCString; infer_instance

/-- An inbound packet as the wire format describes it: the fixed-header byte, the
remaining-length bytes, the payload, and what follows it in the stream. -/
structure Packet where
  first : Nat
  lengthBytes : List Nat
  payload : List Nat
  rest : List Nat
  deriving DecidableEq, Repr

/-- Specification of the remaining-length field: at most `count` bytes, 7 value bits each,
least significant group first, continued while bit 7 is set. Returns the value, the bytes of
the field and the rest of the stream. -/
def decodeLength : Nat → Nat → List Nat → Option (Nat × List Nat × List Nat)
  | 0, _, _ => none
  | _ + 1, _, [] => none
  | count + 1, shift, b :: bs =>
    if continues b then
      match decodeLength count (shift + 7) bs with
      | none => none
      | some (v, lb, rest) => some (((b % 256) &&& 0x7f) <<< shift + v, b :: lb, rest)
    else some (((b % 256) &&& 0x7f) <<< shift, [b], bs)

/-- Specification of the packet decoder: a fixed-header byte, a remaining length of at most
four bytes, and exactly that many payload bytes, which must fit behind the 5-byte header
reserve of a buffer of the given capacity. -/
def decodePacket (capacity : Nat) : List Nat → Option Packet
  | [] => none
  | first :: bs =>
    match decodeLength 4 0 bs with
    | none => none
    | some (v, lb, rest) =>
      if 5 + v ≤ capacity ∧ v ≤ rest.length then
        some { first := first, lengthBytes := lb, payload := rest.take v, rest := rest.drop v }
      else none

/-- The state with the parts a receive operation may touch blanked out. -/
def receiveErase (s : MqttLite) : MqttLite :=
  { s with m_client := { s.m_client with inbound := [] }, m_buffer := fun _ => 0,
           m_lastIn := 0, millis := 0 }

/-- The states agree on everything but the inbound queue, the buffer contents,
`m_lastIn` and the clock. -/
def receiveFrame (s s' : MqttLite) : Prop := receiveErase s' = receiveErase s


/-- The state with the parts a `writePacket` call may touch blanked out. -/
def sendErase (s : MqttLite) : MqttLite :=
  { s with m_client := { s.m_client with written := [], reports := [] }, m_buffer := fun _ => 0,
           m_lastOut := 0 }

/-- The states agree on everything but the transport's write log and pending reports, the
buffer contents and `m_lastOut`. -/
def sendFrame (s s' : MqttLite) : Prop := sendErase s' = sendErase s

/-- The MQTT encoding of a string: 2-byte big-endian length, then the characters. -/
def mqttString (cs : List Nat) : List Nat := cs.length / 256 :: cs.length % 256 :: cs

/-- A string argument the length prefix can describe and `writeString` handles: non-NUL
byte characters, at most 65533 of them (the `uint16_t` counter of `writeString` starts at 2). -/
def validString (cs : List Nat) : Prop := isCString cs ∧ cs.length ≤ 65533

instance (cs : List Nat) : Decidable (validString cs) := by unfold validString; infer_instance

/-- An optional string argument is valid when present. -/
def validOption : Option (List Nat) → Prop
  | none => True
  | some cs => validString cs

instance (o : Option (List Nat)) : Decidable (validOption o) := by
  cases o <;> unfold validOption <;> infer_instance

/-- The will fields of the CONNECT payload: both strings, or nothing. -/
def willBytes : Option (List Nat) → Option (List Nat) → List Nat
  | some p_willTopic, some p_willMessage => mqttString p_willTopic ++ mqttString p_willMessage
  | _, _ => []

/-- The credential fields of the CONNECT payload: user, then password if a user is given. -/
def credentialBytes : Option (List Nat) → Option (List Nat) → List Nat
  | some p_user, some p_password => mqttString p_user ++ mqttString p_password
  | some p_user, none => mqttString p_user
  | none, _ => []

/-- The CONNECT payload as laid out from buffer offset 5 (values before truncation to bytes). -/
def connectBytes (keepAlive : Nat) (p_id : List Nat)
    (p_user p_password p_willTopic p_willMessage : Option (List Nat))
    (p_willRetain : Bool) (p_willQos : qos_t) (p_cleanSession : Bool) : List Nat :=
  [0x00, 0x04, 'M'.toNat, 'Q'.toNat, 'T'.toNat, 'T'.toNat, MQTT_LEVEL,
    connectFlags p_user p_password p_willTopic p_willMessage p_willRetain p_willQos
      p_cleanSession,
    (keepAlive / 1000) >>> 8, (keepAlive / 1000) &&& 0x0ff]
  ++ mqttString p_id ++ willBytes p_willTopic p_willMessage
  ++ credentialBytes p_user p_password

/-- The connect-flags byte as the wire format lays it out:
`user << 7 | password << 6 | willRetain << 5 | willQos << 3 | will << 2 | clean << 1`. -/
def connectFlagsLayout (user password willRetain : Bool) (willQos : Nat) (will clean : Bool) :
    Nat :=
  ((if user then 1 else 0) <<< 7) ||| ((if password then 1 else 0) <<< 6)
    ||| ((if willRetain then 1 else 0) <<< 5) ||| (willQos <<< 3)
    ||| ((if will then 1 else 0) <<< 2) ||| ((if clean then 1 else 0) <<< 1)

/-- The message id `publish` puts on the wire (for QoS 1 and 2) and returns on success,
given the value of the counter `m_messageId` before the call. -/
def publishedId (counter : Nat) (p_qos : qos_t) (p_dupMessageId : Nat) : Nat :=
  if p_qos = .QOS0 then 1
  else if p_dupMessageId = 0 then (counter + 1) % 65536
  else 1

/-- The message-id field of a PUBLISH payload: absent for QoS 0, else 2 bytes big-endian. -/
def idBytes (p_qos : qos_t) (messageId : Nat) : List Nat :=
  if p_qos = .QOS0 then [] else [messageId >>> 8, messageId &&& 0x0ff]

/-- The PUBLISH payload: topic string, message id for QoS 1 and 2, application payload. -/
def publishBytes (p_topic : List Nat) (p_qos : qos_t) (messageId : Nat) (p_payload : List Nat) :
    List Nat :=
  mqttString p_topic ++ idBytes p_qos messageId ++ p_payload

/-- The remaining length of a PUBLISH packet: 2-byte topic length, topic, 2-byte message id
for QoS 1 and 2, application payload. -/
def publishSize (p_topic : List Nat) (p_qos : qos_t) (p_payload : List Nat) : Nat :=
  2 + p_topic.length + (if p_qos = .QOS0 then 0 else 2) + p_payload.length

/-- The message id `subscribe` and `unsubscribe` put on the wire and return on success,
given the value of the counter `m_messageId` before the call. -/
def requestId (counter p_dupMessageId : Nat) : Nat :=
  if p_dupMessageId = 0 then (counter + 1) % 65536 else p_dupMessageId

/-- The SUBSCRIBE payload: message id, topic filter, requested QoS. -/
def subscribeBytes (p_topic : List Nat) (p_qos : qos_t) (messageId : Nat) : List Nat :=
  [messageId >>> 8, messageId &&& 0x0ff] ++ mqttString p_topic ++ [p_qos.val]

/-- The UNSUBSCRIBE payload: message id, topic filter. -/
def unsubscribeBytes (p_topic : List Nat) (messageId : Nat) : List Nat :=
  [messageId >>> 8, messageId &&& 0x0ff] ++ mqttString p_topic

/-- Time elapsed from `since` to `now` on the 32-bit millisecond clock (`now - since` in
`uint32_t` arithmetic). -/
def elapsed (now since : Nat) : Nat := (now + 2 ^ 32 - since) % 2 ^ 32

/-- One call of the sending interface, made with `p_dupMessageId = 0`. -/
inductive Request where
  | publish (p_topic p_payload : List Nat) (p_retain : Bool) (p_qos : qos_t)
  | subscribe (p_topic : List Nat) (p_qos : qos_t)
  | unsubscribe (p_topic : List Nat)

/-- The call a request stands for. -/
def Request.perform (r : Request) (s : MqttLite) : Except Fault (Nat × MqttLite) :=
  match r with
  | .publish p_topic p_payload p_retain p_qos =>
    MqttLite.publish s p_topic p_payload p_retain p_qos 0
  | .subscribe p_topic p_qos => MqttLite.subscribe s p_topic p_qos 0
  | .unsubscribe p_topic => MqttLite.unsubscribe s p_topic 0

/-- Whether a request is one that is assigned a message id: a publish at QoS 1 or 2, a
subscribe or an unsubscribe. -/
def Request.takesId : Request → Bool
  | .publish _ _ _ p_qos => decide (p_qos ≠ .QOS0)
  | .subscribe _ _ => true
  | .unsubscribe _ => true

/-- The requests whose sizes the size checks of the code handle on a buffer of the given
capacity: lengths are 32-bit values, and a publish is either turned down by the check of
`publish` or fits the buffer with its message-id bytes and has a remaining length of at
most 2097151. -/
def Request.admissible (capacity : Nat) : Request → Prop
  | .publish p_topic p_payload _ p_qos =>
    7 + strlen p_topic + p_payload.length < 2 ^ 32
    ∧ (5 + 2 + strlen p_topic + p_payload.length > capacity
      ∨ (5 + (2 + strlen p_topic + (if p_qos = .QOS0 then 0 else 2) + p_payload.length)
            ≤ capacity
          ∧ 2 + strlen p_topic + (if p_qos = .QOS0 then 0 else 2) + p_payload.length
            ≤ 2097151))
  | .subscribe p_topic _ => strlen p_topic + 10 < 2 ^ 32
  | .unsubscribe p_topic => strlen p_topic + 10 < 2 ^ 32

instance (capacity : Nat) (r : Request) : Decidable (r.admissible capacity) := by
  cases r <;> unfold Request.admissible <;> infer_instance

/-- The requests made one after the other; returns the value each call returned. -/
def session : MqttLite → List Request → Except Fault (List Nat × MqttLite)
  | s, [] => .ok ([], s)
  | s, r :: rs => do
    let (v, s) ← r.perform s
    let (vs, s) ← session s rs
    .ok (v :: vs, s)

/-- Whether a call went through to its last line, `return messageId`: it handed its packet
to the transport (the write log grew by one entry) and left the client Connected. A call
turned down by a pre-check writes nothing, and a call whose write fell short leaves the
state ConnectionLost. -/
def delivered (before after : MqttLite) : Bool :=
  decide (after.m_client.written.length = before.m_client.written.length + 1)
    && decide (after.m_state = STATE_CONNECTED)

/-- The ids handed out in a session: the values returned to the id-taking requests that
went through, in the order of the calls. -/
def assignedIds : MqttLite → List Request → Except Fault (List Nat)
  | _, [] => .ok []
  | s, r :: rs => do
    let (v, s') ← r.perform s
    let ids ← assignedIds s' rs
    .ok (if r.takesId && delivered s s' then v :: ids else ids)

/-- The packet type in a fixed-header byte: its high nibble. -/
def headerType (first : Nat) : Nat := ((first % 256) >>> 4) &&& 0x0f

/-- The QoS in a fixed-header byte: bits 1 and 2. -/
def headerQos (first : Nat) : Nat := ((first % 256) >>> 1) &&& 0b011

/-- The topic length a PUBLISH payload announces in its first two bytes, big-endian. -/
def announcedTopicLength (payload : List Nat) : Nat :=
  (payload.getD 0 0 % 256) * 256 + payload.getD 1 0 % 256

/-- A PUBLISH packet whose payload holds what its header announces: the 2-byte topic
length, that many topic bytes and, for QoS 1 and 2, the 2-byte message id. -/
def wellFormedPublish (pk : Packet) : Prop :=
  2 + announcedTopicLength pk.payload + (if headerQos pk.first ≠ 0 then 2 else 0)
    ≤ pk.payload.length

instance (pk : Packet) : Decidable (wellFormedPublish pk) := by
  unfold wellFormedPublish; infer_instance

/-- The arguments of a call of the publish handler: topic pointer, payload pointer and
payload length. -/
def publishArgs : HandlerCall → Option (Nat × Nat × Nat)
  | .publish topic payload length _ => some (topic, payload, length)
  | .raw _ _ _ _ _ => none

/-- The arguments of a call of the raw handler: type, flags, length and data pointer. -/
def rawArgs : HandlerCall → Option (Nat × Nat × Nat × Nat)
  | .publish _ _ _ _ => none
  | .raw type flags length data _ => some (type, flags, length, data)

/-- One call of the public interface. -/
inductive Call where
  | connect (p_id : List Nat) (p_user p_password p_willTopic p_willMessage : Option (List Nat))
      (p_willRetain : Bool) (p_willQos : qos_t) (p_cleanSession : Bool)
  | connected
  | publish (p_topic p_payload : List Nat) (p_retain : Bool) (p_qos : qos_t)
      (p_dupMessageId : Nat)
  | subscribe (p_topic : List Nat) (p_qos : qos_t) (p_dupMessageId : Nat)
  | unsubscribe (p_topic : List Nat) (p_dupMessageId : Nat)
  | loop
  | disconnect

/-- The call made on an object: the object afterwards and whether the call was a `connect`
that answered true. -/
def Call.run (c : Call) (s : MqttLite) : Except Fault (Bool × MqttLite) :=
  match c with
  | .connect p_id p_user p_password p_willTopic p_willMessage p_willRetain p_willQos
      p_cleanSession =>
    MqttLite.connect s p_id p_user p_password p_willTopic p_willMessage p_willRetain p_willQos
      p_cleanSession
  | .connected => .ok (false, (MqttLite.connected s).2)
  | .publish p_topic p_payload p_retain p_qos p_dupMessageId =>
    (MqttLite.publish s p_topic p_payload p_retain p_qos p_dupMessageId).map
      (fun r => (false, r.2))
  | .subscribe p_topic p_qos p_dupMessageId =>
    (MqttLite.subscribe s p_topic p_qos p_dupMessageId).map (fun r => (false, r.2))
  | .unsubscribe p_topic p_dupMessageId =>
    (MqttLite.unsubscribe s p_topic p_dupMessageId).map (fun r => (false, r.2))
  | .loop => (MqttLite.loop s).map (fun r => (false, r.2))
  | .disconnect => (MqttLite.disconnect s).map (fun r => (false, r))

/-- The objects reachable from construction through calls of the public interface that run
to their end, the transport and the clock changing freely in between. The flag records
whether some `connect` has answered true. -/
inductive Reachable : MqttLite → Bool → Prop where
  | construct (p_client : Client) (p_publishCallback p_rawCallback : Bool)
      (p_bufferSize p_timeout p_keepAlive : Nat) (raw : MqttLite) :
      Reachable (MqttLite.construct p_client p_publishCallback p_rawCallback p_bufferSize
        p_timeout p_keepAlive raw) false
  | environment (s : MqttLite) (b : Bool) (client : Client) (t : Nat) :
      Reachable s b → Reachable { s with m_client := client, millis := t } b
  | call (s : MqttLite) (b : Bool) (c : Call) (r : Bool) (s' : MqttLite) :
      Reachable s b → c.run s = .ok (r, s') → Reachable s' (b || r)

/-- Number of bytes of a packet with `length` payload bytes (`length ≤ 2097151`): the
fixed-header byte, the remaining-length field and the payload. -/
def wireLength (length : Nat) : Nat :=
  1 + (if length ≤ 127 then 1 else if length ≤ 16383 then 2 else 3) + length

/-- The count the transport will report for its next `write` of `count` bytes. -/
def nextReport (c : Client) (count : Nat) : Nat :=
  match c.reports with
  | [] => count
  | r :: _ => r

/-- The write log of the transport after a call, empty if the call faulted. -/
def writtenOf {α : Type} : Except Fault (α × MqttLite) → List (List Nat)
  | .ok r => r.2.m_client.written
  | .error _ => []

/-- The value a call returned, if it did not fault. -/
def valueOf {α : Type} : Except Fault (α × MqttLite) → Option α
  | .ok r => some r.1
  | .error _ => none

/-! ## Concrete instances used to exercise the theorems -/

/-- A connected transport that accepts every write, holding the given inbound bytes. -/
def sampleClient (inbound : List Nat) : Client :=
  { up := true, inbound := inbound, written := [], reports := [], stops := 0 }

/-- A client object in state `Connected` with a zeroed buffer of the given capacity, both
handlers registered, 15 s timeout and keepalive, over `sampleClient inbound`. -/
def sample (capacity : Nat) (inbound : List Nat) : MqttLite :=
  { m_client := sampleClient inbound
    m_publishCallback := true
    m_rawCallback := true
    m_bufferSize := capacity
    m_timeout := 15000
    m_keepAlive := 15000
    m_state := STATE_CONNECTED
    m_buffer := fun _ => 0
    m_lastIn := 0
    m_lastOut := 0
    m_pongReceived := true
    m_messageId := 0
    millis := 0
    calls := [] }

/-- Like `sample`, but before the handshake: state `Disconnected`. -/
def sampleFresh (capacity : Nat) (inbound : List Nat) : MqttLite :=
  { sample capacity inbound with m_state := STATE_DISCONNECTED }

/-- Like `sampleFresh`, over a transport that is not connected. -/
def sampleOffline (capacity : Nat) : MqttLite :=
  { sampleFresh capacity [] with m_client := { sampleClient [] with up := false } }

/-- Like `sampleFresh`, over a transport whose next write reports `count` bytes. -/
def sampleReporting (capacity count : Nat) (inbound : List Nat) : MqttLite :=
  { sampleFresh capacity inbound with
    m_client := { sampleClient inbound with reports := [count] } }


/-! ## Bit arithmetic -/

theorem and_0x7f (n : Nat) : n &&& 0x7f = n % 128 :=
  Nat.and_pow_two_sub_one_eq_mod n 7

theorem and_0xff (n : Nat) : n &&& 0xff = n % 256 :=
  Nat.and_pow_two_sub_one_eq_mod n 8

theorem shr7 (n : Nat) : n >>> 7 = n / 128 := by
  simp [Nat.shiftRight_eq_div_pow]

theorem shr8 (n : Nat) : n >>> 8 = n / 256 := by
  simp [Nat.shiftRight_eq_div_pow]

theorem or_0x80 (b : Nat) (h : b < 128) : b ||| 0x80 = b + 128 := by
  interval_cases b <;> rfl

theorem and_0x80_eq (b : Nat) (h : b < 256) : b &&& 0x80 = if b < 128 then 0 else 128 := by
  interval_cases b <;> rfl

theorem continues_iff (b : Nat) : continues b ↔ 128 ≤ b % 256 := by
  unfold continues
  have h : b % 256 < 256 := Nat.mod_lt _ (by norm_num)
  rw [and_0x80_eq _ h]
  split <;> omega

/-! ## Buffer accesses -/

@[simp] theorem bind_ok {α β : Type} (a : α) (f : α → Except Fault β) :
    (Except.ok a >>= f) = f a := rfl

@[simp] theorem bind_error {α β : Type} (e : Fault) (f : α → Except Fault β) :
    ((Except.error e : Except Fault α) >>= f) = Except.error e := rfl

theorem overlay_nil (memory : Nat → Nat) (index : Nat) : overlay memory index [] = memory := by
  funext j
  simp [overlay]

theorem overlay_cons (memory : Nat → Nat) (index b : Nat) (bs : List Nat) :
    overlay (overlay memory index [b]) (index + 1) bs = overlay memory index (b :: bs) := by
  funext j
  simp only [overlay, List.length_cons, List.length_nil]
  by_cases h1 : index + 1 ≤ j ∧ j < index + 1 + bs.length
  · have h2 : index ≤ j ∧ j < index + (bs.length + 1) := by omega
    have h3 : j - index = (j - (index + 1)) + 1 := by omega
    rw [if_pos h1, if_pos h2, h3, List.getD_cons_succ]
  · rw [if_neg h1]
    by_cases h4 : j = index
    · subst h4
      simp
    · have h5 : ¬ (index ≤ j ∧ j < index + (0 + 1)) := by omega
      have h6 : ¬ (index ≤ j ∧ j < index + (bs.length + 1)) := by omega
      rw [if_neg h5, if_neg h6]

theorem store_eq (s : MqttLite) (index value : Nat) (h : index < s.m_bufferSize) :
    store s index value = .ok { s with m_buffer := overlay s.m_buffer index [value] } := by
  unfold store
  rw [if_pos h]
  congr 2
  funext j
  simp only [overlay, List.length_cons, List.length_nil]
  by_cases h1 : j = index
  · subst h1
    simp
  · have h2 : ¬ (index ≤ j ∧ j < index + (0 + 1)) := by omega
    rw [if_neg h1, if_neg h2]

theorem store_fault (s : MqttLite) (index value : Nat) (h : s.m_bufferSize ≤ index) :
    store s index value = .error (.bufferOverrun index) := by
  unfold store
  rw [if_neg (by omega)]

theorem storeBytes_eq (bytes : List Nat) (index : Nat) (s : MqttLite)
    (h : index + bytes.length ≤ s.m_bufferSize) :
    storeBytes bytes index s = .ok { s with m_buffer := overlay s.m_buffer index bytes } := by
  induction bytes generalizing index s with
  | nil => simp [storeBytes, overlay_nil]
  | cons b bs ih =>
    simp only [List.length_cons] at h
    simp only [storeBytes]
    rw [store_eq s index b (by omega)]
    simp only [bind_ok]
    rw [ih]
    · simp [overlay_cons]
    · simp only
      omega

theorem bytesAt_length (memory : Nat → Nat) (index count : Nat) :
    (bytesAt memory index count).length = count := by
  simp [bytesAt]

theorem bytesAt_add (memory : Nat → Nat) (index a b : Nat) :
    bytesAt memory index (a + b) = bytesAt memory index a ++ bytesAt memory (index + a) b := by
  simp only [bytesAt, List.range_add, List.map_append, List.map_map]
  congr 1
  apply List.map_congr_left
  intro j _
  simp [Nat.add_assoc]

theorem bytesAt_one (memory : Nat → Nat) (index : Nat) :
    bytesAt memory index 1 = [memory index % 256] := by
  simp [bytesAt, List.range_succ]

theorem bytesAt_congr (m1 m2 : Nat → Nat) (index count : Nat)
    (h : ∀ j, index ≤ j → j < index + count → m1 j % 256 = m2 j % 256) :
    bytesAt m1 index count = bytesAt m2 index count := by
  simp only [bytesAt]
  apply List.map_congr_left
  intro j hj
  rw [List.mem_range] at hj
  exact h _ (by omega) (by omega)

theorem overlay_outside (memory : Nat → Nat) (index : Nat) (bytes : List Nat) (j : Nat)
    (h : j < index ∨ index + bytes.length ≤ j) : overlay memory index bytes j = memory j := by
  simp only [overlay]
  rw [if_neg (by omega)]

theorem overlay_inside (memory : Nat → Nat) (index : Nat) (bytes : List Nat) (j : Nat)
    (h : j < bytes.length) : overlay memory index bytes (index + j) = bytes.getD j 0 % 256 := by
  simp only [overlay]
  rw [if_pos (by omega)]
  congr 2
  omega

theorem bytesAt_overlay_outside (memory : Nat → Nat) (index : Nat) (bytes : List Nat)
    (i count : Nat) (h : i + count ≤ index ∨ index + bytes.length ≤ i) :
    bytesAt (overlay memory index bytes) i count = bytesAt memory i count := by
  apply bytesAt_congr
  intro j h1 h2
  rw [overlay_outside _ _ _ _ (by omega)]

theorem bytesAt_overlay_self (memory : Nat → Nat) (index : Nat) (bytes : List Nat) :
    bytesAt (overlay memory index bytes) index bytes.length = bytes.map (fun b => b % 256) := by
  apply List.ext_getElem
  · simp [bytesAt]
  · intro n h1 h2
    simp only [bytesAt, List.length_map, List.length_range] at h1
    simp only [bytesAt, List.getElem_map, List.getElem_range]
    rw [overlay_inside _ _ _ _ h1, Nat.mod_mod]
    congr 1
    rw [List.getD_eq_getElem _ _ h1]

theorem map_mod_of_isBytes (bs : List Nat) (h : isBytes bs) : bs.map (fun b => b % 256) = bs := by
  induction bs with
  | nil => rfl
  | cons b bs ih =>
    have hb : b < 256 := h b (List.mem_cons_self _ _)
    have ht : isBytes bs := fun x hx => h x (List.mem_cons_of_mem _ hx)
    simp [ih ht, Nat.mod_eq_of_lt hb]


/-! ## The remaining-length encoder of `writePacket` -/

theorem lengthLoop_eq (n : Nat) :
    lengthLoop BUFFER_LENGTH_SIZE n [] =
      if n < 128 then .ok [n]
      else if n < 16384 then .ok [n % 128 + 128, n / 128]
      else if n < 2097152 then .ok [n % 128 + 128, n / 128 % 128 + 128, n / 16384]
      else .error (.scratchOverrun 3) := by
  have h1 : n % 128 < 128 := Nat.mod_lt _ (by norm_num)
  have h2 : n / 128 % 128 < 128 := Nat.mod_lt _ (by norm_num)
  have h3 : n / 128 / 128 % 128 < 128 := Nat.mod_lt _ (by norm_num)
  have h4 : n / 128 / 128 = n / 16384 := by rw [Nat.div_div_eq_div_mul]
  simp only [lengthLoop, BUFFER_LENGTH_SIZE, and_0x7f, shr7, or_0x80 _ h1, or_0x80 _ h2,
    or_0x80 _ h3, List.nil_append, List.cons_append, List.length_cons, List.length_nil]
  by_cases c1 : n < 128
  · have : n / 128 = 0 := by omega
    simp [c1, this, Nat.mod_eq_of_lt c1]
  · by_cases c2 : n < 16384
    · have e1 : n / 128 ≠ 0 := by omega
      have e2 : n / 128 / 128 = 0 := by omega
      have e3 : n / 128 % 128 = n / 128 := by omega
      simp [c1, c2, e1, e2, e3]
    · by_cases c3 : n < 2097152
      · have e1 : n / 128 ≠ 0 := by omega
        have e2 : n / 128 / 128 ≠ 0 := by omega
        have e3 : n / 128 / 128 / 128 = 0 := by omega
        have e4 : n / 128 / 128 % 128 = n / 16384 := by omega
        simp [c1, c2, c3, e1, e2, e3, e4]
      · have e1 : n / 128 ≠ 0 := by omega
        have e2 : n / 128 / 128 ≠ 0 := by omega
        have e3 : n / 128 / 128 / 128 ≠ 0 := by omega
        simp [c1, c2, c3, e1, e2, e3]

theorem lengthLoop_ok (n : Nat) (bl : List Nat)
    (h : lengthLoop BUFFER_LENGTH_SIZE n [] = .ok bl) :
    n < 2097152 ∧ 1 ≤ bl.length ∧ bl.length ≤ 3 ∧ isBytes bl := by
  rw [lengthLoop_eq] at h
  unfold isBytes
  split at h
  · injection h with h
    subst h
    simp
    omega
  · split at h
    · injection h with h
      subst h
      simp
      omega
    · split at h
      · injection h with h
        subst h
        simp
        omega
      · cases h

theorem lengthLoop_total (n : Nat) (h : n < 2097152) :
    ∃ bl, lengthLoop BUFFER_LENGTH_SIZE n [] = .ok bl := by
  rw [lengthLoop_eq]
  by_cases c1 : n < 128
  · exact ⟨_, by rw [if_pos c1]⟩
  · by_cases c2 : n < 16384
    · exact ⟨_, by rw [if_neg c1, if_pos c2]⟩
    · exact ⟨_, by rw [if_neg c1, if_neg c2, if_pos h]⟩

/-! ## `writePacket` -/

/-- The fixed-header byte that `writePacket` stores at `packet[0]`. -/
theorem headerFlags_lt (p_retain : Bool) (p_qos : qos_t) (p_dup : Bool) :
    headerFlags p_retain p_qos p_dup < 16 := by
  cases p_retain <;> cases p_qos <;> cases p_dup <;> decide

theorem writePacket_wire (memory : Nat → Nat) (header : Nat) (bl : List Nat) (count : Nat)
    (hk1 : 1 ≤ bl.length) (hk3 : bl.length ≤ 3) (hb : isBytes bl) :
    bytesAt (overlay (overlay memory (4 - bl.length) [header]) (5 - bl.length) bl)
        (4 - bl.length) (1 + bl.length + count) =
      (header % 256) :: (bl ++ bytesAt memory 5 count) := by
  have e1 : 4 - bl.length + 1 = 5 - bl.length := by omega
  have e2 : 4 - bl.length + (1 + bl.length) = 5 := by omega
  have p1 : bytesAt (overlay (overlay memory (4 - bl.length) [header]) (5 - bl.length) bl)
      (4 - bl.length) 1 = [header % 256] := by
    rw [bytesAt_overlay_outside _ (5 - bl.length) bl (4 - bl.length) 1 (by omega)]
    exact bytesAt_overlay_self memory (4 - bl.length) [header]
  have p2 : bytesAt (overlay (overlay memory (4 - bl.length) [header]) (5 - bl.length) bl)
      (5 - bl.length) bl.length = bl := by
    rw [bytesAt_overlay_self, map_mod_of_isBytes _ hb]
  have p3 : bytesAt (overlay (overlay memory (4 - bl.length) [header]) (5 - bl.length) bl)
      5 count = bytesAt memory 5 count := by
    rw [bytesAt_overlay_outside _ (5 - bl.length) bl 5 count (by omega)]
    rw [bytesAt_overlay_outside _ (4 - bl.length) [header] 5 count
      (by simp only [List.length_cons, List.length_nil]; omega)]
  rw [bytesAt_add, bytesAt_add, e1, e2, p1, p2, p3]
  simp

theorem writePacket_eq (s : MqttLite) (p_type : packet_type_t) (p_length : Nat)
    (p_retain : Bool) (p_qos : qos_t) (p_dup : Bool) (bl wire : List Nat)
    (hbl : lengthLoop BUFFER_LENGTH_SIZE p_length [] = .ok bl)
    (hcap : 5 + p_length ≤ s.m_bufferSize)
    (hwire : wire = (((p_type.val <<< 4) ||| headerFlags p_retain p_qos p_dup) % 256) ::
                (bl ++ bytesAt s.m_buffer 5 p_length)) :
    writePacket s p_type p_length p_retain p_qos p_dup =
      .ok (decide ((s.m_client.write wire).1 = 1 + bl.length + p_length),
        { s with
          m_buffer := overlay (overlay s.m_buffer (4 - bl.length)
              [(p_type.val <<< 4) ||| headerFlags p_retain p_qos p_dup]) (5 - bl.length) bl
          m_client := (s.m_client.write wire).2
          m_lastOut :=
            if (s.m_client.write wire).1 = 1 + bl.length + p_length then s.millis
            else s.m_lastOut }) := by
  obtain ⟨hn, hk1, hk3, hb⟩ := lengthLoop_ok _ _ hbl
  have hmod : (1 + bl.length + p_length) % 2 ^ 32 = 1 + bl.length + p_length := by
    apply Nat.mod_eq_of_lt
    omega
  unfold writePacket
  rw [hbl]
  simp only [bind_ok, bind, Except.bind]
  have e0 : BUFFER_OFFSET - bl.length - 1 = 4 - bl.length := by
    simp only [BUFFER_OFFSET]
    omega
  rw [e0, store_eq _ _ _ (by omega)]
  simp only
  have e1 : 4 - bl.length + 1 = 5 - bl.length := by omega
  rw [e1, storeBytes_eq _ _ _ (by simp only; omega)]
  simp only [hmod, writePacket_wire _ _ _ _ hk1 hk3 hb, ← hwire]
  rw [if_neg (by omega)]
  by_cases hw : (s.m_client.write wire).1 = 1 + bl.length + p_length
  · simp [hw]
  · simp [hw]


/-! ## `writeString` -/

theorem overlay_append (memory : Nat → Nat) (index : Nat) (as bs : List Nat) :
    overlay (overlay memory index as) (index + as.length) bs = overlay memory index (as ++ bs) := by
  funext j
  simp only [overlay, List.length_append]
  by_cases h1 : index + as.length ≤ j ∧ j < index + as.length + bs.length
  · rw [if_pos h1, if_pos (by omega)]
    have e : j - index = as.length + (j - (index + as.length)) := by omega
    rw [e, List.getD_append_right _ _ _ _ (by omega)]
    congr 2
    omega
  · rw [if_neg h1]
    by_cases h2 : index ≤ j ∧ j < index + as.length
    · rw [if_pos h2, if_pos (by omega), List.getD_append _ _ _ _ (by omega)]
    · rw [if_neg h2, if_neg (by omega)]

theorem overlay_prepend (memory : Nat → Nat) (index : Nat) (as bs : List Nat) :
    overlay (overlay memory (index + as.length) bs) index as = overlay memory index (as ++ bs) := by
  funext j
  simp only [overlay, List.length_append]
  by_cases h2 : index ≤ j ∧ j < index + as.length
  · rw [if_pos h2, if_pos (by omega), List.getD_append _ _ _ _ (by omega)]
  · rw [if_neg h2]
    by_cases h1 : index + as.length ≤ j ∧ j < index + as.length + bs.length
    · rw [if_pos h1, if_pos (by omega)]
      have e : j - index = as.length + (j - (index + as.length)) := by omega
      rw [e, List.getD_append_right _ _ _ _ (by omega)]
      congr 2
      omega
    · rw [if_neg h1, if_neg (by omega)]

theorem toUInt8_high (i : Nat) (h : 2 ≤ i) :
    toUInt8 (((i : Int) - 2) >>> (8 : Nat)) = (i - 2) / 256 % 256 := by
  unfold toUInt8
  have e : ((i : Int) - 2) >>> (8 : Nat) = ((i : Int) - 2) / 256 := by
    simp [Int.shiftRight_eq_div_pow]
  rw [e]
  omega

theorem toUInt8_low (i : Nat) (h : 2 ≤ i) :
    toUInt8 (((i : Int) - 2) % 256) = (i - 2) % 256 := by
  unfold toUInt8
  omega

theorem writeStringLoop_eq (p_position : Nat) (cs : List Nat) (i : Nat) (s : MqttLite)
    (hc : isCString cs) (hi : i + cs.length ≤ 65535)
    (hcap : 5 + p_position + i + cs.length ≤ s.m_bufferSize) :
    writeStringLoop p_position cs i s =
      .ok (i + cs.length, { s with m_buffer := overlay s.m_buffer (5 + p_position + i) cs }) := by
  induction cs generalizing i s with
  | nil => simp [writeStringLoop, overlay_nil]
  | cons c cs ih =>
    have hc0 : 0 < c ∧ c < 256 := hc c (List.mem_cons_self _ _)
    have hct : isCString cs := fun x hx => hc x (List.mem_cons_of_mem _ hx)
    simp only [List.length_cons] at hi hcap
    have hne : c % 256 ≠ 0 := by omega
    simp only [writeStringLoop, if_neg hne, BUFFER_OFFSET]
    rw [store_eq _ _ _ (by omega)]
    simp only [bind_ok, bind, Except.bind]
    have e : (i + 1) % 65536 = i + 1 := Nat.mod_eq_of_lt (by omega)
    rw [e, ih (i + 1) _ hct (by omega) (by simp only; omega)]
    simp only [List.length_cons]
    have e2 : 5 + p_position + (i + 1) = 5 + p_position + i + 1 := by omega
    rw [e2, overlay_cons]
    congr 2
    omega

/-- The MQTT encoding of a string: 2-byte big-endian length, then the characters. -/
theorem writeString_eq (s : MqttLite) (p_position : Nat) (cs : List Nat)
    (hc : isCString cs) (hlen : cs.length ≤ 65533)
    (hcap : 5 + p_position + 2 + cs.length ≤ s.m_bufferSize) :
    writeString s p_position cs =
      .ok (2 + cs.length,
        { s with m_buffer := overlay s.m_buffer (5 + p_position)
                  (cs.length / 256 :: cs.length % 256 :: cs) }) := by
  unfold writeString
  rw [writeStringLoop_eq p_position cs 2 s hc (by omega) (by omega)]
  simp only [bind_ok, bind, Except.bind, BUFFER_OFFSET]
  rw [store_eq _ _ _ (by simp only; omega)]
  simp only
  rw [store_eq _ _ _ (by simp only; omega)]
  simp only
  rw [toUInt8_high _ (by omega), toUInt8_low _ (by omega), overlay_cons]
  have e : 2 + cs.length - 2 = cs.length := by omega
  have e2 : 5 + p_position + 2 = 5 + p_position + [cs.length / 256 % 256, cs.length % 256].length := by
    simp
  have e3 : cs.length / 256 % 256 = cs.length / 256 := Nat.mod_eq_of_lt (by omega)
  rw [e, e2, overlay_prepend, e3]
  rfl


/-! ## `readByte`, `readLength`, `readPayload`, `readPacket` -/

theorem receiveFrame_refl (s : MqttLite) : receiveFrame s s := rfl

theorem receiveFrame_trans {a b c : MqttLite} (h1 : receiveFrame a b) (h2 : receiveFrame b c) :
    receiveFrame a c := by
  unfold receiveFrame at *
  rw [h2, h1]

theorem receiveFrame_waitExpired (s : MqttLite) : receiveFrame s (waitExpired s) := by
  unfold receiveFrame waitExpired receiveErase
  split <;> rfl

theorem receiveFrame_bufferSize {s s' : MqttLite} (h : receiveFrame s s') :
    s'.m_bufferSize = s.m_bufferSize := by
  have e : receiveErase s' = receiveErase s := h
  have e2 := congrArg MqttLite.m_bufferSize e
  exact e2

theorem receiveFrame_up {s s' : MqttLite} (h : receiveFrame s s') :
    s'.m_client.up = s.m_client.up := by
  have e : receiveErase s' = receiveErase s := h
  have e2 := congrArg (fun x => x.m_client.up) e
  exact e2

theorem receiveFrame_stops {s s' : MqttLite} (h : receiveFrame s s') :
    s'.m_client.stops = s.m_client.stops := by
  have e : receiveErase s' = receiveErase s := h
  have e2 := congrArg (fun x => x.m_client.stops) e
  exact e2

theorem readByte_nil (s : MqttLite) (cur : Nat) (h : s.m_client.inbound = []) :
    readByte s cur = .ok (false, cur, waitExpired s) := by
  unfold readByte
  rw [h]

theorem readByte_cons (s : MqttLite) (cur b : Nat) (rest : List Nat)
    (h : s.m_client.inbound = b :: rest) (hcap : cur < s.m_bufferSize) (hcur : cur + 1 < 2 ^ 32) :
    readByte s cur =
      .ok (true, cur + 1,
        { s with m_client := { s.m_client with inbound := rest }
                 m_buffer := overlay s.m_buffer cur [b]
                 m_lastIn := s.millis }) := by
  unfold readByte
  rw [h]
  simp only
  rw [store_eq _ _ _ (by simp only; omega)]
  simp only [bind_ok, bind, Except.bind, Nat.mod_eq_of_lt hcur]

theorem readByte_fault (s : MqttLite) (cur b : Nat) (rest : List Nat)
    (h : s.m_client.inbound = b :: rest) (hcap : s.m_bufferSize ≤ cur) :
    readByte s cur = .error (.bufferOverrun cur) := by
  unfold readByte
  rw [h]
  simp only
  rw [store_fault _ _ _ (by simp only; omega)]
  rfl

theorem load_eq (s : MqttLite) (index : Nat) (h : index < s.m_bufferSize) :
    load s index = .ok (s.m_buffer index % 256) := by
  unfold load
  rw [if_pos h]

theorem overlay_single (memory : Nat → Nat) (index b : Nat) :
    overlay memory index [b] index = b % 256 := by
  simp [overlay]

theorem shl_and_lt (b shift : Nat) : (b &&& 0x7f) <<< shift ≤ 127 * 2 ^ shift := by
  rw [and_0x7f, Nat.shiftLeft_eq]
  have h : b % 128 ≤ 127 := by omega
  exact Nat.mul_le_mul_right _ h

theorem pow_le_21 (shift : Nat) (h : shift ≤ 21) : 2 ^ shift ≤ 2097152 := by
  have := Nat.pow_le_pow_right (show 0 < 2 by norm_num) h
  simpa using this


theorem readLength_nil (fuel : Nat) (s : MqttLite) (cur acc shift : Nat)
    (h : s.m_client.inbound = []) :
    readLength (fuel + 1) s cur acc shift = .ok (false, cur, acc, waitExpired s) := by
  simp only [readLength, readByte_nil s cur h, bind_ok, bind, Except.bind, if_true]

theorem readLength_fault (fuel : Nat) (s : MqttLite) (cur acc shift b : Nat) (rest : List Nat)
    (h : s.m_client.inbound = b :: rest) (hcap : s.m_bufferSize ≤ cur) :
    readLength (fuel + 1) s cur acc shift = .error (.bufferOverrun cur) := by
  simp only [readLength, readByte_fault s cur b rest h hcap, bind, Except.bind]

theorem readLength_over (fuel : Nat) (s : MqttLite) (cur acc shift b : Nat) (rest : List Nat)
    (h : s.m_client.inbound = b :: rest) (hcap : cur < s.m_bufferSize) (hcur : cur + 1 < 2 ^ 32)
    (hs : 21 < shift) :
    readLength (fuel + 1) s cur acc shift =
      .ok (false, cur + 1, acc,
        { s with m_client := { s.m_client with inbound := rest }
                 m_buffer := overlay s.m_buffer cur [b]
                 m_lastIn := s.millis }) := by
  simp only [readLength, readByte_cons s cur b rest h hcap hcur, bind_ok, bind, Except.bind]
  simp [hs]

theorem readLength_cons (fuel : Nat) (s : MqttLite) (cur acc shift b : Nat) (rest : List Nat)
    (h : s.m_client.inbound = b :: rest) (hcap : cur < s.m_bufferSize) (hcur : cur + 1 < 2 ^ 32)
    (hs : shift ≤ 21) (hacc : acc < 2 ^ shift) :
    readLength (fuel + 1) s cur acc shift =
      if continues b then
        readLength fuel
          { s with m_client := { s.m_client with inbound := rest }
                   m_buffer := overlay s.m_buffer cur [b]
                   m_lastIn := s.millis }
          (cur + 1) (acc + ((b % 256) &&& 0x7f) <<< shift) (shift + 7)
      else
        .ok (true, cur + 1, acc + ((b % 256) &&& 0x7f) <<< shift,
          { s with m_client := { s.m_client with inbound := rest }
                   m_buffer := overlay s.m_buffer cur [b]
                   m_lastIn := s.millis }) := by
  have hp := pow_le_21 shift hs
  have hx := shl_and_lt (b % 256) shift
  have e1 : (((b % 256) &&& 0x7f) <<< shift) % 2 ^ 32 = ((b % 256) &&& 0x7f) <<< shift :=
    Nat.mod_eq_of_lt (by omega)
  have e2 : (acc + ((b % 256) &&& 0x7f) <<< shift) % 2 ^ 32
      = acc + ((b % 256) &&& 0x7f) <<< shift := Nat.mod_eq_of_lt (by omega)
  have e3 : (shift + 7) % 256 = shift + 7 := Nat.mod_eq_of_lt (by omega)
  simp only [readLength, readByte_cons s cur b rest h hcap hcur, bind_ok, bind, Except.bind]
  rw [if_neg (by simp), if_neg (by omega)]
  rw [load_eq _ _ (by simp only; omega)]
  simp only [Nat.add_sub_cancel, overlay_single, Nat.mod_mod, e1, e2, e3]
  rfl

theorem receiveFrame_readByte (s : MqttLite) (b : Nat) (rest : List Nat) (cur : Nat) :
    receiveFrame s
      { s with m_client := { s.m_client with inbound := rest }
               m_buffer := overlay s.m_buffer cur [b]
               m_lastIn := s.millis } := rfl

/-- Enough continuation bytes to push the shift past 21 are never accepted. -/
theorem readLength_reject (conts : List Nat) :
    ∀ (fuel : Nat) (s : MqttLite) (cur acc shift : Nat) (rest : List Nat),
      s.m_client.inbound = conts ++ rest → (∀ c ∈ conts, continues c) →
      21 < shift + 7 * conts.length → acc < 2 ^ shift → cur + conts.length + 1 < 2 ^ 32 →
      ∀ r, readLength fuel s cur acc shift = .ok r → r.1 = false := by
  induction conts with
  | nil =>
    intro fuel s cur acc shift rest hin _ hs _ hcur r hr
    simp only [List.length_nil, Nat.mul_zero, Nat.add_zero, List.nil_append] at hs hcur hin
    cases fuel with
    | zero => simp [readLength] at hr
    | succ fuel =>
      cases hrest : rest with
      | nil =>
        rw [readLength_nil fuel s cur acc shift (by rw [hin, hrest])] at hr
        injection hr with hr
        rw [← hr]
      | cons b bs =>
        by_cases hcap : cur < s.m_bufferSize
        · rw [readLength_over fuel s cur acc shift b bs (by rw [hin, hrest]) hcap hcur hs] at hr
          injection hr with hr
          rw [← hr]
        · rw [readLength_fault fuel s cur acc shift b bs (by rw [hin, hrest]) (by omega)] at hr
          cases hr
  | cons c cs ih =>
    intro fuel s cur acc shift rest hin hc hs hacc hcur r hr
    simp only [List.length_cons, List.cons_append] at hs hcur hin
    cases fuel with
    | zero => simp [readLength] at hr
    | succ fuel =>
      by_cases hcap : cur < s.m_bufferSize
      · by_cases hs2 : 21 < shift
        · rw [readLength_over fuel s cur acc shift c _ hin hcap (by omega) hs2] at hr
          injection hr with hr
          rw [← hr]
        · rw [readLength_cons fuel s cur acc shift c _ hin hcap (by omega) (by omega) hacc,
            if_pos (hc c (List.mem_cons_self _ _))] at hr
          have hp := pow_le_21 shift (by omega)
          have hx := shl_and_lt (c % 256) shift
          refine ih fuel _ (cur + 1) _ (shift + 7) rest rfl
            (fun x hx => hc x (List.mem_cons_of_mem _ hx)) (by omega) ?_ (by omega) r hr
          rw [Nat.pow_add]
          omega
      · rw [readLength_fault fuel s cur acc shift c _ hin (by omega)] at hr
        cases hr

/-- A well-formed remaining-length field of `conts.length + 1 ≤ 4` bytes is decoded to the
sum of its 7-bit groups. -/
theorem readLength_eq (conts : List Nat) :
    ∀ (fuel : Nat) (s : MqttLite) (cur acc shift last : Nat) (rest : List Nat),
      s.m_client.inbound = conts ++ last :: rest → (∀ c ∈ conts, continues c) →
      ¬ continues last → shift + 7 * conts.length ≤ 21 → conts.length < fuel →
      cur + conts.length < s.m_bufferSize → acc < 2 ^ shift → cur + conts.length + 1 < 2 ^ 32 →
      readLength fuel s cur acc shift =
        .ok (true, cur + (conts.length + 1), acc + lengthSum shift (conts ++ [last]),
          { s with m_client := { s.m_client with inbound := rest }
                   m_buffer := overlay s.m_buffer cur (conts ++ [last])
                   m_lastIn := s.millis })
      ∧ acc + lengthSum shift (conts ++ [last]) < 2 ^ (shift + 7 * (conts.length + 1)) := by
  induction conts with
  | nil =>
    intro fuel s cur acc shift last rest hin _ hl hs hf hcap hacc hcur
    simp only [List.length_nil, Nat.mul_zero, Nat.add_zero, List.nil_append] at *
    obtain ⟨fuel, rfl⟩ : ∃ f, fuel = f + 1 := ⟨fuel - 1, by omega⟩
    rw [readLength_cons fuel s cur acc shift last rest hin hcap hcur hs hacc, if_neg hl]
    have hx := shl_and_lt (last % 256) shift
    simp only [lengthSum, Nat.add_zero, Nat.zero_add, Nat.mul_one, true_and]
    rw [Nat.pow_add]
    omega
  | cons c cs ih =>
    intro fuel s cur acc shift last rest hin hc hl hs hf hcap hacc hcur
    simp only [List.length_cons, List.cons_append] at *
    obtain ⟨fuel, rfl⟩ : ∃ f, fuel = f + 1 := ⟨fuel - 1, by omega⟩
    have hp := pow_le_21 shift (by omega)
    have hx := shl_and_lt (c % 256) shift
    have hacc2 : acc + ((c % 256) &&& 0x7f) <<< shift < 2 ^ (shift + 7) := by
      rw [Nat.pow_add]
      omega
    rw [readLength_cons fuel s cur acc shift c _ hin (by omega) (by omega) (by omega) hacc,
      if_pos (hc c (List.mem_cons_self _ _))]
    obtain ⟨h1, h2⟩ := ih fuel
      { s with m_client := { s.m_client with inbound := cs ++ last :: rest }
               m_buffer := overlay s.m_buffer cur [c]
               m_lastIn := s.millis }
      (cur + 1) (acc + ((c % 256) &&& 0x7f) <<< shift) (shift + 7) last rest rfl
      (fun x hx => hc x (List.mem_cons_of_mem _ hx)) hl (by omega) (by omega)
      (by simp only; omega) hacc2 (by omega)
    rw [h1]
    constructor
    · simp only [lengthSum, overlay_cons]
      have e1 : cur + 1 + (cs.length + 1) = cur + (cs.length + 1 + 1) := by omega
      have e3 : acc + ((c % 256) &&& 0x7f) <<< shift + lengthSum (shift + 7) (cs ++ [last])
          = acc + (((c % 256) &&& 0x7f) <<< shift + lengthSum (shift + 7) (cs ++ [last])) :=
        Nat.add_assoc _ _ _
      rw [e1, e3]
    · simp only [lengthSum]
      have e2 : shift + 7 + 7 * (cs.length + 1) = shift + 7 * (cs.length + 1 + 1) := by omega
      rw [← e2, ← Nat.add_assoc]
      exact h2


/-- The remaining-length loop of `readPacket` refines the specification `decodeLength`
(given room for the up to five bytes it may store). -/
theorem readLength_decode (k : Nat) :
    ∀ (s : MqttLite) (cur acc shift : Nat),
      shift + 7 * k = 28 → acc < 2 ^ shift → cur + k < s.m_bufferSize → cur + k + 1 < 2 ^ 32 →
      (∀ v lb rest, decodeLength k shift s.m_client.inbound = some (v, lb, rest) →
        readLength (k + 1) s cur acc shift =
          .ok (true, cur + lb.length, acc + v,
            { s with m_client := { s.m_client with inbound := rest }
                     m_buffer := overlay s.m_buffer cur lb
                     m_lastIn := s.millis })
        ∧ acc + v < 2 ^ 28 ∧ 1 ≤ lb.length ∧ lb.length ≤ k)
      ∧ (decodeLength k shift s.m_client.inbound = none →
        ∃ cur' len s', readLength (k + 1) s cur acc shift = .ok (false, cur', len, s')
          ∧ receiveFrame s s') := by
  induction k with
  | zero =>
    intro s cur acc shift hs hacc hcap hcur
    constructor
    · intro v lb rest h
      simp [decodeLength] at h
    · intro _
      cases hin : s.m_client.inbound with
      | nil =>
        exact ⟨_, _, _, readLength_nil 0 s cur acc shift hin, receiveFrame_waitExpired s⟩
      | cons b bs =>
        exact ⟨_, _, _, readLength_over 0 s cur acc shift b bs hin (by omega) (by omega)
          (by omega), receiveFrame_readByte s b bs cur⟩
  | succ k ih =>
    intro s cur acc shift hs hacc hcap hcur
    cases hin : s.m_client.inbound with
    | nil =>
      constructor
      · intro v lb rest h
        simp [decodeLength] at h
      · intro _
        exact ⟨_, _, _, readLength_nil (k + 1) s cur acc shift hin, receiveFrame_waitExpired s⟩
    | cons b bs =>
      have hp := pow_le_21 shift (by omega)
      have hx := shl_and_lt (b % 256) shift
      have hpow : 2 ^ (shift + 7) ≤ 2 ^ 28 :=
        Nat.pow_le_pow_right (by norm_num) (by omega)
      have hacc2 : acc + ((b % 256) &&& 0x7f) <<< shift < 2 ^ (shift + 7) := by
        rw [Nat.pow_add]
        omega
      rw [readLength_cons (k + 1) s cur acc shift b bs hin (by omega) (by omega) (by omega) hacc]
      by_cases hc : continues b
      · rw [if_pos hc]
        obtain ⟨ih1, ih2⟩ := ih
          { s with m_client := { s.m_client with inbound := bs }
                   m_buffer := overlay s.m_buffer cur [b]
                   m_lastIn := s.millis }
          (cur + 1) (acc + ((b % 256) &&& 0x7f) <<< shift) (shift + 7) (by omega) hacc2
          (by simp only; omega) (by omega)
        simp only [decodeLength, if_pos hc]
        cases hd : decodeLength k (shift + 7) bs with
        | none =>
          constructor
          · intro v lb rest h
            simp at h
          · intro _
            obtain ⟨cur', len, s', e1, e2⟩ := ih2 hd
            exact ⟨cur', len, s', e1, receiveFrame_trans (receiveFrame_readByte s b bs cur) e2⟩
        | some r =>
          obtain ⟨v', lb', rest'⟩ := r
          constructor
          · intro v lb rest h
            simp only [Option.some.injEq, Prod.mk.injEq] at h
            obtain ⟨hv, hlb, hrest⟩ := h
            subst hv hlb hrest
            obtain ⟨e1, e2, e3, e4⟩ := ih1 v' lb' rest' hd
            rw [e1]
            refine ⟨?_, by omega, by simp, by simp; omega⟩
            simp only [overlay_cons, List.length_cons]
            have a1 : cur + 1 + lb'.length = cur + (lb'.length + 1) := by omega
            have a2 : acc + ((b % 256) &&& 0x7f) <<< shift + v'
                = acc + (((b % 256) &&& 0x7f) <<< shift + v') := Nat.add_assoc _ _ _
            rw [a1, a2]
          · intro h
            simp at h
      · rw [if_neg hc]
        simp only [decodeLength, if_neg hc]
        constructor
        · intro v lb rest h
          simp only [Option.some.injEq, Prod.mk.injEq] at h
          obtain ⟨hv, hlb, hrest⟩ := h
          subst hv hlb hrest
          refine ⟨rfl, by omega, by simp, by simp⟩
        · intro h
          simp at h

theorem decodeLength_spec (k : Nat) :
    ∀ (shift : Nat) (bs : List Nat) (v : Nat) (lb rest : List Nat),
      decodeLength k shift bs = some (v, lb, rest) →
      bs = lb ++ rest ∧ v = lengthSum shift lb ∧ 1 ≤ lb.length ∧ lb.length ≤ k
        ∧ (∀ c ∈ lb.dropLast, continues c) ∧ (∀ c, lb.getLast? = some c → ¬ continues c) := by
  induction k with
  | zero =>
    intro shift bs v lb rest h
    simp [decodeLength] at h
  | succ k ih =>
    intro shift bs v lb rest h
    cases bs with
    | nil => simp [decodeLength] at h
    | cons b bs =>
      simp only [decodeLength] at h
      by_cases hc : continues b
      · rw [if_pos hc] at h
        cases hd : decodeLength k (shift + 7) bs with
        | none => simp [hd] at h
        | some r =>
          obtain ⟨v', lb', rest'⟩ := r
          simp only [hd, Option.some.injEq, Prod.mk.injEq] at h
          obtain ⟨hv, hlb, hrest⟩ := h
          subst hv hlb hrest
          obtain ⟨e1, e2, e3, e4, e5, e6⟩ := ih (shift + 7) bs v' lb' rest' hd
          obtain ⟨x, xs, hx⟩ : ∃ x xs, lb' = x :: xs := by
            cases lb' with
            | nil => simp at e3
            | cons x xs => exact ⟨x, xs, rfl⟩
          refine ⟨by rw [e1]; rfl, by rw [e2]; rfl, by simp, by simp; omega, ?_, ?_⟩
          · intro c hcm
            rw [hx, List.dropLast_cons₂, List.mem_cons] at hcm
            rcases hcm with rfl | hcm
            · exact hc
            · exact e5 c (by rw [hx]; exact hcm)
          · intro c hcl
            rw [hx, List.getLast?_cons_cons] at hcl
            exact e6 c (by rw [hx]; exact hcl)
      · rw [if_neg hc] at h
        simp only [Option.some.injEq, Prod.mk.injEq] at h
        obtain ⟨hv, hlb, hrest⟩ := h
        subst hv hlb hrest
        refine ⟨rfl, by simp [lengthSum], by simp, by simp, by simp, ?_⟩
        intro c hcl
        simp at hcl
        rw [← hcl]
        exact hc

theorem readPayload_eq (payload : List Nat) :
    ∀ (s : MqttLite) (cur : Nat) (rest : List Nat),
      s.m_client.inbound = payload ++ rest → cur + payload.length ≤ s.m_bufferSize →
      cur + payload.length < 2 ^ 32 → s.m_lastIn = s.millis →
      readPayload payload.length s cur =
        .ok (true, { s with m_client := { s.m_client with inbound := rest }
                            m_buffer := overlay s.m_buffer cur payload }) := by
  induction payload with
  | nil =>
    intro s cur rest hin _ _ _
    simp only [List.nil_append] at hin
    simp only [List.length_nil, readPayload, overlay_nil, ← hin]
  | cons b bs ih =>
    intro s cur rest hin hcap hcur hlast
    simp only [List.length_cons, List.cons_append] at hin hcap hcur
    simp only [List.length_cons, readPayload,
      readByte_cons s cur b (bs ++ rest) hin (by omega) (by omega), bind_ok, bind, Except.bind]
    rw [if_neg (by simp)]
    rw [ih _ (cur + 1) rest rfl (by simp only; omega) (by omega) rfl]
    simp only [overlay_cons, hlast]

theorem readPayload_short (n : Nat) :
    ∀ (s : MqttLite) (cur : Nat),
      s.m_client.inbound.length < n → cur + n ≤ s.m_bufferSize → cur + n < 2 ^ 32 →
      ∃ s', readPayload n s cur = .ok (false, s') ∧ receiveFrame s s' := by
  induction n with
  | zero =>
    intro s cur h _ _
    omega
  | succ n ih =>
    intro s cur h hcap hcur
    cases hin : s.m_client.inbound with
    | nil =>
      refine ⟨waitExpired s, ?_, receiveFrame_waitExpired s⟩
      simp only [readPayload, readByte_nil s cur hin, bind_ok, bind, Except.bind, if_true]
    | cons b bs =>
      rw [hin, List.length_cons] at h
      obtain ⟨s', e1, e2⟩ := ih
        { s with m_client := { s.m_client with inbound := bs }
                 m_buffer := overlay s.m_buffer cur [b]
                 m_lastIn := s.millis }
        (cur + 1) (by simp only; omega) (by simp only; omega) (by omega)
      refine ⟨s', ?_, receiveFrame_trans (receiveFrame_readByte s b bs cur) e2⟩
      simp only [readPayload, readByte_cons s cur b bs hin (by omega) (by omega), bind_ok, bind,
        Except.bind]
      rw [if_neg (by simp)]
      exact e1


/-- A well-formed packet that fits the buffer is accepted, consumed exactly, and laid out
in the buffer: header byte at 0, length bytes from 1, payload from 5. -/
theorem readPacket_eq (s : MqttLite) (p_length first last : Nat)
    (conts payload rest : List Nat)
    (hin : s.m_client.inbound = first :: (conts ++ last :: (payload ++ rest)))
    (hc : ∀ c ∈ conts, continues c) (hl : ¬ continues last) (hk : conts.length ≤ 3)
    (hlen : payload.length = lengthSum 0 (conts ++ [last]))
    (hcap : 5 + payload.length ≤ s.m_bufferSize) :
    readPacket s p_length =
      .ok (true, payload.length,
        { s with m_client := { s.m_client with inbound := rest }
                 m_buffer := overlay (overlay (overlay s.m_buffer 0 [first]) 1 (conts ++ [last]))
                               5 payload
                 m_lastIn := s.millis }) := by
  obtain ⟨h1, h2⟩ := readLength_eq conts 5
    { s with m_client := { s.m_client with inbound := conts ++ last :: (payload ++ rest) }
             m_buffer := overlay s.m_buffer 0 [first]
             m_lastIn := s.millis }
    1 0 0 last (payload ++ rest) rfl hc hl (by omega) (by omega) (by simp only; omega)
    (by norm_num) (by omega)
  simp only [Nat.zero_add] at h1 h2
  have hpow : 2 ^ (7 * (conts.length + 1)) ≤ 2 ^ 28 :=
    Nat.pow_le_pow_right (by norm_num) (by omega)
  have hL : payload.length < 2 ^ 28 := by omega
  unfold readPacket
  rw [readByte_cons s 0 first _ hin (by omega) (by norm_num)]
  simp only [bind_ok, bind, Except.bind, Nat.zero_add]
  rw [if_neg (by simp), h1]
  simp only [← hlen, BUFFER_OFFSET]
  rw [if_neg (by simp), if_neg (by omega)]
  rw [readPayload_eq payload _ 5 rest rfl (by simp only; omega) (by omega) rfl]

theorem decodePacket_cons_none (capacity first : Nat) (bs : List Nat)
    (h : decodeLength 4 0 bs = none) : decodePacket capacity (first :: bs) = none := by
  simp only [decodePacket, h]

theorem decodePacket_cons_some (capacity first : Nat) (bs : List Nat) (v : Nat)
    (lb rest : List Nat) (h : decodeLength 4 0 bs = some (v, lb, rest)) :
    decodePacket capacity (first :: bs) =
      if 5 + v ≤ capacity ∧ v ≤ rest.length then
        some { first := first, lengthBytes := lb, payload := rest.take v, rest := rest.drop v }
      else none := by
  simp only [decodePacket, h]

/-- The code `readPacket` refines the specification `decodePacket` on every buffer of at
least 6 bytes: it accepts exactly the packets the specification accepts, consuming exactly
their bytes, and otherwise returns `false`. -/
theorem readPacket_decode (s : MqttLite) (p_length : Nat) (hcap : 6 ≤ s.m_bufferSize) :
    (∀ pk, decodePacket s.m_bufferSize s.m_client.inbound = some pk →
      readPacket s p_length =
        .ok (true, pk.payload.length,
          { s with m_client := { s.m_client with inbound := pk.rest }
                   m_buffer := overlay (overlay (overlay s.m_buffer 0 [pk.first]) 1
                                 pk.lengthBytes) 5 pk.payload
                   m_lastIn := s.millis }))
    ∧ (decodePacket s.m_bufferSize s.m_client.inbound = none →
      ∃ len s', readPacket s p_length = .ok (false, len, s') ∧ receiveFrame s s') := by
  cases hin : s.m_client.inbound with
  | nil =>
    constructor
    · intro pk h
      simp [decodePacket] at h
    · intro _
      refine ⟨p_length, waitExpired s, ?_, receiveFrame_waitExpired s⟩
      unfold readPacket
      rw [readByte_nil s 0 hin]
      simp only [bind_ok, bind, Except.bind, if_true]
  | cons first bs =>
    obtain ⟨d1, d2⟩ := readLength_decode 4
      { s with m_client := { s.m_client with inbound := bs }
               m_buffer := overlay s.m_buffer 0 [first]
               m_lastIn := s.millis }
      1 0 0 (by norm_num) (by norm_num) (by simp only; omega) (by norm_num)
    have hf := receiveFrame_readByte s first bs 0
    have hstart : readPacket s p_length =
        (readLength 5
          { s with m_client := { s.m_client with inbound := bs }
                   m_buffer := overlay s.m_buffer 0 [first]
                   m_lastIn := s.millis } 1 0 0) >>= fun r =>
          if r.1 = false then .ok (false, r.2.2.1, r.2.2.2)
          else if (5 + r.2.2.1) % 2 ^ 32 > r.2.2.2.m_bufferSize then
            .ok (false, r.2.2.1, r.2.2.2)
          else (readPayload r.2.2.1 r.2.2.2 5) >>= fun q => .ok (q.1, r.2.2.1, q.2) := by
      unfold readPacket
      rw [readByte_cons s 0 first bs hin (by omega) (by norm_num)]
      simp only [bind_ok, bind, Except.bind, Nat.zero_add, BUFFER_OFFSET]
      rw [if_neg (by simp)]
    rw [hstart]
    cases hd : decodeLength 4 0 bs with
    | none =>
      rw [decodePacket_cons_none _ _ _ hd]
      constructor
      · intro pk h
        cases h
      · intro _
        obtain ⟨cur', len, s', e1, e2⟩ := d2 hd
        refine ⟨len, s', ?_, receiveFrame_trans hf e2⟩
        rw [e1]
        rfl
    | some r =>
      obtain ⟨v, lb, rest⟩ := r
      obtain ⟨e1, e2, e3, e4⟩ := d1 v lb rest hd
      simp only [Nat.zero_add] at e1 e2
      have hmod : (5 + v) % 2 ^ 32 = 5 + v := Nat.mod_eq_of_lt (by omega)
      rw [e1, decodePacket_cons_some _ _ _ _ _ _ hd]
      simp only [bind_ok, hmod]
      by_cases hfit : 5 + v ≤ s.m_bufferSize
      · have hfit2 : ¬ (5 + v > s.m_bufferSize) := by omega
        by_cases hv : v ≤ rest.length
        · have hl : (rest.take v).length = v := by
            rw [List.length_take]
            omega
          have h3 := readPayload_eq (rest.take v)
            { s with m_client := { s.m_client with inbound := rest }
                     m_buffer := overlay (overlay s.m_buffer 0 [first]) 1 lb
                     m_lastIn := s.millis }
            5 (rest.drop v) (by simp) (by simp only; omega) (by omega) rfl
          rw [hl] at h3
          simp only [hfit, hv, hfit2, and_self, if_true, if_false, h3, bind_ok]
          constructor
          · intro pk h
            simp only [Option.some.injEq] at h
            subst h
            simp [hl]
          · intro h
            cases h
        · obtain ⟨s', p1, p2⟩ := readPayload_short v
            { s with m_client := { s.m_client with inbound := rest }
                     m_buffer := overlay (overlay s.m_buffer 0 [first]) 1 lb
                     m_lastIn := s.millis }
            5 (by simp only; omega) (by simp only; omega) (by omega)
          simp only [hfit, hv, hfit2, and_false, if_false, p1, bind_ok]
          constructor
          · intro pk h
            simp at h
          · intro _
            exact ⟨v, s', by simp, receiveFrame_trans (by exact rfl) p2⟩
      · have hfit2 : 5 + v > s.m_bufferSize := by omega
        simp only [hfit, hfit2, false_and, if_false, if_true]
        constructor
        · intro pk h
          simp at h
        · intro _
          exact ⟨v, _, rfl, by exact rfl⟩


theorem readPayload_total (n : Nat) :
    ∀ (s : MqttLite) (cur : Nat), cur + n ≤ s.m_bufferSize → cur + n < 2 ^ 32 →
      ∃ ok s', readPayload n s cur = .ok (ok, s') ∧ receiveFrame s s' := by
  induction n with
  | zero =>
    intro s cur _ _
    exact ⟨true, s, rfl, receiveFrame_refl s⟩
  | succ n ih =>
    intro s cur hcap hcur
    cases hin : s.m_client.inbound with
    | nil =>
      refine ⟨false, waitExpired s, ?_, receiveFrame_waitExpired s⟩
      simp only [readPayload, readByte_nil s cur hin, bind_ok, bind, Except.bind, if_true]
    | cons b bs =>
      obtain ⟨ok, s', e1, e2⟩ := ih
        { s with m_client := { s.m_client with inbound := bs }
                 m_buffer := overlay s.m_buffer cur [b]
                 m_lastIn := s.millis }
        (cur + 1) (by simp only; omega) (by omega)
      refine ⟨ok, s', ?_, receiveFrame_trans (receiveFrame_readByte s b bs cur) e2⟩
      simp only [readPayload, readByte_cons s cur b bs hin (by omega) (by omega), bind_ok, bind,
        Except.bind]
      rw [if_neg (by simp)]
      exact e1

/-! ## C2: the remaining-length encoder -/

/-- What the encoder produces is a well-formed remaining-length field with value `n`. -/
theorem lengthLoop_decodes (n : Nat) (bl : List Nat)
    (h : lengthLoop BUFFER_LENGTH_SIZE n [] = .ok bl) :
    ∃ conts last, bl = conts ++ [last] ∧ (∀ c ∈ conts, continues c) ∧ ¬ continues last
      ∧ conts.length ≤ 2 ∧ lengthSum 0 bl = n
      ∧ bl.length = (if n ≤ 127 then 1 else if n ≤ 16383 then 2 else 3) := by
  rw [lengthLoop_eq] at h
  split at h
  · injection h with h
    subst h
    refine ⟨[], n, rfl, by simp, ?_, by simp, ?_, ?_⟩
    · rw [continues_iff]
      omega
    · simp only [lengthSum, and_0x7f, Nat.shiftLeft_eq]
      omega
    · rw [if_pos (by omega)]
      rfl
  · split at h
    · injection h with h
      subst h
      refine ⟨[n % 128 + 128], n / 128, rfl, ?_, ?_, by simp, ?_, ?_⟩
      · intro c hc
        simp only [List.mem_singleton] at hc
        rw [hc, continues_iff]
        omega
      · rw [continues_iff]
        omega
      · simp only [lengthSum, and_0x7f, Nat.shiftLeft_eq]
        omega
      · rw [if_neg (by omega), if_pos (by omega)]
        rfl
    · split at h
      · injection h with h
        subst h
        refine ⟨[n % 128 + 128, n / 128 % 128 + 128], n / 16384, rfl, ?_, ?_, by simp, ?_, ?_⟩
        · intro c hc
          simp only [List.mem_cons, List.mem_singleton, List.not_mem_nil, or_false] at hc
          rcases hc with hc | hc <;> rw [hc, continues_iff] <;> omega
        · rw [continues_iff]
          omega
        · simp only [lengthSum, and_0x7f, Nat.shiftLeft_eq]
          omega
        · rw [if_neg (by omega), if_neg (by omega)]
          rfl
      · cases h

/-- Supporting result for C2: for every length up to 2097151 the encoder of `writePacket`
emits 1, 2 or 3 bytes (1 up to 127, 2 up to 16383), every byte but the last has bit 7 set,
and the decoder of `readPacket` applied to those bytes returns exactly that length. -/
theorem remaining_length_roundtrip (n : Nat) (hn : n ≤ 2097151) :
    ∃ bl, lengthLoop BUFFER_LENGTH_SIZE n [] = .ok bl
      ∧ bl.length = (if n ≤ 127 then 1 else if n ≤ 16383 then 2 else 3)
      ∧ (∀ b ∈ bl.dropLast, 128 ≤ b ∧ b < 256)
      ∧ ∀ (s : MqttLite) (p_length first : Nat) (rest : List Nat),
          5 ≤ s.m_bufferSize → s.m_client.inbound = first :: (bl ++ rest) →
          ∃ ok s', readPacket s p_length = .ok (ok, n, s') := by
  obtain ⟨bl, hbl⟩ := lengthLoop_total n (by omega)
  obtain ⟨conts, last, e1, e2, e3, e4, e5, e6⟩ := lengthLoop_decodes n bl hbl
  obtain ⟨_, _, _, hb⟩ := lengthLoop_ok n bl hbl
  refine ⟨bl, hbl, e6, ?_, ?_⟩
  · intro b hbm
    have hmem : b ∈ bl := List.mem_of_mem_dropLast hbm
    have hlt : b < 256 := hb b hmem
    rw [e1, List.dropLast_concat] at hbm
    have hc := e2 b hbm
    rw [continues_iff] at hc
    omega
  · intro s p_length first rest hcap hin
    subst e1
    obtain ⟨h1, h2⟩ := readLength_eq conts 5
      { s with m_client := { s.m_client with inbound := conts ++ last :: rest }
               m_buffer := overlay s.m_buffer 0 [first]
               m_lastIn := s.millis }
      1 0 0 last rest rfl e2 e3 (by omega) (by omega) (by simp only; omega)
      (by norm_num) (by omega)
    simp only [Nat.zero_add, e5] at h1 h2
    unfold readPacket
    rw [readByte_cons s 0 first (conts ++ last :: rest) (by simpa using hin) (by omega)
      (by norm_num)]
    simp only [bind_ok, bind, Except.bind, Nat.zero_add]
    rw [if_neg (by simp), h1]
    simp only [BUFFER_OFFSET]
    rw [if_neg (by simp)]
    have hmod : (5 + n) % 2 ^ 32 = 5 + n := Nat.mod_eq_of_lt (by omega)
    rw [hmod]
    by_cases hfit : 5 + n > s.m_bufferSize
    · rw [if_pos hfit]
      exact ⟨false, _, rfl⟩
    · rw [if_neg hfit]
      obtain ⟨ok, s', p1, _⟩ := readPayload_total n
        { s with m_client := { s.m_client with inbound := rest }
                 m_buffer := overlay (overlay s.m_buffer 0 [first]) 1 (conts ++ [last])
                 m_lastIn := s.millis }
        5 (by simp only; omega) (by omega)
      rw [p1]
      exact ⟨ok, s', rfl⟩

theorem remaining_length_roundtrip_witness :
    ∃ bl, lengthLoop BUFFER_LENGTH_SIZE 16384 [] = .ok bl
      ∧ bl.length = (if 16384 ≤ 127 then 1 else if 16384 ≤ 16383 then 2 else 3)
      ∧ (∀ b ∈ bl.dropLast, 128 ≤ b ∧ b < 256)
      ∧ ∀ (s : MqttLite) (p_length first : Nat) (rest : List Nat),
          5 ≤ s.m_bufferSize → s.m_client.inbound = first :: (bl ++ rest) →
          ∃ ok s', readPacket s p_length = .ok (ok, 16384, s') :=
  remaining_length_roundtrip 16384 (by decide)

/-- C2 (code defect): the values 0, 127, 128, 16383, 16384 and 2097151 are encoded in 1 to 3
bytes, but for 2097152 and 268435455, which need a fourth byte, the encoder inside
`writePacket` stores at `bufferLength[3]`, outside the 3-byte array. -/
theorem C2_fourth_length_byte_overruns_bufferLength :
    lengthLoop BUFFER_LENGTH_SIZE 0 [] = .ok [0]
    ∧ lengthLoop BUFFER_LENGTH_SIZE 127 [] = .ok [127]
    ∧ lengthLoop BUFFER_LENGTH_SIZE 128 [] = .ok [128, 1]
    ∧ lengthLoop BUFFER_LENGTH_SIZE 16383 [] = .ok [255, 127]
    ∧ lengthLoop BUFFER_LENGTH_SIZE 16384 [] = .ok [128, 128, 1]
    ∧ lengthLoop BUFFER_LENGTH_SIZE 2097151 [] = .ok [255, 255, 127]
    ∧ lengthLoop BUFFER_LENGTH_SIZE 2097152 [] = .error (.scratchOverrun 3)
    ∧ lengthLoop BUFFER_LENGTH_SIZE 268435455 [] = .error (.scratchOverrun 3) :=
  ⟨rfl, rfl, rfl, rfl, rfl, rfl, rfl, rfl⟩


/-! ## C3: the 4-byte cap on the inbound remaining length -/

theorem readPacket_rejects_fifth_byte (s : MqttLite) (p_length first c1 c2 c3 c4 : Nat)
    (rest : List Nat)
    (hin : s.m_client.inbound = first :: c1 :: c2 :: c3 :: c4 :: rest)
    (h1 : continues c1) (h2 : continues c2) (h3 : continues c3) (h4 : continues c4) :
    ∀ len s', readPacket s p_length ≠ .ok (true, len, s') := by
  intro len s' hr
  by_cases hcap : 0 < s.m_bufferSize
  · unfold readPacket at hr
    rw [readByte_cons s 0 first _ hin hcap (by norm_num)] at hr
    simp only [bind_ok, bind, Except.bind, Nat.zero_add] at hr
    rw [if_neg (by simp)] at hr
    have hrej := readLength_reject [c1, c2, c3, c4] 5
      { s with m_client := { s.m_client with inbound := c1 :: c2 :: c3 :: c4 :: rest }
               m_buffer := overlay s.m_buffer 0 [first]
               m_lastIn := s.millis }
      1 0 0 rest rfl
      (by
        intro c hc
        simp only [List.mem_cons, List.mem_singleton, List.not_mem_nil, or_false] at hc
        rcases hc with rfl | rfl | rfl | rfl <;> assumption)
      (by simp) (by norm_num) (by simp)
    cases hres : readLength 5
      { s with m_client := { s.m_client with inbound := c1 :: c2 :: c3 :: c4 :: rest }
               m_buffer := overlay s.m_buffer 0 [first]
               m_lastIn := s.millis } 1 0 0 with
    | error e =>
      rw [hres] at hr
      cases hr
    | ok r =>
      have hf := hrej r hres
      obtain ⟨b, cur, len2, s2⟩ := r
      simp only at hf
      subst hf
      rw [hres] at hr
      simp at hr
  · unfold readPacket at hr
    rw [readByte_fault s 0 first _ hin (by omega)] at hr
    cases hr

/-- C3: whatever the inbound stream, `readPacket` does not succeed when the first four
remaining-length bytes all carry the continuation bit (it returns `false`, given room for
the fifth byte it reads before giving up); and when the field ends within `k ≤ 4` bytes the
decoded remaining length is `Σ (b_i & 0x7f) << 7i`, computed without 32-bit wrap-around,
hence at most 268435455. -/
theorem C3_remaining_length_four_byte_cap (s : MqttLite) (p_length first : Nat) :
    (∀ c1 c2 c3 c4 rest,
      s.m_client.inbound = first :: c1 :: c2 :: c3 :: c4 :: rest →
      continues c1 → continues c2 → continues c3 → continues c4 →
        (∀ len s', readPacket s p_length ≠ .ok (true, len, s'))
        ∧ (6 ≤ s.m_bufferSize → ∃ len s', readPacket s p_length = .ok (false, len, s')))
    ∧ (∀ conts last rest,
      s.m_client.inbound = first :: (conts ++ last :: rest) →
      (∀ c ∈ conts, continues c) → ¬ continues last → conts.length ≤ 3 →
      5 ≤ s.m_bufferSize →
        (∃ ok s', readPacket s p_length = .ok (ok, lengthSum 0 (conts ++ [last]), s'))
        ∧ lengthSum 0 (conts ++ [last]) ≤ 268435455) := by
  constructor
  · intro c1 c2 c3 c4 rest hin h1 h2 h3 h4
    refine ⟨readPacket_rejects_fifth_byte s p_length first c1 c2 c3 c4 rest hin h1 h2 h3 h4, ?_⟩
    intro hcap
    obtain ⟨_, d2⟩ := readPacket_decode s p_length hcap
    have hnone : decodePacket s.m_bufferSize s.m_client.inbound = none := by
      rw [hin]
      apply decodePacket_cons_none
      simp [decodeLength, h1, h2, h3, h4]
    obtain ⟨len, s', e, _⟩ := d2 hnone
    exact ⟨len, s', e⟩
  · intro conts last rest hin hc hl hk hcap
    obtain ⟨h1, h2⟩ := readLength_eq conts 5
      { s with m_client := { s.m_client with inbound := conts ++ last :: rest }
               m_buffer := overlay s.m_buffer 0 [first]
               m_lastIn := s.millis }
      1 0 0 last rest rfl hc hl (by omega) (by omega) (by simp only; omega)
      (by norm_num) (by omega)
    simp only [Nat.zero_add] at h1 h2
    have hpow : 2 ^ (7 * (conts.length + 1)) ≤ 2 ^ 28 :=
      Nat.pow_le_pow_right (by norm_num) (by omega)
    have hL : lengthSum 0 (conts ++ [last]) ≤ 268435455 := by omega
    refine ⟨?_, hL⟩
    unfold readPacket
    rw [readByte_cons s 0 first (conts ++ last :: rest) hin (by omega) (by norm_num)]
    simp only [bind_ok, bind, Except.bind, Nat.zero_add]
    rw [if_neg (by simp), h1]
    simp only [BUFFER_OFFSET]
    rw [if_neg (by simp)]
    have hmod : (5 + lengthSum 0 (conts ++ [last])) % 2 ^ 32 = 5 + lengthSum 0 (conts ++ [last]) :=
      Nat.mod_eq_of_lt (by omega)
    rw [hmod]
    by_cases hfit : 5 + lengthSum 0 (conts ++ [last]) > s.m_bufferSize
    · rw [if_pos hfit]
      exact ⟨false, _, rfl⟩
    · rw [if_neg hfit]
      obtain ⟨ok, s', p1, _⟩ := readPayload_total (lengthSum 0 (conts ++ [last]))
        { s with m_client := { s.m_client with inbound := rest }
                 m_buffer := overlay (overlay s.m_buffer 0 [first]) 1 (conts ++ [last])
                 m_lastIn := s.millis }
        5 (by simp only; omega) (by omega)
      rw [p1]
      exact ⟨ok, s', rfl⟩


theorem C3_remaining_length_four_byte_cap_witness :
    ((∀ len s', readPacket (sample 6 [0x30, 0x80, 0x80, 0x80, 0x80, 0x00]) 0 ≠ .ok (true, len, s'))
      ∧ (6 ≤ (sample 6 [0x30, 0x80, 0x80, 0x80, 0x80, 0x00]).m_bufferSize →
          ∃ len s', readPacket (sample 6 [0x30, 0x80, 0x80, 0x80, 0x80, 0x00]) 0
            = .ok (false, len, s')))
    ∧ ((∃ ok s', readPacket (sample 5 [0x30, 0xff, 0xff, 0xff, 0x7f]) 0
          = .ok (ok, lengthSum 0 ([0xff, 0xff, 0xff] ++ [0x7f]), s'))
      ∧ lengthSum 0 ([0xff, 0xff, 0xff] ++ [0x7f]) ≤ 268435455) :=
  ⟨(C3_remaining_length_four_byte_cap (sample 6 [0x30, 0x80, 0x80, 0x80, 0x80, 0x00]) 0 0x30).1
      0x80 0x80 0x80 0x80 [0x00] rfl (by decide) (by decide) (by decide) (by decide),
   (C3_remaining_length_four_byte_cap (sample 5 [0x30, 0xff, 0xff, 0xff, 0x7f]) 0 0x30).2
      [0xff, 0xff, 0xff] 0x7f [] rfl (by decide) (by decide) (by decide) (by decide)⟩

/-! ## C4: `writePacket` framing -/

theorem headerFlags_eq (p_retain : Bool) (p_qos : qos_t) (p_dup : Bool) :
    headerFlags p_retain p_qos p_dup =
      (if p_retain then 1 else 0) ||| (p_qos.val <<< 1) ||| (if p_dup then 1 <<< 3 else 0) := by
  cases p_retain <;> cases p_qos <;> cases p_dup <;> rfl

theorem header_lt (p_type : packet_type_t) (p_retain : Bool) (p_qos : qos_t) (p_dup : Bool) :
    (p_type.val <<< 4) ||| headerFlags p_retain p_qos p_dup < 256 := by
  cases p_type <;> cases p_retain <;> cases p_qos <;> cases p_dup <;> decide

theorem write_written (c : Client) (bytes : List Nat) :
    (c.write bytes).2.written = c.written ++ [bytes] := by
  unfold Client.write
  split <;> rfl

theorem write_up (c : Client) (bytes : List Nat) : (c.write bytes).2.up = c.up := by
  unfold Client.write
  split <;> rfl

theorem write_stops (c : Client) (bytes : List Nat) : (c.write bytes).2.stops = c.stops := by
  unfold Client.write
  split <;> rfl

theorem write_inbound (c : Client) (bytes : List Nat) :
    (c.write bytes).2.inbound = c.inbound := by
  unfold Client.write
  split <;> rfl

theorem write_accepted (c : Client) (bytes : List Nat) (h : c.reports = []) :
    c.write bytes = (bytes.length, { c with written := c.written ++ [bytes] }) := by
  unfold Client.write
  rw [h]

/-- Supporting result for C4: for a payload of at most 2097151 bytes lying at buffer offsets
`[5, 5+L)`, `writePacket` hands the transport exactly one byte sequence of `1 + k + L` bytes:
the fixed-header byte `(type << 4) | retain | (qos << 1) | (dup << 3)`, the `k` bytes of the
remaining length, and the payload unchanged; it returns `true` exactly when the transport
reports `1 + k + L`, and only then sets `m_lastOut`. -/
theorem writePacket_framing (s : MqttLite) (p_type : packet_type_t) (p_length : Nat)
    (p_retain : Bool) (p_qos : qos_t) (p_dup : Bool)
    (hL : p_length ≤ 2097151) (hcap : 5 + p_length ≤ s.m_bufferSize) :
    ∃ bl wire ok s',
      lengthLoop BUFFER_LENGTH_SIZE p_length [] = .ok bl
      ∧ wire = ((p_type.val <<< 4)
                  ||| ((if p_retain then 1 else 0) ||| (p_qos.val <<< 1)
                        ||| (if p_dup then 1 <<< 3 else 0)))
                :: (bl ++ bytesAt s.m_buffer 5 p_length)
      ∧ wire.length = 1 + bl.length + p_length
      ∧ writePacket s p_type p_length p_retain p_qos p_dup = .ok (ok, s')
      ∧ s'.m_client.written = s.m_client.written ++ [wire]
      ∧ (ok = true ↔ (s.m_client.write wire).1 = 1 + bl.length + p_length)
      ∧ s'.m_lastOut = (if ok = true then s.millis else s.m_lastOut)
      ∧ bytesAt s'.m_buffer 5 p_length = bytesAt s.m_buffer 5 p_length := by
  obtain ⟨bl, hbl⟩ := lengthLoop_total p_length (by omega)
  obtain ⟨_, hk1, hk3, hb⟩ := lengthLoop_ok _ _ hbl
  have hmod := Nat.mod_eq_of_lt (header_lt p_type p_retain p_qos p_dup)
  have hw := writePacket_eq s p_type p_length p_retain p_qos p_dup bl _ hbl hcap rfl
  rw [hmod, headerFlags_eq] at hw
  refine ⟨bl, _, _, _, hbl, rfl, ?_, hw, ?_, ?_, ?_, ?_⟩
  · simp [bytesAt_length]
    omega
  · simp only [write_written]
  · simp
  · simp
  · simp only
    rw [bytesAt_overlay_outside _ (5 - bl.length) bl 5 p_length (by omega)]
    rw [bytesAt_overlay_outside _ (4 - bl.length) _ 5 p_length
      (by simp only [List.length_cons, List.length_nil]; omega)]

theorem writePacket_framing_witness :
    ∃ bl wire ok s',
      lengthLoop BUFFER_LENGTH_SIZE 3 [] = .ok bl
      ∧ wire = ((packet_type_t.PACKET_TYPE_PUBLISH.val <<< 4)
                  ||| ((if true then 1 else 0) ||| (qos_t.QOS1.val <<< 1)
                        ||| (if false then 1 <<< 3 else 0)))
                :: (bl ++ bytesAt (sample 8 []).m_buffer 5 3)
      ∧ wire.length = 1 + bl.length + 3
      ∧ writePacket (sample 8 []) .PACKET_TYPE_PUBLISH 3 true .QOS1 false = .ok (ok, s')
      ∧ s'.m_client.written = (sample 8 []).m_client.written ++ [wire]
      ∧ (ok = true ↔ ((sample 8 []).m_client.write wire).1 = 1 + bl.length + 3)
      ∧ s'.m_lastOut = (if ok = true then (sample 8 []).millis else (sample 8 []).m_lastOut)
      ∧ bytesAt s'.m_buffer 5 3 = bytesAt (sample 8 []).m_buffer 5 3 :=
  writePacket_framing (sample 8 []) .PACKET_TYPE_PUBLISH 3 true .QOS1 false (by decide)
    (by decide)

/-- C4 (code defect): for a payload length of 2097152, within the claimed range, `writePacket`
does not frame a packet: computing the fourth remaining-length byte it stores at
`bufferLength[3]`, outside the 3-byte array, whatever the state, type and flags. -/
theorem C4_writePacket_overruns_bufferLength (s : MqttLite) (p_type : packet_type_t)
    (p_retain : Bool) (p_qos : qos_t) (p_dup : Bool) :
    writePacket s p_type 2097152 p_retain p_qos p_dup = .error (.scratchOverrun 3) := by
  have h : lengthLoop BUFFER_LENGTH_SIZE 2097152 [] = .error (.scratchOverrun 3) := rfl
  simp [writePacket, bind, Except.bind, h]

/-! ## C5, C6, C7, C10: evaluations at the failing inputs -/

/-- C5 (code defect): with capacity 10, topic "a", a 2-byte payload and QoS 1 the packet
needs 5 + 2 + 1 + 2 + 2 = 12 bytes, yet `publish` does not return 0: its size check leaves
out the two message-id bytes, and the payload copy stores at index 10, past the buffer. -/
theorem C5_publish_qos1_overruns_buffer :
    publish (sample 10 []) [97] [1, 2] false .QOS1 0 = .error (.bufferOverrun 10) := rfl

/-- C6 (code defect): with capacity 16 and client id "ab" the CONNECT packet needs
5 + 10 + 2 + 2 = 19 bytes, yet `connect` makes no size check and stores the first
character of the client id at index 17, past the buffer. -/
theorem C6_connect_overruns_buffer :
    connect (sample 16 []) [97, 98] none none none none false .QOS0 false
      = .error (.bufferOverrun 17) := rfl

/-- C7 (code defect): with capacity 5 and four remaining-length bytes that all carry the
continuation bit, `readPacket` reads a fifth length byte and stores it at index 5, past the
buffer, before it checks the shift. -/
theorem C7_readPacket_fifth_byte_overruns_buffer :
    readPacket (sample 5 [0x30, 0x80, 0x80, 0x80, 0x80, 0x00]) 0 = .error (.bufferOverrun 5) :=
  rfl

/-- C10 (code defect): `publish` with QoS 1 and duplicate id 7 succeeds but returns 1 and
writes message id 00 01 (with the DUP bit set in the header byte 0x3A), not the id 7. -/
theorem C10_publish_ignores_duplicate_id :
    ∃ s', publish (sample 32 []) [97] [] false .QOS1 7 = .ok (1, s')
      ∧ s'.m_client.written = [[0x3A, 0x05, 0x00, 0x01, 97, 0x00, 0x01]]
      ∧ s'.m_messageId = 0 :=
  ⟨_, rfl, rfl, rfl⟩


/-! ## `connect` -/

theorem overlay_join (memory : Nat → Nat) (index j : Nat) (as bs : List Nat)
    (h : j = index + as.length) :
    overlay (overlay memory index as) j bs = overlay memory index (as ++ bs) := by
  subst h
  exact overlay_append memory index as bs

theorem mqttString_length (cs : List Nat) : (mqttString cs).length = 2 + cs.length := by
  simp [mqttString]
  omega

theorem writeString_valid (s : MqttLite) (p_position : Nat) (cs : List Nat)
    (hv : validString cs) (hcap : 5 + p_position + (mqttString cs).length ≤ s.m_bufferSize) :
    writeString s p_position cs =
      .ok (2 + cs.length,
        { s with m_buffer := overlay s.m_buffer (5 + p_position) (mqttString cs) }) := by
  rw [mqttString_length] at hcap
  exact writeString_eq s p_position cs hv.1 hv.2 (by omega)

theorem willBytes_length_le (wt wm : Option (List Nat)) (h1 : validOption wt)
    (h2 : validOption wm) : (willBytes wt wm).length ≤ 131070 := by
  cases wt <;> cases wm <;> simp only [willBytes, List.length_nil, List.length_append,
    mqttString_length] <;> try omega
  have a := h1.2
  have b := h2.2
  omega

theorem credentialBytes_length_le (u p : Option (List Nat)) (h1 : validOption u)
    (h2 : validOption p) : (credentialBytes u p).length ≤ 131070 := by
  cases u <;> cases p <;> simp only [credentialBytes, List.length_nil, List.length_append,
    mqttString_length] <;> try omega
  · have a := h1.2
    omega
  · have a := h1.2
    have b := h2.2
    omega

theorem connectWill_eq (s : MqttLite) (length : Nat) (wt wm : Option (List Nat))
    (h1 : validOption wt) (h2 : validOption wm) (hlen : length < 2 ^ 31)
    (hcap : 5 + length + (willBytes wt wm).length ≤ s.m_bufferSize) :
    connectWill s length wt wm =
      .ok (length + (willBytes wt wm).length,
        { s with m_buffer := overlay s.m_buffer (5 + length) (willBytes wt wm) }) := by
  cases wt with
  | none => simp [connectWill, willBytes, overlay_nil]
  | some t =>
    cases wm with
    | none => simp [connectWill, willBytes, overlay_nil]
    | some m =>
      have ht : validString t := h1
      have hm : validString m := h2
      have a := ht.2
      have b := hm.2
      simp only [willBytes, List.length_append, mqttString_length] at hcap ⊢
      simp only [connectWill]
      rw [writeString_valid s length t ht (by rw [mqttString_length]; omega)]
      simp only [bind_ok, bind, Except.bind]
      have e1 : (length + (2 + t.length)) % 2 ^ 32 = length + (2 + t.length) :=
        Nat.mod_eq_of_lt (by omega)
      rw [e1, writeString_valid _ _ m hm (by simp only; rw [mqttString_length]; omega)]
      simp only
      have e2 : (length + (2 + t.length) + (2 + m.length)) % 2 ^ 32
          = length + (2 + t.length + (2 + m.length)) := by
        rw [Nat.mod_eq_of_lt (by omega)]
        omega
      rw [e2, overlay_join _ _ _ _ _ (by rw [mqttString_length]; omega)]

theorem connectCredentials_eq (s : MqttLite) (length : Nat) (u p : Option (List Nat))
    (h1 : validOption u) (h2 : validOption p) (hlen : length < 2 ^ 31)
    (hcap : 5 + length + (credentialBytes u p).length ≤ s.m_bufferSize) :
    connectCredentials s length u p =
      .ok (length + (credentialBytes u p).length,
        { s with m_buffer := overlay s.m_buffer (5 + length) (credentialBytes u p) }) := by
  cases u with
  | none => cases p <;> simp [connectCredentials, credentialBytes, overlay_nil]
  | some t =>
    have ht : validString t := h1
    have a := ht.2
    cases p with
    | none =>
      simp only [credentialBytes, mqttString_length] at hcap ⊢
      simp only [connectCredentials]
      rw [writeString_valid s length t ht (by rw [mqttString_length]; omega)]
      simp only [bind_ok, bind, Except.bind]
      rw [Nat.mod_eq_of_lt (by omega)]
    | some m =>
      have hm : validString m := h2
      have b := hm.2
      simp only [credentialBytes, List.length_append, mqttString_length] at hcap ⊢
      simp only [connectCredentials]
      rw [writeString_valid s length t ht (by rw [mqttString_length]; omega)]
      simp only [bind_ok, bind, Except.bind]
      have e1 : (length + (2 + t.length)) % 2 ^ 32 = length + (2 + t.length) :=
        Nat.mod_eq_of_lt (by omega)
      rw [e1, writeString_valid _ _ m hm (by simp only; rw [mqttString_length]; omega)]
      simp only
      have e2 : (length + (2 + t.length) + (2 + m.length)) % 2 ^ 32
          = length + (2 + t.length + (2 + m.length)) := by
        rw [Nat.mod_eq_of_lt (by omega)]
        omega
      rw [e2, overlay_join _ _ _ _ _ (by rw [mqttString_length]; omega)]


theorem connectBytes_length (keepAlive : Nat) (p_id : List Nat)
    (p_user p_password p_willTopic p_willMessage : Option (List Nat))
    (p_willRetain : Bool) (p_willQos : qos_t) (p_cleanSession : Bool) :
    (connectBytes keepAlive p_id p_user p_password p_willTopic p_willMessage p_willRetain
      p_willQos p_cleanSession).length
      = 12 + p_id.length + (willBytes p_willTopic p_willMessage).length
        + (credentialBytes p_user p_password).length := by
  simp only [connectBytes, List.length_append, List.length_cons, List.length_nil,
    mqttString_length]
  omega

/-- The payload assembly of `connect` lays the CONNECT payload out from buffer offset 5. -/
theorem connectPayload_eq (s : MqttLite) (p_id : List Nat)
    (p_user p_password p_willTopic p_willMessage : Option (List Nat))
    (p_willRetain : Bool) (p_willQos : qos_t) (p_cleanSession : Bool)
    (hid : validString p_id) (hu : validOption p_user) (hp : validOption p_password)
    (hwt : validOption p_willTopic) (hwm : validOption p_willMessage)
    (hcap : 5 + (connectBytes s.m_keepAlive p_id p_user p_password p_willTopic p_willMessage
      p_willRetain p_willQos p_cleanSession).length ≤ s.m_bufferSize) :
    connectPayload s p_id p_user p_password p_willTopic p_willMessage p_willRetain p_willQos
        p_cleanSession =
      .ok ((connectBytes s.m_keepAlive p_id p_user p_password p_willTopic p_willMessage
              p_willRetain p_willQos p_cleanSession).length,
        { s with m_buffer := (overlay s.m_buffer 5
            (connectBytes s.m_keepAlive p_id p_user p_password p_willTopic p_willMessage
              p_willRetain p_willQos p_cleanSession)) }) := by
  have hlen := connectBytes_length s.m_keepAlive p_id p_user p_password p_willTopic
    p_willMessage p_willRetain p_willQos p_cleanSession
  have hw := willBytes_length_le p_willTopic p_willMessage hwt hwm
  have hc := credentialBytes_length_le p_user p_password hu hp
  have hi := hid.2
  rw [hlen] at hcap
  unfold connectPayload
  simp only [BUFFER_OFFSET, Nat.add_zero]
  rw [store_eq _ _ _ (by omega)]
  simp only [bind_ok, bind, Except.bind]
  rw [store_eq _ _ _ (by simp only; omega)]
  simp only
  rw [store_eq _ _ _ (by simp only; omega)]
  simp only
  rw [store_eq _ _ _ (by simp only; omega)]
  simp only
  rw [store_eq _ _ _ (by simp only; omega)]
  simp only
  rw [store_eq _ _ _ (by simp only; omega)]
  simp only
  rw [store_eq _ _ _ (by simp only; omega)]
  simp only
  rw [store_eq _ _ _ (by simp only; omega)]
  simp only
  rw [store_eq _ _ _ (by simp only; omega)]
  simp only
  rw [store_eq _ _ _ (by simp only; omega)]
  simp only
  rw [overlay_join _ 5 _ _ _ (by rfl), overlay_join _ 5 _ _ _ (by rfl),
    overlay_join _ 5 _ _ _ (by rfl), overlay_join _ 5 _ _ _ (by rfl),
    overlay_join _ 5 _ _ _ (by rfl), overlay_join _ 5 _ _ _ (by rfl),
    overlay_join _ 5 _ _ _ (by rfl), overlay_join _ 5 _ _ _ (by rfl),
    overlay_join _ 5 _ _ _ (by rfl)]
  rw [writeString_valid _ 10 p_id hid (by simp only; rw [mqttString_length]; omega)]
  simp only
  rw [overlay_join _ 5 _ _ _ (by rfl)]
  have e1 : (10 + (2 + p_id.length)) % 2 ^ 32 = 12 + p_id.length := by
    rw [Nat.mod_eq_of_lt (by omega)]
    omega
  rw [e1, connectWill_eq _ _ _ _ hwt hwm (by omega) (by simp only; omega)]
  simp only
  rw [overlay_join _ 5 _ _ _ (by simp [mqttString_length]; omega)]
  rw [connectCredentials_eq _ _ _ _ hu hp (by omega) (by simp only; omega)]
  rw [overlay_join _ 5 _ _ _ (by simp [mqttString_length]; omega)]
  rw [hlen]
  rfl


theorem write_fst (c : Client) (bytes : List Nat) :
    (c.write bytes).1 = nextReport c bytes.length := by
  unfold Client.write nextReport
  split <;> rfl

/-- The outcomes of the reply handling of `connect`, by what the transport delivers. -/
theorem connectReply_cases (s : MqttLite) (length : Nat) (hcap : 7 ≤ s.m_bufferSize) :
    ∃ ok s', connectReply s length = .ok (ok, s')
      ∧ (s.m_client.inbound = [] →
          ok = false ∧ s'.m_state = STATE_CONNECTION_TIMEOUT ∧ s'.m_client.up = false
            ∧ s'.m_client.stops = s.m_client.stops + 1)
      ∧ (s.m_client.inbound ≠ [] → decodePacket s.m_bufferSize s.m_client.inbound = none →
          ok = false ∧ s'.m_state = STATE_CONNECT_FAILED ∧ s'.m_client.up = false
            ∧ s'.m_client.stops = s.m_client.stops + 1)
      ∧ (∀ pk, decodePacket s.m_bufferSize s.m_client.inbound = some pk →
          ((pk.first % 256) >>> 4) &&& 0x0f ≠ 2 →
          ok = false ∧ s'.m_state = STATE_CONNECT_FAILED ∧ s'.m_client.up = false
            ∧ s'.m_client.stops = s.m_client.stops + 1)
      ∧ (∀ pk flags code tail, decodePacket s.m_bufferSize s.m_client.inbound = some pk →
          ((pk.first % 256) >>> 4) &&& 0x0f = 2 → pk.payload = flags :: code :: tail →
          (code % 256 ≠ 0 →
            ok = false ∧ s'.m_state = ((code % 256 : Nat) : Int) ∧ s'.m_client.up = false
              ∧ s'.m_client.stops = s.m_client.stops + 1)
          ∧ (code % 256 = 0 →
            ok = true ∧ s'.m_state = STATE_CONNECTED ∧ s'.m_pongReceived = true
              ∧ s'.m_messageId = 0 ∧ s'.m_client.up = s.m_client.up
              ∧ s'.m_client.stops = s.m_client.stops)) := by
  unfold connectReply
  simp only [Client.available]
  by_cases hin : s.m_client.inbound = []
  · rw [if_pos (by simp [hin])]
    refine ⟨_, _, rfl, ?_, ?_, ?_, ?_⟩
    · intro _
      have hf := receiveFrame_waitExpired { s with m_lastIn := s.millis }
      refine ⟨rfl, rfl, rfl, ?_⟩
      simp only [Client.stop]
      rw [receiveFrame_stops hf]
    · intro h
      exact absurd hin h
    · intro pk h
      rw [hin] at h
      simp [decodePacket] at h
    · intro pk flags code tail h
      rw [hin] at h
      simp [decodePacket] at h
  · rw [if_neg (by simp [hin])]
    obtain ⟨d1, d2⟩ := readPacket_decode { s with m_lastIn := s.millis } length
      (by simp only; omega)
    simp only at d1 d2
    cases hd : decodePacket s.m_bufferSize s.m_client.inbound with
    | none =>
      obtain ⟨len, s3, e1, e2⟩ := d2 hd
      rw [e1]
      simp only [bind_ok, bind, Except.bind, if_true]
      refine ⟨_, _, rfl, ?_, ?_, ?_, ?_⟩
      · intro h
        exact absurd h hin
      · intro _ _
        refine ⟨rfl, rfl, rfl, ?_⟩
        simp only [Client.stop]
        rw [receiveFrame_stops e2]
      · intro pk h
        cases h
      · intro pk flags code tail h
        cases h
    | some pk =>
      rw [d1 pk hd]
      simp only [bind_ok, bind, Except.bind]
      rw [if_neg (by simp)]
      rw [load_eq _ _ (by simp only; omega)]
      simp only
      have hfirst : overlay (overlay (overlay s.m_buffer 0 [pk.first]) 1 pk.lengthBytes) 5
          pk.payload 0 = pk.first % 256 := by
        rw [overlay_outside _ _ _ _ (by omega), overlay_outside _ _ _ _ (by omega),
          overlay_single]
      simp only [hfirst, Nat.mod_mod]
      by_cases ht : ((pk.first % 256) >>> 4) &&& 0x0f = 2
      · rw [if_neg (by simp only [packet_type_t.val]; omega)]
        simp only [BUFFER_OFFSET]
        rw [load_eq _ _ (by simp only; omega)]
        simp only
        by_cases hcode : overlay (overlay (overlay s.m_buffer 0 [pk.first]) 1 pk.lengthBytes) 5
            pk.payload (5 + 1) % 256 ≠ 0
        · rw [if_pos hcode]
          refine ⟨_, _, rfl, ?_, ?_, ?_, ?_⟩
          · intro h
            exact absurd h hin
          · intro _ h
            cases h
          · intro pk2 h
            simp only [Option.some.injEq] at h
            subst h
            intro h2
            exact absurd ht h2
          · intro pk2 flags code tail h _ hp
            simp only [Option.some.injEq] at h
            subst h
            have hv : overlay (overlay (overlay s.m_buffer 0 [pk.first]) 1 pk.lengthBytes) 5
                pk.payload (5 + 1) = code % 256 := by
              rw [overlay_inside _ _ _ _ (by rw [hp]; simp), hp]
              rfl
            rw [hv, Nat.mod_mod] at hcode
            constructor
            · intro _
              refine ⟨rfl, ?_, rfl, rfl⟩
              simp only
              rw [hv, Nat.mod_mod]
            · intro h0
              exact absurd h0 hcode
        · rw [if_neg hcode]
          refine ⟨_, _, rfl, ?_, ?_, ?_, ?_⟩
          · intro h
            exact absurd h hin
          · intro _ h
            cases h
          · intro pk2 h
            simp only [Option.some.injEq] at h
            subst h
            intro h2
            exact absurd ht h2
          · intro pk2 flags code tail h _ hp
            simp only [Option.some.injEq] at h
            subst h
            have hv : overlay (overlay (overlay s.m_buffer 0 [pk.first]) 1 pk.lengthBytes) 5
                pk.payload (5 + 1) = code % 256 := by
              rw [overlay_inside _ _ _ _ (by rw [hp]; simp), hp]
              rfl
            rw [hv, Nat.mod_mod] at hcode
            constructor
            · intro h0
              exact absurd h0 hcode
            · intro _
              exact ⟨rfl, rfl, rfl, rfl, rfl, rfl⟩
      · rw [if_pos (by simp only [packet_type_t.val]; omega)]
        refine ⟨_, _, rfl, ?_, ?_, ?_, ?_⟩
        · intro h
          exact absurd h hin
        · intro _ h
          cases h
        · intro pk2 h _
          exact ⟨rfl, rfl, rfl, rfl⟩
        · intro pk2 flags code tail h h2
          simp only [Option.some.injEq] at h
          subst h
          exact absurd h2 ht


theorem wireLength_eq (length : Nat) (bl : List Nat)
    (h : lengthLoop BUFFER_LENGTH_SIZE length [] = .ok bl) :
    wireLength length = 1 + bl.length + length := by
  obtain ⟨_, _, _, _, _, _, _, e⟩ := lengthLoop_decodes length bl h
  unfold wireLength
  rw [e]

theorem connectBytes_length_le (keepAlive : Nat) (p_id : List Nat)
    (p_user p_password p_willTopic p_willMessage : Option (List Nat))
    (p_willRetain : Bool) (p_willQos : qos_t) (p_cleanSession : Bool)
    (hid : validString p_id) (hu : validOption p_user) (hp : validOption p_password)
    (hwt : validOption p_willTopic) (hwm : validOption p_willMessage) :
    (connectBytes keepAlive p_id p_user p_password p_willTopic p_willMessage p_willRetain
      p_willQos p_cleanSession).length ≤ 327685 := by
  rw [connectBytes_length]
  have hw := willBytes_length_le p_willTopic p_willMessage hwt hwm
  have hc := credentialBytes_length_le p_user p_password hu hp
  have hi := hid.2
  omega

theorem sendFrame_bufferSize {s s' : MqttLite} (h : sendFrame s s') :
    s'.m_bufferSize = s.m_bufferSize := by
  have e : sendErase s' = sendErase s := h
  have e2 := congrArg MqttLite.m_bufferSize e
  exact e2

theorem sendFrame_up {s s' : MqttLite} (h : sendFrame s s') :
    s'.m_client.up = s.m_client.up := by
  have e : sendErase s' = sendErase s := h
  have e2 := congrArg (fun x => x.m_client.up) e
  exact e2

theorem sendFrame_stops {s s' : MqttLite} (h : sendFrame s s') :
    s'.m_client.stops = s.m_client.stops := by
  have e : sendErase s' = sendErase s := h
  have e2 := congrArg (fun x => x.m_client.stops) e
  exact e2

theorem sendFrame_inbound {s s' : MqttLite} (h : sendFrame s s') :
    s'.m_client.inbound = s.m_client.inbound := by
  have e : sendErase s' = sendErase s := h
  have e2 := congrArg (fun x => x.m_client.inbound) e
  exact e2

theorem sendFrame_state {s s' : MqttLite} (h : sendFrame s s') : s'.m_state = s.m_state := by
  have e : sendErase s' = sendErase s := h
  have e2 := congrArg MqttLite.m_state e
  exact e2

theorem sendFrame_messageId {s s' : MqttLite} (h : sendFrame s s') :
    s'.m_messageId = s.m_messageId := by
  have e : sendErase s' = sendErase s := h
  have e2 := congrArg MqttLite.m_messageId e
  exact e2

theorem sendFrame_calls {s s' : MqttLite} (h : sendFrame s s') : s'.calls = s.calls := by
  have e : sendErase s' = sendErase s := h
  have e2 := congrArg MqttLite.calls e
  exact e2

theorem sendFrame_write (s : MqttLite) (memory : Nat → Nat) (bytes : List Nat) (t : Nat) :
    sendFrame s { s with m_buffer := memory, m_client := (s.m_client.write bytes).2,
                         m_lastOut := t } := by
  unfold sendFrame sendErase Client.write
  split <;> rfl

/-- What a `writePacket` call with an encodable length and the payload inside the buffer
does: one write of header byte, length bytes and payload; success exactly when the
transport reports the full count. -/
theorem writePacket_sent (s : MqttLite) (p_type : packet_type_t) (p_length : Nat)
    (p_retain : Bool) (p_qos : qos_t) (p_dup : Bool) (bl : List Nat)
    (hbl : lengthLoop BUFFER_LENGTH_SIZE p_length [] = .ok bl)
    (hcap : 5 + p_length ≤ s.m_bufferSize) :
    ∃ s2, writePacket s p_type p_length p_retain p_qos p_dup =
        .ok (decide (nextReport s.m_client (wireLength p_length) = wireLength p_length), s2)
      ∧ sendFrame s s2
      ∧ s2.m_client.written = s.m_client.written ++
          [((p_type.val <<< 4) ||| headerFlags p_retain p_qos p_dup) ::
            (bl ++ bytesAt s.m_buffer 5 p_length)]
      ∧ s2.m_lastOut = (if nextReport s.m_client (wireLength p_length) = wireLength p_length
                         then s.millis else s.m_lastOut)
      ∧ (∀ j, 5 ≤ j → s2.m_buffer j = s.m_buffer j) := by
  have hwl := wireLength_eq _ _ hbl
  obtain ⟨_, hk1, hk3, _⟩ := lengthLoop_ok _ _ hbl
  have hw := writePacket_eq s p_type p_length p_retain p_qos p_dup bl _ hbl hcap rfl
  have hlen : ((((p_type.val <<< 4) ||| headerFlags p_retain p_qos p_dup) % 256) ::
      (bl ++ bytesAt s.m_buffer 5 p_length)).length = 1 + bl.length + p_length := by
    simp [bytesAt_length]
    omega
  rw [write_fst, hlen, ← hwl, Nat.mod_eq_of_lt (header_lt p_type p_retain p_qos p_dup)] at hw
  refine ⟨_, hw, sendFrame_write s _ _ _, ?_, rfl, ?_⟩
  · simp only [write_written]
  · intro j hj
    simp only
    rw [overlay_outside _ _ _ _ (by omega), overlay_outside _ _ _ _
      (by simp only [List.length_cons, List.length_nil]; omega)]

/-- With the transport connected and the payload fitting, `connect` hands the transport one
CONNECT packet and then either handles the reply or, on a short write, fails. -/
theorem connect_sent (s : MqttLite) (p_id : List Nat)
    (p_user p_password p_willTopic p_willMessage : Option (List Nat))
    (p_willRetain : Bool) (p_willQos : qos_t) (p_cleanSession : Bool)
    (hid : validString p_id) (hu : validOption p_user) (hp : validOption p_password)
    (hwt : validOption p_willTopic) (hwm : validOption p_willMessage)
    (hcap : 5 + (connectBytes s.m_keepAlive p_id p_user p_password p_willTopic p_willMessage
      p_willRetain p_willQos p_cleanSession).length ≤ s.m_bufferSize)
    (hup : s.m_client.up = true) :
    ∃ s2 bl,
      connect s p_id p_user p_password p_willTopic p_willMessage p_willRetain p_willQos
          p_cleanSession =
        (if nextReport s.m_client (wireLength (connectBytes s.m_keepAlive p_id p_user p_password
              p_willTopic p_willMessage p_willRetain p_willQos p_cleanSession).length)
            = wireLength (connectBytes s.m_keepAlive p_id p_user p_password
              p_willTopic p_willMessage p_willRetain p_willQos p_cleanSession).length
         then connectReply s2 (connectBytes s.m_keepAlive p_id p_user p_password
              p_willTopic p_willMessage p_willRetain p_willQos p_cleanSession).length
         else .ok (false, { s2 with m_client := s2.m_client.stop,
                                    m_state := STATE_CONNECT_FAILED }))
      ∧ s2.m_bufferSize = s.m_bufferSize ∧ s2.m_client.up = true
      ∧ s2.m_client.stops = s.m_client.stops ∧ s2.m_client.inbound = s.m_client.inbound
      ∧ lengthLoop BUFFER_LENGTH_SIZE (connectBytes s.m_keepAlive p_id p_user p_password
              p_willTopic p_willMessage p_willRetain p_willQos p_cleanSession).length [] = .ok bl
      ∧ s2.m_client.written = s.m_client.written ++
          [0x10 :: (bl ++ (connectBytes s.m_keepAlive p_id p_user p_password
              p_willTopic p_willMessage p_willRetain p_willQos p_cleanSession).map
                (fun b => b % 256))] := by
  have hle := connectBytes_length_le s.m_keepAlive p_id p_user p_password p_willTopic
    p_willMessage p_willRetain p_willQos p_cleanSession hid hu hp hwt hwm
  generalize hB : connectBytes s.m_keepAlive p_id p_user p_password p_willTopic
    p_willMessage p_willRetain p_willQos p_cleanSession = bytes at hcap hle ⊢
  obtain ⟨bl, hbl⟩ := lengthLoop_total bytes.length (by omega)
  have hpay := connectPayload_eq s p_id p_user p_password p_willTopic p_willMessage
    p_willRetain p_willQos p_cleanSession hid hu hp hwt hwm (by rw [hB]; exact hcap)
  rw [hB] at hpay
  obtain ⟨s2, hw, hf, hwr, _, _⟩ := writePacket_sent
    { s with m_buffer := overlay s.m_buffer 5 bytes }
    .PACKET_TYPE_CONNECT bytes.length false .QOS0 false bl hbl (by simp only; omega)
  simp only [bytesAt_overlay_self] at hwr
  refine ⟨s2, bl, ?_, ?_, ?_, ?_, ?_, hbl, ?_⟩
  · unfold connect
    rw [if_neg (by simp [Client.connected, hup]), hpay]
    simp only [bind_ok, bind, Except.bind]
    rw [hw]
    simp only
    by_cases hr : nextReport s.m_client (wireLength bytes.length) = wireLength bytes.length
    · simp [hr]
    · simp [hr]
  · exact sendFrame_bufferSize hf
  · rw [sendFrame_up hf]
    exact hup
  · exact sendFrame_stops hf
  · exact sendFrame_inbound hf
  · rw [hwr]
    rfl


/-! ## C8: CONNACK return codes -/

theorem decodePacket_connack (capacity first flags code : Nat) (rest : List Nat)
    (hcap : 7 ≤ capacity) :
    decodePacket capacity (first :: 2 :: flags :: code :: rest) =
      some { first := first, lengthBytes := [2], payload := [flags, code], rest := rest } := by
  have hc : ¬ continues 2 := by decide
  have hd : decodeLength 4 0 (2 :: flags :: code :: rest)
      = some (2, [2], flags :: code :: rest) := by
    simp only [decodeLength, if_neg hc]
    rfl
  rw [decodePacket_cons_some _ _ _ _ _ _ hd, if_pos ⟨by omega, by simp⟩]
  rfl

/-- C8: when the CONNECT packet is written in full and the reply is a CONNACK whose
return-code byte is `code`: for `code = 0` `connect` returns `true`, the state is
`Connected`, the pong flag is set, the message-id counter is 0 (so the next id assigned
is 1) and the transport is not stopped; for every other `code` `connect` returns `false`,
the transport is stopped and the state is the value `code`, which for 1..5 is BadProtocol,
BadClientId, Unavailable, BadCredentials, Unauthorized. -/
theorem C8_connack_return_code (s : MqttLite) (p_id : List Nat)
    (p_user p_password p_willTopic p_willMessage : Option (List Nat))
    (p_willRetain : Bool) (p_willQos : qos_t) (p_cleanSession : Bool)
    (first flags code : Nat) (rest : List Nat)
    (hid : validString p_id) (hu : validOption p_user) (hp : validOption p_password)
    (hwt : validOption p_willTopic) (hwm : validOption p_willMessage)
    (hcap : 5 + (connectBytes s.m_keepAlive p_id p_user p_password p_willTopic p_willMessage
      p_willRetain p_willQos p_cleanSession).length ≤ s.m_bufferSize)
    (hup : s.m_client.up = true)
    (hsent : nextReport s.m_client (wireLength (connectBytes s.m_keepAlive p_id p_user
        p_password p_willTopic p_willMessage p_willRetain p_willQos p_cleanSession).length)
      = wireLength (connectBytes s.m_keepAlive p_id p_user p_password p_willTopic
        p_willMessage p_willRetain p_willQos p_cleanSession).length)
    (hin : s.m_client.inbound = first :: 2 :: flags :: code :: rest)
    (htype : ((first % 256) >>> 4) &&& 0x0f = packet_type_t.PACKET_TYPE_CONNECT_ACK.val)
    (hcode : code < 256) :
    ∃ ok s', connect s p_id p_user p_password p_willTopic p_willMessage p_willRetain p_willQos
          p_cleanSession = .ok (ok, s')
      ∧ (code = 0 →
          ok = true ∧ state s' = STATE_CONNECTED ∧ s'.m_pongReceived = true
            ∧ s'.m_messageId = 0 ∧ (nextMessageId s' 0).1 = 1
            ∧ s'.m_client.up = true ∧ s'.m_client.stops = s.m_client.stops)
      ∧ (code ≠ 0 →
          ok = false ∧ state s' = (code : Int) ∧ s'.m_client.up = false
            ∧ s'.m_client.stops = s.m_client.stops + 1)
      ∧ (code = 1 → state s' = STATE_CONNECT_BAD_PROTOCOL)
      ∧ (code = 2 → state s' = STATE_CONNECT_BAD_CLIENT_ID)
      ∧ (code = 3 → state s' = STATE_CONNECT_UNAVAILABLE)
      ∧ (code = 4 → state s' = STATE_CONNECT_BAD_CREDENTIALS)
      ∧ (code = 5 → state s' = STATE_CONNECT_UNAUTHORIZED) := by
  have hlen := connectBytes_length s.m_keepAlive p_id p_user p_password p_willTopic
    p_willMessage p_willRetain p_willQos p_cleanSession
  obtain ⟨s2, bl, hc, hsize, hup2, hstops, hinb, _, _⟩ := connect_sent s p_id p_user p_password
    p_willTopic p_willMessage p_willRetain p_willQos p_cleanSession hid hu hp hwt hwm hcap hup
  rw [if_pos hsent] at hc
  obtain ⟨ok, s', hr, _, _, _, h4⟩ := connectReply_cases s2
    (connectBytes s.m_keepAlive p_id p_user p_password p_willTopic p_willMessage
      p_willRetain p_willQos p_cleanSession).length (by omega)
  have hd : decodePacket s2.m_bufferSize s2.m_client.inbound =
      some { first := first, lengthBytes := [2], payload := [flags, code], rest := rest } := by
    rw [hinb, hin]
    exact decodePacket_connack _ _ _ _ _ (by omega)
  obtain ⟨hbad, hgood⟩ := h4 _ flags code [] hd htype rfl
  rw [Nat.mod_eq_of_lt hcode] at hbad hgood
  have hnz : code ≠ 0 → ok = false ∧ state s' = (code : Int) ∧ s'.m_client.up = false
      ∧ s'.m_client.stops = s.m_client.stops + 1 := by
    intro h
    obtain ⟨a, b, c, d⟩ := hbad h
    exact ⟨a, b, c, by rw [d, hstops]⟩
  refine ⟨ok, s', by rw [hc, hr], ?_, hnz, ?_, ?_, ?_, ?_, ?_⟩
  · intro h
    obtain ⟨a, b, c, d, e, f⟩ := hgood h
    refine ⟨a, b, c, d, ?_, by rw [e, hup2], by rw [f, hstops]⟩
    simp [nextMessageId, d]
  · intro h
    rw [(hnz (by omega)).2.1, h]
    rfl
  · intro h
    rw [(hnz (by omega)).2.1, h]
    rfl
  · intro h
    rw [(hnz (by omega)).2.1, h]
    rfl
  · intro h
    rw [(hnz (by omega)).2.1, h]
    rfl
  · intro h
    rw [(hnz (by omega)).2.1, h]
    rfl

theorem C8_connack_return_code_witness :
    (∃ s', connect (sampleFresh 64 [0x20, 2, 0, 0]) [97] none none none none false .QOS0 true
        = .ok (true, s') ∧ state s' = STATE_CONNECTED ∧ s'.m_messageId = 0)
    ∧ (∃ s', connect (sampleFresh 64 [0x20, 2, 0, 5]) [97] none none none none false .QOS0 true
        = .ok (false, s') ∧ state s' = STATE_CONNECT_UNAUTHORIZED ∧ s'.m_client.up = false) := by
  obtain ⟨ok, s', h, h0, _⟩ := C8_connack_return_code (sampleFresh 64 [0x20, 2, 0, 0]) [97]
    none none none none false .QOS0 true 0x20 0 0 [] (by decide) (by decide) (by decide)
    (by decide) (by decide) (by decide) rfl rfl rfl (by decide) (by decide)
  obtain ⟨ok5, s5, h5, _, hn, _, _, _, _, hu⟩ := C8_connack_return_code
    (sampleFresh 64 [0x20, 2, 0, 5]) [97]
    none none none none false .QOS0 true 0x20 0 5 [] (by decide) (by decide) (by decide)
    (by decide) (by decide) (by decide) rfl rfl rfl (by decide) (by decide)
  obtain ⟨a, b, _, d, _⟩ := h0 rfl
  obtain ⟨a5, _, c5, _⟩ := hn (by decide)
  subst a a5
  exact ⟨⟨s', h, b, d⟩, ⟨s5, h5, hu rfl, c5⟩⟩


/-! ## C9: the state after a failed `connect` -/

/-- C9 (as amended): for every `connect` call whose CONNECT payload fits the buffer, a
result is returned and: if the transport is not connected, `connect` returns `false` and
changes nothing (the state is kept and the transport is not stopped); if the CONNECT write is
short, or the reply cannot be decoded, or the reply is not a CONNACK, it returns `false`,
the transport is stopped and the state is `ConnectFailed`; if no data arrives within the
timeout after sending, it returns `false`, the transport is stopped and the state is
`ConnectionTimeout`. -/
theorem C9_connect_failure_states (s : MqttLite) (p_id : List Nat)
    (p_user p_password p_willTopic p_willMessage : Option (List Nat))
    (p_willRetain : Bool) (p_willQos : qos_t) (p_cleanSession : Bool)
    (hid : validString p_id) (hu : validOption p_user) (hp : validOption p_password)
    (hwt : validOption p_willTopic) (hwm : validOption p_willMessage)
    (hcap : 5 + (connectBytes s.m_keepAlive p_id p_user p_password p_willTopic p_willMessage
      p_willRetain p_willQos p_cleanSession).length ≤ s.m_bufferSize) :
    ∃ ok s', connect s p_id p_user p_password p_willTopic p_willMessage p_willRetain p_willQos
          p_cleanSession = .ok (ok, s')
      ∧ (s.m_client.up = false → ok = false ∧ s' = s)
      ∧ (s.m_client.up = true →
          nextReport s.m_client (wireLength (connectBytes s.m_keepAlive p_id p_user
              p_password p_willTopic p_willMessage p_willRetain p_willQos p_cleanSession).length)
            ≠ wireLength (connectBytes s.m_keepAlive p_id p_user p_password p_willTopic
              p_willMessage p_willRetain p_willQos p_cleanSession).length →
          ok = false ∧ state s' = STATE_CONNECT_FAILED ∧ s'.m_client.up = false
            ∧ s'.m_client.stops = s.m_client.stops + 1)
      ∧ (s.m_client.up = true →
          nextReport s.m_client (wireLength (connectBytes s.m_keepAlive p_id p_user
              p_password p_willTopic p_willMessage p_willRetain p_willQos p_cleanSession).length)
            = wireLength (connectBytes s.m_keepAlive p_id p_user p_password p_willTopic
              p_willMessage p_willRetain p_willQos p_cleanSession).length →
          (s.m_client.inbound = [] →
            ok = false ∧ state s' = STATE_CONNECTION_TIMEOUT ∧ s'.m_client.up = false
              ∧ s'.m_client.stops = s.m_client.stops + 1)
          ∧ (s.m_client.inbound ≠ [] →
              decodePacket s.m_bufferSize s.m_client.inbound = none →
            ok = false ∧ state s' = STATE_CONNECT_FAILED ∧ s'.m_client.up = false
              ∧ s'.m_client.stops = s.m_client.stops + 1)
          ∧ (∀ pk, decodePacket s.m_bufferSize s.m_client.inbound = some pk →
              ((pk.first % 256) >>> 4) &&& 0x0f ≠ packet_type_t.PACKET_TYPE_CONNECT_ACK.val →
            ok = false ∧ state s' = STATE_CONNECT_FAILED ∧ s'.m_client.up = false
              ∧ s'.m_client.stops = s.m_client.stops + 1)) := by
  by_cases hup : s.m_client.up = true
  · have hlen := connectBytes_length s.m_keepAlive p_id p_user p_password p_willTopic
      p_willMessage p_willRetain p_willQos p_cleanSession
    obtain ⟨s2, bl, hc, hsize, hup2, hstops, hinb, _, _⟩ := connect_sent s p_id p_user
      p_password p_willTopic p_willMessage p_willRetain p_willQos p_cleanSession hid hu hp hwt
      hwm hcap hup
    by_cases hsent : nextReport s.m_client (wireLength (connectBytes s.m_keepAlive p_id p_user
              p_password p_willTopic p_willMessage p_willRetain p_willQos p_cleanSession).length)
            = wireLength (connectBytes s.m_keepAlive p_id p_user p_password p_willTopic
              p_willMessage p_willRetain p_willQos p_cleanSession).length
    · rw [if_pos hsent] at hc
      obtain ⟨ok, s', hr, h1, h2, h3, _⟩ := connectReply_cases s2
        (connectBytes s.m_keepAlive p_id p_user p_password p_willTopic p_willMessage
          p_willRetain p_willQos p_cleanSession).length (by omega)
      rw [hinb, hstops] at h1
      rw [hinb, hsize, hstops] at h2
      rw [hinb, hsize, hstops] at h3
      refine ⟨ok, s', by rw [hc, hr], ?_, ?_, ?_⟩
      · intro h
        rw [hup] at h
        cases h
      · intro _ h
        exact absurd hsent h
      · intro _ _
        exact ⟨h1, h2, h3⟩
    · rw [if_neg hsent] at hc
      refine ⟨_, _, hc, ?_, ?_, ?_⟩
      · intro h
        rw [hup] at h
        cases h
      · intro _ _
        refine ⟨rfl, rfl, rfl, ?_⟩
        simp only [Client.stop]
        rw [hstops]
      · intro _ h
        exact absurd h hsent
  · have hdown : s.m_client.up = false := by
      cases h : s.m_client.up
      · rfl
      · exact absurd h hup
    refine ⟨false, s, ?_, ?_, ?_, ?_⟩
    · unfold connect
      rw [if_pos (by simp [Client.connected, hdown])]
    · intro _
      exact ⟨rfl, rfl⟩
    · intro h
      exact absurd h hup
    · intro h
      exact absurd h hup

theorem C9_connect_failure_states_witness :
    (∃ s', connect (sampleOffline 64) [97] none none none none false .QOS0 true
        = .ok (false, s') ∧ s' = sampleOffline 64)
    ∧ (∃ s', connect (sampleReporting 64 3 [0x20, 2, 0, 0]) [97] none none none none false
          .QOS0 true = .ok (false, s') ∧ state s' = STATE_CONNECT_FAILED)
    ∧ (∃ s', connect (sampleFresh 64 []) [97] none none none none false .QOS0 true
        = .ok (false, s') ∧ state s' = STATE_CONNECTION_TIMEOUT ∧ s'.m_client.up = false)
    ∧ (∃ s', connect (sampleFresh 64 [0x20, 0x80]) [97] none none none none false .QOS0 true
        = .ok (false, s') ∧ state s' = STATE_CONNECT_FAILED ∧ s'.m_client.up = false)
    ∧ (∃ s', connect (sampleFresh 64 [0x90, 2, 0, 0]) [97] none none none none false .QOS0 true
        = .ok (false, s') ∧ state s' = STATE_CONNECT_FAILED ∧ s'.m_client.up = false) := by
  obtain ⟨o1, s1, e1, a1, _⟩ := C9_connect_failure_states (sampleOffline 64) [97]
    none none none none false .QOS0 true (by decide) (by decide) (by decide) (by decide)
    (by decide) (by decide)
  obtain ⟨o2, s2, e2, _, a2, _⟩ := C9_connect_failure_states
    (sampleReporting 64 3 [0x20, 2, 0, 0]) [97]
    none none none none false .QOS0 true (by decide) (by decide) (by decide) (by decide)
    (by decide) (by decide)
  obtain ⟨o3, s3, e3, _, _, a3⟩ := C9_connect_failure_states (sampleFresh 64 []) [97]
    none none none none false .QOS0 true (by decide) (by decide) (by decide) (by decide)
    (by decide) (by decide)
  obtain ⟨o4, s4, e4, _, _, a4⟩ := C9_connect_failure_states (sampleFresh 64 [0x20, 0x80]) [97]
    none none none none false .QOS0 true (by decide) (by decide) (by decide) (by decide)
    (by decide) (by decide)
  obtain ⟨o5, s5, e5, _, _, a5⟩ := C9_connect_failure_states (sampleFresh 64 [0x90, 2, 0, 0])
    [97] none none none none false .QOS0 true (by decide) (by decide) (by decide) (by decide)
    (by decide) (by decide)
  obtain ⟨b1, c1⟩ := a1 rfl
  obtain ⟨b2, c2, _⟩ := a2 rfl (by decide)
  obtain ⟨b3, c3, d3, _⟩ := (a3 rfl rfl).1 rfl
  obtain ⟨b4, c4, d4, _⟩ := (a4 rfl rfl).2.1 (by decide) rfl
  obtain ⟨b5, c5, d5, _⟩ := (a5 rfl rfl).2.2 _ (decodePacket_connack 64 0x90 0 0 [] (by decide))
    (by decide)
  subst b1 b2 b3 b4 b5
  exact ⟨⟨s1, e1, c1⟩, ⟨s2, e2, c2⟩, ⟨s3, e3, c3, d3⟩, ⟨s4, e4, c4, d4⟩, ⟨s5, e5, c5, d5⟩⟩

/-- C9 counterexample: a `connect` that times out waiting for the CONNACK ends in state
`ConnectionTimeout`, not `ConnectFailed`; and a `connect` over a transport that is not
connected returns `false` leaving the state `Disconnected` and the transport not stopped. -/
theorem C9_counterexample_timeout_and_offline :
    (∃ s', connect (sampleFresh 64 []) [97] none none none none false .QOS0 true = .ok (false, s')
      ∧ state s' = STATE_CONNECTION_TIMEOUT ∧ state s' ≠ STATE_CONNECT_FAILED)
    ∧ (∃ s', connect (sampleOffline 64) [97] none none none none false .QOS0 true = .ok (false, s')
      ∧ state s' = STATE_DISCONNECTED ∧ state s' ≠ STATE_CONNECT_FAILED
      ∧ s'.m_client.stops = 0) :=
  ⟨⟨_, rfl, rfl, by decide⟩, ⟨_, rfl, rfl, by decide, rfl⟩⟩


/-! ## `publish` -/

theorem connected_eq (s : MqttLite) (hup : s.m_client.up = true)
    (hstate : s.m_state = STATE_CONNECTED) : connected s = (true, s) := by
  unfold connected
  simp [Client.connected, hup, hstate]

theorem strlen_eq (cs : List Nat) (h : isCString cs) : strlen cs = cs.length := by
  unfold strlen
  congr 1
  rw [List.takeWhile_eq_self_iff]
  intro c hc
  have := h c hc
  simp only [ne_eq, decide_eq_true_eq]
  omega

theorem idBytes_length (p_qos : qos_t) (messageId : Nat) :
    (idBytes p_qos messageId).length = if p_qos = .QOS0 then 0 else 2 := by
  unfold idBytes
  split <;> rfl

theorem publishedId_lt (counter : Nat) (p_qos : qos_t) (p_dupMessageId : Nat) :
    publishedId counter p_qos p_dupMessageId < 65536 := by
  unfold publishedId
  split
  · norm_num
  · split
    · exact Nat.mod_lt _ (by norm_num)
    · norm_num

theorem isBytes_mqttString (cs : List Nat) (h : validString cs) : isBytes (mqttString cs) := by
  intro b hb
  simp only [mqttString, List.mem_cons] at hb
  have hl := h.2
  rcases hb with rfl | rfl | hb
  · omega
  · omega
  · exact (h.1 b hb).2

theorem isBytes_idBytes (p_qos : qos_t) (messageId : Nat) (h : messageId < 65536) :
    isBytes (idBytes p_qos messageId) := by
  intro b hb
  unfold idBytes at hb
  split at hb
  · simp at hb
  · simp only [List.mem_cons, List.mem_singleton, List.not_mem_nil, or_false] at hb
    rcases hb with rfl | rfl
    · rw [shr8]
      omega
    · rw [and_0xff]
      omega

theorem isBytes_append (as bs : List Nat) (ha : isBytes as) (hb : isBytes bs) :
    isBytes (as ++ bs) := by
  intro b h
  rw [List.mem_append] at h
  rcases h with h | h
  · exact ha b h
  · exact hb b h

theorem publishBytes_length (p_topic : List Nat) (p_qos : qos_t) (messageId : Nat)
    (p_payload : List Nat) :
    (publishBytes p_topic p_qos messageId p_payload).length
      = 2 + p_topic.length + (if p_qos = .QOS0 then 0 else 2) + p_payload.length := by
  simp only [publishBytes, List.length_append, mqttString_length, idBytes_length]

/-- The message id selection of `publish`, with room for the id field. -/
theorem publishMessageId_eq (s : MqttLite) (length : Nat) (p_qos : qos_t)
    (p_dupMessageId : Nat)
    (hcap : 5 + length + (if p_qos = .QOS0 then 0 else 2) ≤ s.m_bufferSize) :
    publishMessageId s length p_qos p_dupMessageId =
      .ok (publishedId s.m_messageId p_qos p_dupMessageId,
        length + (idBytes p_qos (publishedId s.m_messageId p_qos p_dupMessageId)).length,
        { s with
          m_messageId :=
            if p_qos ≠ .QOS0 ∧ p_dupMessageId = 0 then (s.m_messageId + 1) % 65536
            else s.m_messageId
          m_buffer := overlay s.m_buffer (5 + length)
            (idBytes p_qos (publishedId s.m_messageId p_qos p_dupMessageId)) }) := by
  cases p_qos with
  | QOS0 =>
    simp [publishMessageId, publishedId, idBytes, overlay_nil]
  | QOS1 =>
    have hcap2 : 5 + length + 2 ≤ s.m_bufferSize := by simpa using hcap
    by_cases hd : p_dupMessageId = 0
    · simp only [publishMessageId, publishedId, idBytes, hd, BUFFER_OFFSET, reduceCtorEq,
        or_false, or_true, if_true, if_false, ne_eq, not_false_eq_true, and_self]
      rw [store_eq _ _ _ (by simp only; omega)]
      simp only [bind_ok, bind, Except.bind]
      rw [store_eq _ _ _ (by simp only; omega)]
      simp only
      rw [overlay_join _ _ _ _ _ (by simp; omega)]
      rfl
    · simp only [publishMessageId, publishedId, idBytes, hd, BUFFER_OFFSET, reduceCtorEq,
        or_false, or_true, if_true, if_false, ne_eq, not_false_eq_true, and_false]
      rw [store_eq _ _ _ (by omega)]
      simp only [bind_ok, bind, Except.bind]
      rw [store_eq _ _ _ (by simp only; omega)]
      simp only
      rw [overlay_join _ _ _ _ _ (by simp; omega)]
      rfl
  | QOS2 =>
    have hcap2 : 5 + length + 2 ≤ s.m_bufferSize := by simpa using hcap
    by_cases hd : p_dupMessageId = 0
    · simp only [publishMessageId, publishedId, idBytes, hd, BUFFER_OFFSET, reduceCtorEq,
        or_false, or_true, if_true, if_false, ne_eq, not_false_eq_true, and_self]
      rw [store_eq _ _ _ (by simp only; omega)]
      simp only [bind_ok, bind, Except.bind]
      rw [store_eq _ _ _ (by simp only; omega)]
      simp only
      rw [overlay_join _ _ _ _ _ (by simp; omega)]
      rfl
    · simp only [publishMessageId, publishedId, idBytes, hd, BUFFER_OFFSET, reduceCtorEq,
        or_false, or_true, if_true, if_false, ne_eq, not_false_eq_true, and_false]
      rw [store_eq _ _ _ (by omega)]
      simp only [bind_ok, bind, Except.bind]
      rw [store_eq _ _ _ (by simp only; omega)]
      simp only
      rw [overlay_join _ _ _ _ _ (by simp; omega)]
      rfl


theorem publishBytes_size (p_topic : List Nat) (p_qos : qos_t) (messageId : Nat)
    (p_payload : List Nat) :
    (publishBytes p_topic p_qos messageId p_payload).length
      = publishSize p_topic p_qos p_payload := by
  rw [publishBytes_length]
  rfl

theorem isBytes_publishBytes (p_topic : List Nat) (p_qos : qos_t) (messageId : Nat)
    (p_payload : List Nat) (ht : validString p_topic) (hid : messageId < 65536)
    (hp : isBytes p_payload) : isBytes (publishBytes p_topic p_qos messageId p_payload) :=
  isBytes_append _ _ (isBytes_append _ _ (isBytes_mqttString _ ht) (isBytes_idBytes _ _ hid)) hp

/-- What `publish` does on a connected client when the whole packet fits the buffer and
its remaining length is encodable: one write of the PUBLISH packet; the chosen id is
returned if the transport takes the packet in full, else 0 with the connection lost. -/
theorem publish_sent (s : MqttLite) (p_topic p_payload : List Nat) (p_retain : Bool)
    (p_qos : qos_t) (p_dupMessageId : Nat)
    (ht : validString p_topic) (hp : isBytes p_payload)
    (hsize : publishSize p_topic p_qos p_payload ≤ 2097151)
    (hcap : 5 + publishSize p_topic p_qos p_payload ≤ s.m_bufferSize)
    (hup : s.m_client.up = true) (hstate : s.m_state = STATE_CONNECTED) :
    ∃ s2 bl,
      publish s p_topic p_payload p_retain p_qos p_dupMessageId =
        (if nextReport s.m_client (wireLength (publishSize p_topic p_qos p_payload))
            = wireLength (publishSize p_topic p_qos p_payload)
         then .ok (publishedId s.m_messageId p_qos p_dupMessageId, s2)
         else .ok (0, { s2 with m_state := STATE_CONNECTION_LOST,
                                m_client := s2.m_client.stop }))
      ∧ lengthLoop BUFFER_LENGTH_SIZE (publishSize p_topic p_qos p_payload) [] = .ok bl
      ∧ s2.m_client.written = s.m_client.written ++
          [((packet_type_t.PACKET_TYPE_PUBLISH.val <<< 4)
              ||| headerFlags p_retain p_qos (decide (p_dupMessageId > 0))) ::
            (bl ++ publishBytes p_topic p_qos (publishedId s.m_messageId p_qos p_dupMessageId) p_payload)]
      ∧ s2.m_messageId =
          (if p_qos ≠ .QOS0 ∧ p_dupMessageId = 0 then (s.m_messageId + 1) % 65536
           else s.m_messageId)
      ∧ s2.m_state = s.m_state ∧ s2.m_client.up = s.m_client.up
      ∧ s2.m_client.stops = s.m_client.stops ∧ s2.m_bufferSize = s.m_bufferSize := by
  obtain ⟨bl, hbl⟩ := lengthLoop_total (publishSize p_topic p_qos p_payload) (by omega)
  have hL := publishBytes_size p_topic p_qos (publishedId s.m_messageId p_qos p_dupMessageId) p_payload
  have hidl := idBytes_length p_qos (publishedId s.m_messageId p_qos p_dupMessageId)
  have hbytes := isBytes_publishBytes p_topic p_qos _ p_payload ht
    (publishedId_lt s.m_messageId p_qos p_dupMessageId) hp
  have hsz : publishSize p_topic p_qos p_payload
      = 2 + p_topic.length + (if p_qos = .QOS0 then 0 else 2) + p_payload.length := rfl
  have hpay : (do
      let (n, s) ← writeString s 0 p_topic
      let length := (0 + n) % 2 ^ 32
      let (messageId, length, s) ← publishMessageId s length p_qos p_dupMessageId
      let s ← storeBytes p_payload (BUFFER_OFFSET + length) s
      Except.ok (messageId, (length + p_payload.length) % 2 ^ 32, s)
        : Except Fault (Nat × Nat × MqttLite)) =
      .ok (publishedId s.m_messageId p_qos p_dupMessageId, publishSize p_topic p_qos p_payload,
        { s with
          m_messageId :=
            if p_qos ≠ .QOS0 ∧ p_dupMessageId = 0 then (s.m_messageId + 1) % 65536
            else s.m_messageId
          m_buffer := overlay s.m_buffer 5
            (publishBytes p_topic p_qos (publishedId s.m_messageId p_qos p_dupMessageId) p_payload) }) := by
    rw [writeString_valid s 0 p_topic ht (by rw [mqttString_length]; omega)]
    simp only [bind_ok, bind, Except.bind, Nat.zero_add, Nat.add_zero]
    have e1 : (2 + p_topic.length) % 2 ^ 32 = 2 + p_topic.length :=
      Nat.mod_eq_of_lt (by omega)
    rw [e1, publishMessageId_eq _ _ _ _ (by simp only; omega)]
    simp only [BUFFER_OFFSET]
    rw [storeBytes_eq _ _ _ (by simp only; omega)]
    simp only
    rw [overlay_join _ 5 _ _ _ (by rw [mqttString_length])]
    rw [overlay_join _ 5 _ _ _ (by rw [List.length_append, mqttString_length])]
    have e2 : (2 + p_topic.length + (idBytes p_qos (publishedId s.m_messageId p_qos p_dupMessageId)).length
        + p_payload.length) % 2 ^ 32 = publishSize p_topic p_qos p_payload := by
      rw [Nat.mod_eq_of_lt (by omega), hidl]
      rfl
    rw [e2]
    rfl
  obtain ⟨s2, hw, hf, hwr, _, _⟩ := writePacket_sent
    { s with
      m_messageId :=
        if p_qos ≠ .QOS0 ∧ p_dupMessageId = 0 then (s.m_messageId + 1) % 65536
        else s.m_messageId
      m_buffer := overlay s.m_buffer 5
        (publishBytes p_topic p_qos (publishedId s.m_messageId p_qos p_dupMessageId) p_payload) }
    .PACKET_TYPE_PUBLISH (publishSize p_topic p_qos p_payload) p_retain p_qos
    (decide (p_dupMessageId > 0)) bl hbl (by simp only; omega)
  rw [← hL] at hwr
  simp only [bytesAt_overlay_self, map_mod_of_isBytes _ hbytes] at hwr
  refine ⟨s2, bl, ?_, hbl, hwr, ?_, ?_, ?_, ?_, ?_⟩
  · unfold publish
    simp only [connected_eq s hup hstate]
    rw [if_neg (by simp), strlen_eq _ ht.1]
    have e0 : (BUFFER_OFFSET + 2 + p_topic.length + p_payload.length) % 2 ^ 32
        = BUFFER_OFFSET + 2 + p_topic.length + p_payload.length := by
      apply Nat.mod_eq_of_lt
      simp only [BUFFER_OFFSET]
      omega
    rw [e0, if_neg (by simp only [BUFFER_OFFSET]; omega)]
    have hsplit : ∀ (k : Nat × Nat × MqttLite → Except Fault (Nat × MqttLite)),
        (do
          let (n, s) ← writeString s 0 p_topic
          let length := (0 + n) % 2 ^ 32
          let (messageId, length, s) ← publishMessageId s length p_qos p_dupMessageId
          let s ← storeBytes p_payload (BUFFER_OFFSET + length) s
          k (messageId, (length + p_payload.length) % 2 ^ 32, s)) =
        ((do
          let (n, s) ← writeString s 0 p_topic
          let length := (0 + n) % 2 ^ 32
          let (messageId, length, s) ← publishMessageId s length p_qos p_dupMessageId
          let s ← storeBytes p_payload (BUFFER_OFFSET + length) s
          Except.ok (messageId, (length + p_payload.length) % 2 ^ 32, s)
            : Except Fault (Nat × Nat × MqttLite)) >>= k) := by
      intro k
      cases h1 : writeString s 0 p_topic with
      | error e => rfl
      | ok r1 =>
        simp only [bind_ok, bind, Except.bind]
        cases h2 : publishMessageId r1.2 ((0 + r1.1) % 2 ^ 32) p_qos p_dupMessageId with
        | error e => rfl
        | ok r2 =>
          simp only
          cases h3 : storeBytes p_payload (BUFFER_OFFSET + r2.2.1) r2.2.2 with
          | error e => rfl
          | ok r3 => rfl
    have hk := hsplit (fun r => do
      let (ok, s) ← writePacket r.2.2 .PACKET_TYPE_PUBLISH r.2.1 p_retain p_qos
        (decide (p_dupMessageId > 0))
      if ok = false then
        .ok (0, { s with m_state := STATE_CONNECTION_LOST, m_client := s.m_client.stop })
      else .ok (r.1, s))
    simp only at hk
    rw [hk, hpay]
    simp only [bind_ok, bind, Except.bind]
    rw [hw]
    by_cases hr : nextReport s.m_client (wireLength (publishSize p_topic p_qos p_payload))
        = wireLength (publishSize p_topic p_qos p_payload)
    · simp [hr]
    · simp [hr]
  · rw [sendFrame_messageId hf]
  · rw [sendFrame_state hf]
  · rw [sendFrame_up hf]
  · rw [sendFrame_stops hf]
  · rw [sendFrame_bufferSize hf]


/-! ## The PUBLISH branch of `loop` -/

theorem be16 (n : Nat) (h : n < 65536) : ((n / 256) <<< 8) % 65536 ||| (n % 256) = n := by
  have h1 : (n / 256) <<< 8 = 2 ^ 8 * (n / 256) := by
    rw [Nat.shiftLeft_eq, Nat.mul_comm]
  have h2 : 2 ^ 8 * (n / 256) < 65536 := by omega
  have h3 : n % 256 < 2 ^ 8 := Nat.mod_lt _ (by norm_num)
  rw [h1, Nat.mod_eq_of_lt h2, ← Nat.mul_add_lt_is_or h3]
  omega

theorem cstringAt_eq (memory : Nat → Nat) (cs : List Nat) :
    ∀ (ptr bound : Nat), isCString cs → cs.length < bound →
      (∀ i, i < cs.length → memory (ptr + i) % 256 = cs.getD i 0) →
      memory (ptr + cs.length) % 256 = 0 →
      cstringAt memory ptr bound = cs := by
  induction cs with
  | nil =>
    intro ptr bound _ hb _ h0
    obtain ⟨b, rfl⟩ : ∃ b, bound = b + 1 := ⟨bound - 1, by simp at hb; omega⟩
    simp only [List.length_nil, Nat.add_zero] at h0
    simp [cstringAt, h0]
  | cons c cs ih =>
    intro ptr bound hc hb hm h0
    simp only [List.length_cons] at hb h0
    obtain ⟨b, rfl⟩ : ∃ b, bound = b + 1 := ⟨bound - 1, by omega⟩
    have hc0 := hc c (List.mem_cons_self _ _)
    have hhead : memory ptr % 256 = c := by
      have := hm 0 (by simp)
      simpa using this
    simp only [cstringAt, hhead]
    rw [if_neg (by omega)]
    congr 1
    apply ih (ptr + 1) b (fun x hx => hc x (List.mem_cons_of_mem _ hx)) (by omega)
    · intro i hi
      have := hm (i + 1) (by simp; omega)
      rw [List.getD_cons_succ] at this
      rw [← this]
      congr 2
      omega
    · rw [← h0]
      congr 2
      omega

theorem getD_mod_of_isBytes (bs : List Nat) (h : isBytes bs) (i : Nat) :
    bs.getD i 0 % 256 = bs.getD i 0 := by
  by_cases hi : i < bs.length
  · rw [List.getD_eq_getElem _ _ hi]
    exact Nat.mod_eq_of_lt (h _ (List.getElem_mem _))
  · rw [List.getD_eq_default _ _ (by omega)]

theorem bytesAt_eq_of_getD (memory : Nat → Nat) (ptr : Nat) (bs : List Nat)
    (h : ∀ i, i < bs.length → memory (ptr + i) % 256 = bs.getD i 0) :
    bytesAt memory ptr bs.length = bs := by
  apply List.ext_getElem
  · simp [bytesAt]
  · intro n h1 h2
    simp only [bytesAt, List.getElem_map, List.getElem_range]
    rw [h n h2, List.getD_eq_getElem _ _ h2]

theorem moveBytes_eq (s : MqttLite) (dst src count : Nat) (h1 : src + count ≤ s.m_bufferSize)
    (h2 : dst + count ≤ s.m_bufferSize) :
    moveBytes s dst src count =
      .ok { s with m_buffer := fun j =>
              if dst ≤ j ∧ j < dst + count then s.m_buffer (src + (j - dst)) % 256
              else s.m_buffer j } := by
  unfold moveBytes
  rw [if_neg (by omega), if_neg (by omega)]


theorem body_head (topic idb payload : List Nat) :
    (mqttString topic ++ idb ++ payload).getD 0 0 = topic.length / 256
    ∧ (mqttString topic ++ idb ++ payload).getD 1 0 = topic.length % 256 := by
  simp [mqttString]

theorem body_topic (topic idb payload : List Nat) (i : Nat) (h : i < topic.length) :
    (mqttString topic ++ idb ++ payload).getD (2 + i) 0 = topic.getD i 0 := by
  rw [List.append_assoc, List.getD_append _ _ _ _ (by rw [mqttString_length]; omega)]
  have e : 2 + i = i + 1 + 1 := by omega
  rw [e]
  simp only [mqttString, List.getD_cons_succ]

theorem body_payload (topic idb payload : List Nat) (i : Nat) :
    (mqttString topic ++ idb ++ payload).getD (2 + topic.length + idb.length + i) 0
      = payload.getD i 0 := by
  rw [List.getD_append_right _ _ _ _ (by rw [List.length_append, mqttString_length]; omega)]
  congr 1
  rw [List.length_append, mqttString_length]
  omega

/-- The PUBLISH branch on a buffer that holds, from offset 5, a topic string of valid
characters, an id field whose presence agrees with the QoS bits of the header byte, and the
payload: the handler is called once with the NUL-terminated topic at offset 4 and the
payload bytes and length. -/
theorem loopPublish_eq (r : MqttLite) (length first : Nat) (topic idb payload : List Nat)
    (hcb : r.m_publishCallback = true)
    (hfirst : r.m_buffer 0 % 256 = first)
    (hbody : ∀ i, i < (mqttString topic ++ idb ++ payload).length →
      r.m_buffer (5 + i) % 256 = (mqttString topic ++ idb ++ payload).getD i 0)
    (hlen : length = (mqttString topic ++ idb ++ payload).length)
    (hidb : idb.length = if (first >>> 1) &&& 0b011 ≠ 0 then 2 else 0)
    (ht : validString topic)
    (hcap : 5 + (mqttString topic ++ idb ++ payload).length ≤ r.m_bufferSize)
    (hL : length < 2 ^ 32) :
    ∃ memory,
      loopPublish r length =
        .ok { r with m_buffer := memory
                     calls := r.calls ++
                       [.publish 4 (7 + topic.length + idb.length) payload.length memory] }
      ∧ cstringAt memory 4 (r.m_bufferSize - 4) = topic
      ∧ bytesAt memory (7 + topic.length + idb.length) payload.length = payload := by
  have hbl : (mqttString topic ++ idb ++ payload).length
      = 2 + topic.length + idb.length + payload.length := by
    simp only [List.length_append, mqttString_length]
  have htl := ht.2
  rw [hbl] at hcap hbody
  obtain ⟨hh0, hh1⟩ := body_head topic idb payload
  have hhigh : r.m_buffer (5 + 0) % 256 = topic.length / 256 := by
    rw [hbody 0 (by omega), hh0]
  have hlow : r.m_buffer (5 + 1) % 256 = topic.length % 256 := by
    rw [hbody 1 (by omega), hh1]
  refine ⟨overlay (fun j =>
      if 4 ≤ j ∧ j < 4 + topic.length then r.m_buffer (7 + (j - 4)) % 256 else r.m_buffer j)
      (4 + topic.length) [0], ?_, ?_, ?_⟩
  · unfold loopPublish
    rw [if_neg (by simp [hcb])]
    simp only [BUFFER_OFFSET]
    rw [load_eq _ _ (by omega), load_eq _ _ (by omega)]
    simp only [bind_ok, bind, Except.bind, hhigh, hlow, be16 _ (show topic.length < 65536 by omega)]
    rw [moveBytes_eq _ _ _ _ (by omega) (by omega)]
    simp only
    rw [store_eq _ _ _ (by simp only; omega)]
    simp only
    rw [load_eq _ _ (by simp only; omega)]
    simp only
    have h0 : overlay (fun j =>
        if 4 ≤ j ∧ j < 4 + topic.length then r.m_buffer (7 + (j - 4)) % 256 else r.m_buffer j)
        (4 + topic.length) [0] 0 % 256 = first := by
      rw [overlay_outside _ _ _ _ (by omega)]
      rw [if_neg (by omega), hfirst]
    simp only [h0, qos_t.val]
    have hoff : (if (first >>> 1) &&& 3 ≠ 0 then 2 else 0) = idb.length := by
      rw [hidb]
    have hsub : (length + 2 ^ 32 - 2 - topic.length - idb.length) % 2 ^ 32 = payload.length := by
      rw [hlen, hbl]
      omega
    simp only [hoff, hsub]
  · apply cstringAt_eq _ _ _ _ ht.1 (by omega)
    · intro i hi
      rw [overlay_outside _ _ _ _ (by omega)]
      rw [if_pos (by omega), Nat.mod_mod]
      have e : 7 + (4 + i - 4) = 5 + (2 + i) := by omega
      rw [e, hbody (2 + i) (by omega), body_topic _ _ _ _ hi]
    · rw [overlay_single]
  · apply bytesAt_eq_of_getD
    intro i hi
    rw [overlay_outside _ _ _ _ (by simp only [List.length_cons, List.length_nil]; omega)]
    rw [if_neg (by omega)]
    have e : 7 + topic.length + idb.length + i = 5 + (2 + topic.length + idb.length + i) := by
      omega
    rw [e, hbody _ (by omega), body_payload]


/-- The receive half of `loop` on an inbound PUBLISH packet as `publish` frames it. -/
theorem loopReceive_publish (r : MqttLite) (first : Nat)
    (bl topic idb payload rest : List Nat)
    (hcb : r.m_publishCallback = true)
    (hin : r.m_client.inbound = first :: (bl ++ ((mqttString topic ++ idb ++ payload) ++ rest)))
    (hbl : lengthLoop BUFFER_LENGTH_SIZE (mqttString topic ++ idb ++ payload).length [] = .ok bl)
    (htype : ((first % 256) >>> 4) &&& 0x0f = packet_type_t.PACKET_TYPE_PUBLISH.val)
    (hidb : idb.length = if ((first % 256) >>> 1) &&& 0b011 ≠ 0 then 2 else 0)
    (ht : validString topic) (hbody : isBytes (mqttString topic ++ idb ++ payload))
    (hcap : 5 + (mqttString topic ++ idb ++ payload).length ≤ r.m_bufferSize) :
    ∃ r2 memory,
      loopReceive r = .ok (true, r2)
      ∧ r2.calls = r.calls ++ [.publish 4 (7 + topic.length + idb.length) payload.length memory]
      ∧ cstringAt memory 4 (r.m_bufferSize - 4) = topic
      ∧ bytesAt memory (7 + topic.length + idb.length) payload.length = payload
      ∧ r2.m_client.inbound = rest := by
  obtain ⟨conts, last, e1, e2, e3, e4, e5, _⟩ := lengthLoop_decodes _ _ hbl
  obtain ⟨hn, _, _, _⟩ := lengthLoop_ok _ _ hbl
  generalize hB : mqttString topic ++ idb ++ payload = body at *
  have hin2 : r.m_client.inbound = first :: (conts ++ last :: (body ++ rest)) := by
    rw [hin, e1]
    simp
  have hrp := readPacket_eq r 0 first last conts body rest hin2 e2 e3 (by omega)
    (by rw [← e1, e5]) hcap
  obtain ⟨memory, hlp, hc, hp⟩ := loopPublish_eq
    { r with m_client := { r.m_client with inbound := rest }
             m_buffer := overlay (overlay (overlay r.m_buffer 0 [first]) 1 (conts ++ [last])) 5
                           body
             m_lastIn := r.millis }
    body.length (first % 256) topic idb payload hcb
    (by
      simp only
      rw [overlay_outside _ _ _ _ (by omega), overlay_outside _ _ _ _ (by omega),
        overlay_single, Nat.mod_mod])
    (by
      intro i hi
      simp only
      rw [hB] at hi ⊢
      rw [overlay_inside _ _ _ _ hi, Nat.mod_mod, getD_mod_of_isBytes _ hbody])
    (by rw [hB]) hidb ht (by rw [hB]; exact hcap) (by omega)
  refine ⟨{ r with m_client := { r.m_client with inbound := rest }
                   m_buffer := memory
                   m_lastIn := r.millis
                   calls := r.calls ++
                     [.publish 4 (7 + topic.length + idb.length) payload.length memory] },
    memory, ?_, ?_, hc, hp, ?_⟩
  · unfold loopReceive
    rw [if_pos (by simp [Client.available, hin])]
    rw [hrp]
    simp only [bind_ok, bind, Except.bind]
    rw [if_neg (by simp)]
    unfold dispatch
    rw [load_eq _ _ (by simp only; omega)]
    simp only [bind_ok, bind, Except.bind]
    have h0 : overlay (overlay (overlay r.m_buffer 0 [first]) 1 (conts ++ [last])) 5 body 0
        = first % 256 := by
      rw [overlay_outside _ _ _ _ (by omega), overlay_outside _ _ _ _ (by omega),
        overlay_single]
    simp only [h0, Nat.mod_mod, htype]
    rw [if_neg (by decide), if_neg (by decide), if_pos trivial, hlp]
  · rfl
  · rfl


/-! ## C1: publish round trip -/

theorem publish_header_type (p_retain : Bool) (p_qos : qos_t) (p_dup : Bool) :
    ((((packet_type_t.PACKET_TYPE_PUBLISH.val <<< 4) ||| headerFlags p_retain p_qos p_dup) % 256)
        >>> 4) &&& 0x0f = packet_type_t.PACKET_TYPE_PUBLISH.val := by
  cases p_retain <;> cases p_qos <;> cases p_dup <;> decide

theorem publish_header_qos (p_retain : Bool) (p_qos : qos_t) (p_dup : Bool) :
    ((((packet_type_t.PACKET_TYPE_PUBLISH.val <<< 4) ||| headerFlags p_retain p_qos p_dup) % 256)
        >>> 1) &&& 0b011 = p_qos.val := by
  cases p_retain <;> cases p_qos <;> cases p_dup <;> decide

/-- C1 (as amended): for every topic of at most 65533 non-NUL bytes, payload, retain flag,
QoS and duplicate id such that the remaining length `2 + len(topic) + (2 if QoS > 0) +
len(payload)` is at most 2097151 and fits the buffer behind the 5-byte header reserve, a
`publish` on a connected client whose transport takes the packet hands the transport one
byte sequence, and that sequence, fed as the inbound stream to the receive half of `loop`
(`readPacket` and the PUBLISH branch) of a client with the same capacity and a publish
handler, makes the handler receive exactly the topic string and the payload bytes. -/
theorem C1_publish_round_trip (s r : MqttLite) (p_topic p_payload : List Nat)
    (p_retain : Bool) (p_qos : qos_t) (p_dupMessageId : Nat) (rest : List Nat)
    (ht : validString p_topic) (hp : isBytes p_payload)
    (hsize : publishSize p_topic p_qos p_payload ≤ 2097151)
    (hcap : 5 + publishSize p_topic p_qos p_payload ≤ s.m_bufferSize)
    (hup : s.m_client.up = true) (hstate : s.m_state = STATE_CONNECTED)
    (hsent : nextReport s.m_client (wireLength (publishSize p_topic p_qos p_payload))
      = wireLength (publishSize p_topic p_qos p_payload))
    (hrcap : r.m_bufferSize = s.m_bufferSize) (hcb : r.m_publishCallback = true) :
    ∃ id s' wire,
      publish s p_topic p_payload p_retain p_qos p_dupMessageId = .ok (id, s')
      ∧ s'.m_client.written = s.m_client.written ++ [wire]
      ∧ (r.m_client.inbound = wire ++ rest →
          ∃ r2 payloadPtr memory,
            loopReceive r = .ok (true, r2)
            ∧ r2.calls = r.calls ++ [.publish 4 payloadPtr p_payload.length memory]
            ∧ cstringAt memory 4 (r.m_bufferSize - 4) = p_topic
            ∧ bytesAt memory payloadPtr p_payload.length = p_payload
            ∧ r2.m_client.inbound = rest) := by
  obtain ⟨s2, bl, hpub, hbl, hwr, _⟩ := publish_sent s p_topic p_payload p_retain p_qos
    p_dupMessageId ht hp hsize hcap hup hstate
  rw [if_pos hsent] at hpub
  refine ⟨_, s2, _, hpub, hwr, ?_⟩
  intro hin
  have hL := publishBytes_size p_topic p_qos (publishedId s.m_messageId p_qos p_dupMessageId)
    p_payload
  have hbody := isBytes_publishBytes p_topic p_qos _ p_payload ht
    (publishedId_lt s.m_messageId p_qos p_dupMessageId) hp
  obtain ⟨r2, memory, h1, h2, h3, h4, h5⟩ := loopReceive_publish r
    (((packet_type_t.PACKET_TYPE_PUBLISH.val <<< 4)
      ||| headerFlags p_retain p_qos (decide (p_dupMessageId > 0))))
    bl p_topic (idBytes p_qos (publishedId s.m_messageId p_qos p_dupMessageId)) p_payload rest
    hcb
    (by
      rw [hin]
      simp [publishBytes])
    (by
      have e : (mqttString p_topic ++ idBytes p_qos (publishedId s.m_messageId p_qos
          p_dupMessageId) ++ p_payload).length = publishSize p_topic p_qos p_payload := hL
      rw [e]
      exact hbl)
    (publish_header_type _ _ _)
    (by
      rw [publish_header_qos, idBytes_length]
      cases p_qos <;> rfl)
    ht hbody
    (by
      have e : (mqttString p_topic ++ idBytes p_qos (publishedId s.m_messageId p_qos
          p_dupMessageId) ++ p_payload).length = publishSize p_topic p_qos p_payload := hL
      rw [e, hrcap]
      exact hcap)
  exact ⟨r2, _, memory, h1, h2, h3, h4, h5⟩


theorem C1_publish_round_trip_witness :
    ∃ s' r2 payloadPtr memory,
      publish (sample 32 []) [97, 47, 98] [1, 2, 3] true .QOS1 0 = .ok (1, s')
      ∧ s'.m_client.written = [[0x33, 10, 0, 3, 97, 47, 98, 0, 1, 1, 2, 3]]
      ∧ loopReceive (sample 32 [0x33, 10, 0, 3, 97, 47, 98, 0, 1, 1, 2, 3]) = .ok (true, r2)
      ∧ r2.calls = [.publish 4 payloadPtr 3 memory]
      ∧ cstringAt memory 4 28 = [97, 47, 98]
      ∧ bytesAt memory payloadPtr 3 = [1, 2, 3] := by
  obtain ⟨id, s', wire, h1, h2, h3⟩ := C1_publish_round_trip (sample 32 [])
    (sample 32 [0x33, 10, 0, 3, 97, 47, 98, 0, 1, 1, 2, 3]) [97, 47, 98] [1, 2, 3] true .QOS1 0 []
    (by decide) (by decide) (by decide) (by decide) rfl rfl (by decide) rfl rfl
  have hv : valueOf (publish (sample 32 []) [97, 47, 98] [1, 2, 3] true .QOS1 0) = some 1 := rfl
  have hw : writtenOf (publish (sample 32 []) [97, 47, 98] [1, 2, 3] true .QOS1 0)
      = [[0x33, 10, 0, 3, 97, 47, 98, 0, 1, 1, 2, 3]] := rfl
  rw [h1] at hv hw
  simp only [valueOf, Option.some.injEq] at hv
  simp only [writtenOf] at hw
  subst hv
  rw [hw] at h2
  have hwire : wire = [0x33, 10, 0, 3, 97, 47, 98, 0, 1, 1, 2, 3] := by
    have e : [[0x33, 10, 0, 3, 97, 47, 98, 0, 1, 1, 2, 3]] = [wire] := h2
    injection e with e _
    exact e.symm
  obtain ⟨r2, payloadPtr, memory, a, b, c, d, _⟩ := h3 (by rw [hwire]; rfl)
  exact ⟨s', r2, payloadPtr, memory, h1, hw, a, b, c, d⟩

theorem cstringAt_nil (memory : Nat → Nat) (ptr bound : Nat) (h : memory ptr % 256 = 0)
    (hb : 0 < bound) : cstringAt memory ptr bound = [] := by
  obtain ⟨b, rfl⟩ : ∃ b, bound = b + 1 := ⟨bound - 1, by omega⟩
  simp [cstringAt, h]

/-- The `uint16_t` counter of `writeString` wraps around on long strings; the loop still
runs to the end of the string when the buffer has room for 65536 characters. -/
theorem writeStringLoop_wraps (p_position : Nat) (cs : List Nat) :
    ∀ (i : Nat) (s : MqttLite), isCString cs → i < 65536 →
      5 + p_position + 65536 ≤ s.m_bufferSize →
      ∃ memory, writeStringLoop p_position cs i s =
        .ok ((i + cs.length) % 65536, { s with m_buffer := memory }) := by
  induction cs with
  | nil =>
    intro i s _ hi _
    exact ⟨s.m_buffer, by simp [writeStringLoop, Nat.mod_eq_of_lt hi]⟩
  | cons c cs ih =>
    intro i s hc hi hcap
    have hc0 := hc c (List.mem_cons_self _ _)
    have hne : c % 256 ≠ 0 := by omega
    obtain ⟨memory, hm⟩ := ih ((i + 1) % 65536)
      { s with m_buffer := overlay s.m_buffer (5 + p_position + i) [c] }
      (fun x hx => hc x (List.mem_cons_of_mem _ hx)) (Nat.mod_lt _ (by norm_num))
      (by simp only; omega)
    refine ⟨memory, ?_⟩
    simp only [writeStringLoop, if_neg hne, BUFFER_OFFSET]
    rw [store_eq _ _ _ (by omega)]
    simp only [bind_ok, bind, Except.bind]
    rw [hm]
    simp only [List.length_cons]
    have e : ((i + 1) % 65536 + cs.length) % 65536 = (i + (cs.length + 1)) % 65536 := by omega
    rw [e]

/-- The publisher side of the C1 counterexample: a topic of 65536 characters passes the
size check, but `writeString` returns 2 and a zero length prefix, so the packet handed to
the transport is a PUBLISH with remaining length 2 and an empty topic. -/
theorem publish_topic_of_65536 (s : MqttLite) (cs : List Nat) (hc : isCString cs)
    (hlen : cs.length = 65536) (hcap : 65543 ≤ s.m_bufferSize) (hup : s.m_client.up = true)
    (hstate : s.m_state = STATE_CONNECTED) (hrep : s.m_client.reports = []) :
    ∃ s', publish s cs [] false .QOS0 0 = .ok (1, s')
      ∧ s'.m_client.written = s.m_client.written ++ [[0x30, 0x02, 0x00, 0x00]] := by
  obtain ⟨m0, hloop⟩ := writeStringLoop_wraps 0 cs 2 s hc (by norm_num) (by omega)
  have hi : (2 + cs.length) % 65536 = 2 := by
    rw [hlen]
  rw [hi] at hloop
  have hbl : lengthLoop BUFFER_LENGTH_SIZE 2 [] = .ok [2] := rfl
  have hws : writeString s 0 cs =
      .ok (2, { s with m_buffer := overlay (overlay m0 5 [0]) 6 [0] }) := by
    unfold writeString
    rw [hloop]
    simp only [bind_ok, bind, Except.bind, BUFFER_OFFSET, Nat.add_zero]
    rw [store_eq _ _ _ (by simp only; omega)]
    simp only
    rw [store_eq _ _ _ (by simp only; omega)]
    simp only
    rw [toUInt8_high 2 (by norm_num), toUInt8_low 2 (by norm_num)]
  obtain ⟨s2, hw, _, hwr, _, _⟩ := writePacket_sent
    { s with m_buffer := overlay (overlay m0 5 [0]) 6 [0] }
    .PACKET_TYPE_PUBLISH 2 false .QOS0 false [2] hbl (by simp only; omega)
  have hb : bytesAt (overlay (overlay m0 5 [0]) 6 [0]) 5 2 = [0, 0] := by
    rw [overlay_join m0 5 6 [0] [0] rfl]
    exact bytesAt_overlay_self m0 5 [0, 0]
  have hrepd : nextReport s.m_client (wireLength 2) = wireLength 2 := by
    unfold nextReport
    rw [hrep]
  simp only [hb, hrepd, decide_True] at hwr hw
  refine ⟨s2, ?_, hwr⟩
  unfold publish
  simp only [connected_eq s hup hstate]
  rw [if_neg (by simp), strlen_eq _ hc, hlen]
  rw [if_neg (by simp only [BUFFER_OFFSET, List.length_nil]; omega)]
  rw [hws]
  simp only [bind_ok, bind, Except.bind, publishMessageId, storeBytes, List.length_nil]
  rw [if_neg (by simp)]
  simp only [bind_ok, bind, Except.bind, Nat.zero_add, Nat.add_zero]
  have e2 : 2 % 2 ^ 32 = 2 := by norm_num
  simp only [e2]
  have hdup : decide (0 > 0) = false := by decide
  rw [hdup, hw]
  simp

theorem publishSize_replicate (n c : Nat) :
    publishSize (List.replicate n c) .QOS0 [] = 2 + n := by
  unfold publishSize
  rw [List.length_replicate]
  rfl

/-- C1 counterexample: a topic of 65536 characters with an empty payload at QoS 0 fits a
buffer of 65543 bytes (5 + 2 + 65536), and `publish` succeeds, but the bytes it hands to the
transport are 30 02 00 00, and the publish handler of a receiver of the same capacity gets
the empty topic, not the topic published. -/
theorem C1_counterexample_topic_of_65536_bytes :
    5 + publishSize (List.replicate 65536 97) .QOS0 [] ≤ (sample 65543 []).m_bufferSize
    ∧ ∃ s' r2 payloadPtr length memory,
      publish (sample 65543 []) (List.replicate 65536 97) [] false .QOS0 0 = .ok (1, s')
      ∧ s'.m_client.written = [[0x30, 0x02, 0x00, 0x00]]
      ∧ loopReceive (sample 65543 [0x30, 0x02, 0x00, 0x00]) = .ok (true, r2)
      ∧ r2.calls = [.publish 4 payloadPtr length memory]
      ∧ cstringAt memory 4 (65543 - 4) = []
      ∧ cstringAt memory 4 (65543 - 4) ≠ List.replicate 65536 97 := by
  constructor
  · rw [publishSize_replicate]
    exact Nat.le_refl 65543
  · obtain ⟨s', h1, h2⟩ := publish_topic_of_65536 (sample 65543 []) (List.replicate 65536 97)
      (by
        intro c hc
        rw [List.eq_of_mem_replicate hc]
        decide)
      (List.length_replicate _ _) (by decide) rfl rfl rfl
    refine ⟨s', _, _, _, _, h1, h2, rfl, rfl, ?_, ?_⟩
    · exact cstringAt_nil _ _ _ rfl (by norm_num)
    · rw [cstringAt_nil _ _ _ rfl (by norm_num)]
      intro h
      have e := congrArg List.length h
      rw [List.length_replicate] at e
      cases e


/-! ## Supporting results: the parts of C5, C7 and C10 that hold -/

theorem readByte_ne_outOfFuel (s : MqttLite) (cur : Nat) :
    readByte s cur ≠ .error .outOfFuel := by
  cases hin : s.m_client.inbound with
  | nil => rw [readByte_nil s cur hin]; intro h; cases h
  | cons b rest =>
    by_cases hcap : cur < s.m_bufferSize
    · intro h
      unfold readByte at h
      rw [hin] at h
      simp only at h
      rw [store_eq _ _ _ (by simp only; omega)] at h
      cases h
    · rw [readByte_fault s cur b rest hin (by omega)]; intro h; cases h

theorem load_ne_outOfFuel (s : MqttLite) (index : Nat) :
    load s index ≠ .error .outOfFuel := by
  unfold load
  split
  · intro h; cases h
  · intro h; cases h

/-- The iteration bound of the remaining-length loop is never exhausted. -/
theorem readLength_fuel (fuel : Nat) :
    ∀ (s : MqttLite) (cur acc shift : Nat), 35 ≤ 7 * (fuel + 1) + shift →
      readLength (fuel + 1) s cur acc shift ≠ .error .outOfFuel := by
  induction fuel with
  | zero =>
    intro s cur acc shift hs h
    rw [readLength] at h
    cases hb : readByte s cur with
    | error e =>
      rw [hb] at h
      have h2 : e = .outOfFuel := by cases h; rfl
      exact readByte_ne_outOfFuel s cur (by rw [hb, h2])
    | ok r =>
      obtain ⟨ok, cur2, s2⟩ := r
      rw [hb] at h
      simp only [bind_ok] at h
      cases ok with
      | false => cases h
      | true =>
        rw [if_neg (by simp), if_pos (by omega)] at h
        cases h
  | succ fuel ih =>
    intro s cur acc shift hs h
    rw [readLength] at h
    cases hb : readByte s cur with
    | error e =>
      rw [hb] at h
      have h2 : e = .outOfFuel := by cases h; rfl
      exact readByte_ne_outOfFuel s cur (by rw [hb, h2])
    | ok r =>
      obtain ⟨ok, cur2, s2⟩ := r
      rw [hb] at h
      simp only [bind_ok] at h
      cases ok with
      | false => cases h
      | true =>
        rw [if_neg (by simp)] at h
        by_cases hsh : shift > 21
        · rw [if_pos hsh] at h
          cases h
        · rw [if_neg hsh] at h
          cases hl : load s2 (cur2 - 1) with
          | error e =>
            rw [hl] at h
            have h2 : e = .outOfFuel := by cases h; rfl
            exact load_ne_outOfFuel s2 (cur2 - 1) (by rw [hl, h2])
          | ok byte =>
            rw [hl] at h
            simp only [bind_ok] at h
            by_cases hc : byte &&& 0x080 ≠ 0
            · rw [if_pos hc] at h
              have e : (shift + 7) % 256 = shift + 7 := Nat.mod_eq_of_lt (by omega)
              rw [e] at h
              exact ih s2 cur2 _ (shift + 7) (by omega) h
            · rw [if_neg hc] at h
              cases h

/-- Supporting result for C7: with a buffer of at least 6 bytes `readPacket` stays inside
the buffer (it returns a result, never an out-of-bounds access), whatever the stream. -/
theorem readPacket_in_bounds (s : MqttLite) (p_length : Nat) (hcap : 6 ≤ s.m_bufferSize) :
    ∃ ok len s', readPacket s p_length = .ok (ok, len, s')
      ∧ s'.m_bufferSize = s.m_bufferSize := by
  obtain ⟨d1, d2⟩ := readPacket_decode s p_length hcap
  cases hd : decodePacket s.m_bufferSize s.m_client.inbound with
  | none =>
    obtain ⟨len, s', e1, e2⟩ := d2 hd
    exact ⟨false, len, s', e1, receiveFrame_bufferSize e2⟩
  | some pk => exact ⟨true, _, _, d1 pk hd, rfl⟩

/-- Supporting result for C5: whenever the size check of `publish` itself fires, in
particular for every QoS 0 message that does not fit, a connected client returns 0 and
the whole state (buffer, transport, counter) is untouched. -/
theorem publish_rejects_oversize (s : MqttLite) (p_topic p_payload : List Nat)
    (p_retain : Bool) (p_qos : qos_t) (p_dupMessageId : Nat)
    (hup : s.m_client.up = true) (hstate : s.m_state = STATE_CONNECTED)
    (hlen : 7 + strlen p_topic + p_payload.length < 2 ^ 32)
    (hbig : 5 + 2 + strlen p_topic + p_payload.length > s.m_bufferSize) :
    publish s p_topic p_payload p_retain p_qos p_dupMessageId = .ok (0, s) := by
  unfold publish
  simp only [connected_eq s hup hstate]
  rw [if_neg (by simp)]
  have e : (BUFFER_OFFSET + 2 + strlen p_topic + p_payload.length) % 2 ^ 32
      = 5 + 2 + strlen p_topic + p_payload.length := by
    simp only [BUFFER_OFFSET]
    exact Nat.mod_eq_of_lt (by omega)
  rw [e, if_pos hbig]

theorem publish_rejects_oversize_witness :
    publish (sample 10 []) [97] [1, 2, 3] false .QOS0 0 = .ok (0, sample 10 []) :=
  publish_rejects_oversize (sample 10 []) [97] [1, 2, 3] false .QOS0 0 rfl rfl (by decide)
    (by decide)

/-- A client that is not connected: `publish` returns 0 without any write. -/
theorem publish_not_connected (s : MqttLite) (p_topic p_payload : List Nat)
    (p_retain : Bool) (p_qos : qos_t) (p_dupMessageId : Nat)
    (h : (connected s).1 = false) :
    publish s p_topic p_payload p_retain p_qos p_dupMessageId = .ok (0, (connected s).2) := by
  unfold publish
  simp only
  rw [if_pos h]


/-! ## SUBSCRIBE and UNSUBSCRIBE -/

theorem nextMessageId_eq (s : MqttLite) (p_dupMessageId : Nat) :
    nextMessageId s p_dupMessageId =
      (requestId s.m_messageId p_dupMessageId,
        { s with m_messageId :=
            if p_dupMessageId = 0 then (s.m_messageId + 1) % 65536 else s.m_messageId }) := by
  unfold nextMessageId requestId
  by_cases h : p_dupMessageId = 0
  · simp [h]
  · simp [h]

theorem requestId_lt (counter p_dupMessageId : Nat) (h : p_dupMessageId < 65536) :
    requestId counter p_dupMessageId < 65536 := by
  unfold requestId
  split
  · exact Nat.mod_lt _ (by decide)
  · exact h

theorem isBytes_subscribeBytes (p_topic : List Nat) (p_qos : qos_t) (messageId : Nat)
    (ht : validString p_topic) (hid : messageId < 65536) :
    isBytes (subscribeBytes p_topic p_qos messageId) := by
  intro b hb
  simp only [subscribeBytes, List.mem_append, List.mem_cons, List.mem_singleton,
    List.not_mem_nil, or_false] at hb
  rcases hb with ((h | h) | h) | h
  · subst h
    rw [shr8]
    omega
  · subst h
    rw [and_0xff]
    omega
  · exact isBytes_mqttString p_topic ht b h
  · subst h
    cases p_qos <;> decide

theorem isBytes_unsubscribeBytes (p_topic : List Nat) (messageId : Nat)
    (ht : validString p_topic) (hid : messageId < 65536) :
    isBytes (unsubscribeBytes p_topic messageId) := by
  intro b hb
  simp only [unsubscribeBytes, List.mem_append, List.mem_cons, List.mem_singleton,
    List.not_mem_nil, or_false] at hb
  rcases hb with (h | h) | h
  · subst h
    rw [shr8]
    omega
  · subst h
    rw [and_0xff]
    omega
  · exact isBytes_mqttString p_topic ht b h

/-- A connected client whose SUBSCRIBE payload fits hands the transport one SUBSCRIBE
packet carrying the message id `requestId`: the duplicate id when one is supplied, else
the incremented counter. -/
theorem subscribe_sent (s : MqttLite) (p_topic : List Nat) (p_qos : qos_t)
    (p_dupMessageId : Nat)
    (ht : validString p_topic) (hdup : p_dupMessageId < 65536)
    (hcap : 5 + (5 + p_topic.length) ≤ s.m_bufferSize)
    (hup : s.m_client.up = true) (hstate : s.m_state = STATE_CONNECTED) :
    ∃ s2 bl,
      subscribe s p_topic p_qos p_dupMessageId =
        (if nextReport s.m_client (wireLength (5 + p_topic.length))
            = wireLength (5 + p_topic.length)
         then .ok (requestId s.m_messageId p_dupMessageId, s2)
         else .ok (0, { s2 with m_state := STATE_CONNECTION_LOST,
                                m_client := s2.m_client.stop }))
      ∧ lengthLoop BUFFER_LENGTH_SIZE (5 + p_topic.length) [] = .ok bl
      ∧ s2.m_client.written = s.m_client.written ++
          [((packet_type_t.PACKET_TYPE_SUBSCRIBE.val <<< 4)
              ||| headerFlags false .QOS1 (decide (p_dupMessageId > 0))) ::
            (bl ++ subscribeBytes p_topic p_qos (requestId s.m_messageId p_dupMessageId))]
      ∧ s2.m_messageId =
          (if p_dupMessageId = 0 then (s.m_messageId + 1) % 65536 else s.m_messageId)
      ∧ s2.m_state = s.m_state ∧ s2.m_client.up = s.m_client.up
      ∧ s2.m_client.stops = s.m_client.stops ∧ s2.m_bufferSize = s.m_bufferSize := by
  have hl := ht.2
  obtain ⟨bl, hbl⟩ := lengthLoop_total (5 + p_topic.length) (by omega)
  have hbytes := isBytes_subscribeBytes p_topic p_qos _ ht
    (requestId_lt s.m_messageId p_dupMessageId hdup)
  have hL : (subscribeBytes p_topic p_qos (requestId s.m_messageId p_dupMessageId)).length
      = 5 + p_topic.length := by
    simp only [subscribeBytes, List.length_append, List.length_cons, List.length_nil,
      mqttString_length]
    omega
  obtain ⟨s2, hw, hf, hwr, _, _⟩ := writePacket_sent
    { s with
      m_messageId :=
        if p_dupMessageId = 0 then (s.m_messageId + 1) % 65536 else s.m_messageId
      m_buffer := overlay s.m_buffer 5
        (subscribeBytes p_topic p_qos (requestId s.m_messageId p_dupMessageId)) }
    .PACKET_TYPE_SUBSCRIBE (5 + p_topic.length) false .QOS1
    (decide (p_dupMessageId > 0)) bl hbl (by simp only; omega)
  rw [← hL] at hwr
  simp only [bytesAt_overlay_self, map_mod_of_isBytes _ hbytes] at hwr
  refine ⟨s2, bl, ?_, hbl, hwr, ?_, ?_, ?_, ?_, ?_⟩
  · unfold subscribe
    simp only [connected_eq s hup hstate]
    rw [if_neg (by simp), strlen_eq _ ht.1]
    have e0 : (BUFFER_OFFSET + 2 + 2 + p_topic.length + 1) % 2 ^ 32
        = BUFFER_OFFSET + 2 + 2 + p_topic.length + 1 := by
      apply Nat.mod_eq_of_lt
      simp only [BUFFER_OFFSET]
      omega
    rw [e0, if_neg (by simp only [BUFFER_OFFSET]; omega)]
    simp only [nextMessageId_eq, BUFFER_OFFSET, Nat.add_zero]
    rw [store_eq _ _ _ (by simp only; omega)]
    simp only [bind_ok, bind, Except.bind]
    rw [store_eq _ _ _ (by simp only; omega)]
    simp only
    rw [writeString_valid _ 2 p_topic ht (by rw [mqttString_length]; simp only; omega)]
    simp only
    have e1 : (2 + (2 + p_topic.length)) % 2 ^ 32 = 2 + (2 + p_topic.length) :=
      Nat.mod_eq_of_lt (by omega)
    rw [e1, store_eq _ _ _ (by simp only; omega)]
    simp only
    rw [overlay_join _ 5 _ _ _ (by simp)]
    rw [overlay_join _ 5 _ _ _ (by simp)]
    rw [overlay_join _ 5 _ _ _ (by simp [mqttString_length]; omega)]
    have e2 : 2 + (2 + p_topic.length) + 1 = 5 + p_topic.length := by omega
    rw [e2]
    have e3 : [requestId s.m_messageId p_dupMessageId >>> 8] ++
        [requestId s.m_messageId p_dupMessageId &&& 255] ++ mqttString p_topic ++ [p_qos.val]
        = subscribeBytes p_topic p_qos (requestId s.m_messageId p_dupMessageId) := rfl
    rw [e3, hw]
    by_cases hr : nextReport s.m_client (wireLength (5 + p_topic.length))
        = wireLength (5 + p_topic.length)
    · simp [hr]
    · simp [hr]
  · rw [sendFrame_messageId hf]
  · rw [sendFrame_state hf]
  · rw [sendFrame_up hf]
  · rw [sendFrame_stops hf]
  · rw [sendFrame_bufferSize hf]

/-- A connected client whose UNSUBSCRIBE payload fits hands the transport one UNSUBSCRIBE
packet carrying the message id `requestId`. -/
theorem unsubscribe_sent (s : MqttLite) (p_topic : List Nat) (p_dupMessageId : Nat)
    (ht : validString p_topic) (hdup : p_dupMessageId < 65536)
    (hcap : 5 + (4 + p_topic.length) ≤ s.m_bufferSize)
    (hup : s.m_client.up = true) (hstate : s.m_state = STATE_CONNECTED) :
    ∃ s2 bl,
      unsubscribe s p_topic p_dupMessageId =
        (if nextReport s.m_client (wireLength (4 + p_topic.length))
            = wireLength (4 + p_topic.length)
         then .ok (requestId s.m_messageId p_dupMessageId, s2)
         else .ok (0, { s2 with m_state := STATE_CONNECTION_LOST,
                                m_client := s2.m_client.stop }))
      ∧ lengthLoop BUFFER_LENGTH_SIZE (4 + p_topic.length) [] = .ok bl
      ∧ s2.m_client.written = s.m_client.written ++
          [((packet_type_t.PACKET_TYPE_UNSUBSCRIBE.val <<< 4)
              ||| headerFlags false .QOS1 (decide (p_dupMessageId > 0))) ::
            (bl ++ unsubscribeBytes p_topic (requestId s.m_messageId p_dupMessageId))]
      ∧ s2.m_messageId =
          (if p_dupMessageId = 0 then (s.m_messageId + 1) % 65536 else s.m_messageId)
      ∧ s2.m_state = s.m_state ∧ s2.m_client.up = s.m_client.up
      ∧ s2.m_client.stops = s.m_client.stops ∧ s2.m_bufferSize = s.m_bufferSize := by
  have hl := ht.2
  obtain ⟨bl, hbl⟩ := lengthLoop_total (4 + p_topic.length) (by omega)
  have hbytes := isBytes_unsubscribeBytes p_topic _ ht
    (requestId_lt s.m_messageId p_dupMessageId hdup)
  have hL : (unsubscribeBytes p_topic (requestId s.m_messageId p_dupMessageId)).length
      = 4 + p_topic.length := by
    simp only [unsubscribeBytes, List.length_append, List.length_cons, List.length_nil,
      mqttString_length]
    omega
  obtain ⟨s2, hw, hf, hwr, _, _⟩ := writePacket_sent
    { s with
      m_messageId :=
        if p_dupMessageId = 0 then (s.m_messageId + 1) % 65536 else s.m_messageId
      m_buffer := overlay s.m_buffer 5
        (unsubscribeBytes p_topic (requestId s.m_messageId p_dupMessageId)) }
    .PACKET_TYPE_UNSUBSCRIBE (4 + p_topic.length) false .QOS1
    (decide (p_dupMessageId > 0)) bl hbl (by simp only; omega)
  rw [← hL] at hwr
  simp only [bytesAt_overlay_self, map_mod_of_isBytes _ hbytes] at hwr
  refine ⟨s2, bl, ?_, hbl, hwr, ?_, ?_, ?_, ?_, ?_⟩
  · unfold unsubscribe
    simp only [connected_eq s hup hstate]
    rw [if_neg (by simp), strlen_eq _ ht.1]
    have e0 : (BUFFER_OFFSET + 2 + 2 + p_topic.length) % 2 ^ 32
        = BUFFER_OFFSET + 2 + 2 + p_topic.length := by
      apply Nat.mod_eq_of_lt
      simp only [BUFFER_OFFSET]
      omega
    rw [e0, if_neg (by simp only [BUFFER_OFFSET]; omega)]
    simp only [nextMessageId_eq, BUFFER_OFFSET, Nat.add_zero]
    rw [store_eq _ _ _ (by simp only; omega)]
    simp only [bind_ok, bind, Except.bind]
    rw [store_eq _ _ _ (by simp only; omega)]
    simp only
    rw [writeString_valid _ 2 p_topic ht (by rw [mqttString_length]; simp only; omega)]
    simp only
    have e1 : (2 + (2 + p_topic.length)) % 2 ^ 32 = 4 + p_topic.length := by
      rw [Nat.mod_eq_of_lt (by omega)]
      omega
    rw [e1]
    rw [overlay_join _ 5 _ _ _ (by simp)]
    rw [overlay_join _ 5 _ _ _ (by simp)]
    have e3 : [requestId s.m_messageId p_dupMessageId >>> 8] ++
        [requestId s.m_messageId p_dupMessageId &&& 255] ++ mqttString p_topic
        = unsubscribeBytes p_topic (requestId s.m_messageId p_dupMessageId) := rfl
    rw [e3, hw]
    by_cases hr : nextReport s.m_client (wireLength (4 + p_topic.length))
        = wireLength (4 + p_topic.length)
    · simp [hr]
    · simp [hr]
  · rw [sendFrame_messageId hf]
  · rw [sendFrame_state hf]
  · rw [sendFrame_up hf]
  · rw [sendFrame_stops hf]
  · rw [sendFrame_bufferSize hf]

/-- Supporting result for C10: `subscribe` and `unsubscribe` do reuse a supplied duplicate
id. With id 7 they return 7, put 7 on the wire with the DUP bit set, and leave the counter
alone. -/
theorem subscribe_unsubscribe_reuse_duplicate_id :
    (subscribe (sample 32 []) [97] .QOS1 7).map (fun r => (r.1, r.2.m_client.written,
        r.2.m_messageId)) = .ok (7, [[0x8A, 6, 0, 7, 0, 1, 97, 1]], 0)
    ∧ (unsubscribe (sample 32 []) [97] 7).map (fun r => (r.1, r.2.m_client.written,
        r.2.m_messageId)) = .ok (7, [[0xAA, 5, 0, 7, 0, 1, 97]], 0)
    ∧ (subscribe (sample 32 []) [97] .QOS1 0).map (fun r => (r.1, r.2.m_client.written,
        r.2.m_messageId)) = .ok (1, [[0x82, 6, 0, 1, 0, 1, 97, 1]], 1) :=
  ⟨rfl, rfl, rfl⟩


/-! ## C14: `connected()` -/

/-- C14: `connected()` returns true exactly when the state is Connected and the transport
reports connected; when the state is Connected and the transport reports not connected it
sets the state to ConnectionLost, stops the transport and returns false; in every other
case it returns the state unchanged in every field, the transport not stopped. -/
theorem C14_connected_lazy_reconciliation (s : MqttLite) :
    ((connected s).1 = true ↔ (state s = STATE_CONNECTED ∧ s.m_client.connected = true))
    ∧ (state s = STATE_CONNECTED ∧ s.m_client.connected = false →
        connected s = (false, { s with m_state := STATE_CONNECTION_LOST,
                                       m_client := { s.m_client with
                                         up := false, stops := s.m_client.stops + 1 } }))
    ∧ (¬ (state s = STATE_CONNECTED ∧ s.m_client.connected = false) →
        (connected s).2 = s) := by
  unfold connected state Client.connected Client.stop
  by_cases hs : s.m_state = STATE_CONNECTED
  · cases hu : s.m_client.up with
    | true => simp [hs, hu]
    | false => simp [hs, hu, STATE_CONNECTED, STATE_CONNECTION_LOST]
  · cases hu : s.m_client.up <;> simp [hs, hu]


/-! ## C13: keepalive -/

theorem sendFrame_lastIn {s s' : MqttLite} (h : sendFrame s s') : s'.m_lastIn = s.m_lastIn := by
  have e : sendErase s' = sendErase s := h
  have e2 := congrArg MqttLite.m_lastIn e
  exact e2

theorem sendFrame_millis {s s' : MqttLite} (h : sendFrame s s') : s'.millis = s.millis := by
  have e : sendErase s' = sendErase s := h
  have e2 := congrArg MqttLite.millis e
  exact e2

theorem sendFrame_keepAlive {s s' : MqttLite} (h : sendFrame s s') :
    s'.m_keepAlive = s.m_keepAlive := by
  have e : sendErase s' = sendErase s := h
  have e2 := congrArg MqttLite.m_keepAlive e
  exact e2

theorem sendFrame_pongReceived {s s' : MqttLite} (h : sendFrame s s') :
    s'.m_pongReceived = s.m_pongReceived := by
  have e : sendErase s' = sendErase s := h
  have e2 := congrArg MqttLite.m_pongReceived e
  exact e2

/-- A packet without payload: `writePacket` hands the transport the header byte and a zero
length byte. -/
theorem writePacket_empty (s : MqttLite) (p_type : packet_type_t) (hcap : 5 ≤ s.m_bufferSize) :
    ∃ s2, writePacket s p_type 0 false .QOS0 false =
        .ok (decide (nextReport s.m_client 2 = 2), s2)
      ∧ sendFrame s s2
      ∧ s2.m_client.written = s.m_client.written ++ [[p_type.val <<< 4, 0]]
      ∧ s2.m_lastOut = (if nextReport s.m_client 2 = 2 then s.millis else s.m_lastOut) := by
  obtain ⟨s2, hw, hf, hwr, hlo, _⟩ := writePacket_sent s p_type 0 false .QOS0 false [0] rfl
    (by omega)
  refine ⟨s2, hw, hf, ?_, hlo⟩
  rw [hwr]
  cases p_type <;> rfl

/-- The receive half of `loop` with nothing inbound does nothing. -/
theorem loopReceive_idle (s : MqttLite) (h : s.m_client.inbound = []) :
    loopReceive s = .ok (true, s) := by
  unfold loopReceive Client.available
  rw [h]
  rfl


/-- C13: from a Connected state with no ping outstanding, over a transport that is
connected, accepts the write and holds no inbound data, a `loop()` call made when more than
`m_keepAlive` ms (modulo 2^32) have elapsed since `m_lastIn` or `m_lastOut` writes exactly
one PINGREQ packet `C0 00`, marks the pong as outstanding and returns true. Every later
`loop()` call made at most `m_keepAlive` ms after that one writes nothing and changes
nothing; a later call made more than `m_keepAlive` ms after it returns false with state
ConnectionTimeout and the transport stopped, without writing. -/
theorem C13_keepalive_state_machine (s : MqttLite)
    (hcap : 5 ≤ s.m_bufferSize) (hstate : s.m_state = STATE_CONNECTED)
    (hup : s.m_client.up = true) (hpong : s.m_pongReceived = true)
    (hin : s.m_client.inbound = []) (hacc : nextReport s.m_client 2 = 2)
    (hdue : elapsed s.millis s.m_lastIn > s.m_keepAlive
      ∨ elapsed s.millis s.m_lastOut > s.m_keepAlive) :
    ∃ s1, loop s = .ok (true, s1)
      ∧ s1.m_client.written = s.m_client.written ++ [[0xC0, 0x00]]
      ∧ s1.m_pongReceived = false
      ∧ state s1 = STATE_CONNECTED ∧ s1.m_client.up = true
      ∧ s1.m_client.stops = s.m_client.stops
      ∧ (∀ t, elapsed t s.millis ≤ s.m_keepAlive →
          loop { s1 with millis := t } = .ok (true, { s1 with millis := t }))
      ∧ (∀ t, elapsed t s.millis > s.m_keepAlive →
          ∃ s2, loop { s1 with millis := t } = .ok (false, s2)
            ∧ state s2 = STATE_CONNECTION_TIMEOUT ∧ s2.m_client.up = false
            ∧ s2.m_client.stops = s.m_client.stops + 1
            ∧ s2.m_client.written = s1.m_client.written) := by
  obtain ⟨s2, hw, hf, hwr, hlo⟩ := writePacket_empty s .PACKET_TYPE_PING_REQUEST hcap
  rw [hacc] at hw hlo
  simp only [if_true, decide_True] at hw hlo
  have hst := sendFrame_state hf
  have hu2 := sendFrame_up hf
  have hin2 := sendFrame_inbound hf
  have hka := sendFrame_keepAlive hf
  have hstops := sendFrame_stops hf
  have hc : ∀ t, connected { s2 with m_lastIn := s.millis, m_pongReceived := false, millis := t }
      = (true, { s2 with m_lastIn := s.millis, m_pongReceived := false, millis := t }) := by
    intro t
    exact connected_eq _ (by simp only; rw [hu2]; exact hup) (by simp only; rw [hst]; exact hstate)
  refine ⟨{ s2 with m_lastIn := s.millis, m_pongReceived := false }, ?_, hwr, rfl, ?_, ?_, ?_,
    ?_, ?_⟩
  · unfold loop
    simp only [connected_eq s hup hstate]
    rw [if_neg (by simp)]
    have hd : (s.millis + 2 ^ 32 - s.m_lastIn) % 2 ^ 32 > s.m_keepAlive
        ∨ (s.millis + 2 ^ 32 - s.m_lastOut) % 2 ^ 32 > s.m_keepAlive := hdue
    rw [if_pos hd, if_neg (by simp [hpong]), hw]
    simp only [bind_ok, bind, Except.bind]
    exact loopReceive_idle _ (by simp only; rw [hin2]; exact hin)
  · simp only [state]
    rw [hst]
    exact hstate
  · simp only
    rw [hu2]
    exact hup
  · exact hstops
  · intro t ht
    unfold loop
    simp only [hc t]
    rw [if_neg (by simp)]
    have hn : ¬ ((t + 2 ^ 32 - s.millis) % 2 ^ 32 > s2.m_keepAlive
        ∨ (t + 2 ^ 32 - s2.m_lastOut) % 2 ^ 32 > s2.m_keepAlive) := by
      rw [hlo, hka]
      unfold elapsed at ht
      omega
    rw [if_neg hn]
    exact loopReceive_idle _ (by simp only; rw [hin2]; exact hin)
  · intro t ht
    refine ⟨{ s2 with m_lastIn := s.millis, m_pongReceived := false, millis := t,
                      m_state := STATE_CONNECTION_TIMEOUT, m_client := s2.m_client.stop },
      ?_, rfl, rfl, ?_, rfl⟩
    · unfold loop
      simp only [hc t]
      rw [if_neg (by simp)]
      have hp : (t + 2 ^ 32 - s.millis) % 2 ^ 32 > s2.m_keepAlive
          ∨ (t + 2 ^ 32 - s2.m_lastOut) % 2 ^ 32 > s2.m_keepAlive := by
        rw [hka]
        exact Or.inl ht
      rw [if_pos hp, if_pos trivial]
    · simp only [Client.stop]
      rw [hstops]

theorem C13_keepalive_state_machine_witness :
    ∃ s1, loop { sample 16 [] with millis := 15001 } = .ok (true, s1)
      ∧ s1.m_client.written = [[0xC0, 0x00]]
      ∧ loop { s1 with millis := 30001 } = .ok (true, { s1 with millis := 30001 })
      ∧ ∃ s2, loop { s1 with millis := 30002 } = .ok (false, s2)
          ∧ state s2 = STATE_CONNECTION_TIMEOUT ∧ s2.m_client.up = false := by
  obtain ⟨s1, h1, h2, _, _, _, _, h3, h4⟩ := C13_keepalive_state_machine
    { sample 16 [] with millis := 15001 } (by decide) rfl rfl rfl rfl rfl (Or.inl (by decide))
  obtain ⟨s2, h5, h6, h7, _⟩ := h4 30002 (by decide)
  exact ⟨s1, h1, h2, h3 30001 (by decide), s2, h5, h6, h7⟩


/-! ## `writeString` on arbitrary strings -/

theorem strlen_nil : strlen [] = 0 := rfl

theorem strlen_cons_zero (c : Nat) (cs : List Nat) (h : c % 256 = 0) : strlen (c :: cs) = 0 := by
  simp [strlen, List.takeWhile, h]

theorem strlen_cons_succ (c : Nat) (cs : List Nat) (h : c % 256 ≠ 0) :
    strlen (c :: cs) = strlen cs + 1 := by
  simp [strlen, List.takeWhile, h]

/-- The character loop of `writeString` on any string: when the buffer has room for the
string behind `p_position` (or for all 65536 values of the wrapping counter), the loop stays
inside the buffer, returns the counter modulo 65536 and touches nothing below its start. -/
theorem writeStringLoop_total (p_position : Nat) (cs : List Nat) :
    ∀ (i : Nat) (s : MqttLite), i < 65536 →
      (i + strlen cs ≤ 65536 → 5 + p_position + i + strlen cs ≤ s.m_bufferSize) →
      (65536 < i + strlen cs → 5 + p_position + 65536 ≤ s.m_bufferSize) →
      ∃ memory, writeStringLoop p_position cs i s =
          .ok ((i + strlen cs) % 65536, { s with m_buffer := memory })
        ∧ ∀ j, j < 5 + p_position → memory j = s.m_buffer j := by
  induction cs with
  | nil =>
    intro i s hi _ _
    exact ⟨s.m_buffer, by simp [writeStringLoop, strlen_nil, Nat.mod_eq_of_lt hi],
      fun _ _ => rfl⟩
  | cons c cs ih =>
    intro i s hi h1 h2
    by_cases hz : c % 256 = 0
    · refine ⟨s.m_buffer, ?_, fun _ _ => rfl⟩
      simp [writeStringLoop, hz, strlen_cons_zero c cs hz, Nat.mod_eq_of_lt hi]
    · rw [strlen_cons_succ c cs hz] at h1 h2 ⊢
      have hmod : ((i + 1) % 65536 = i + 1 ∧ i + 1 < 65536)
          ∨ ((i + 1) % 65536 = 0 ∧ i + 1 = 65536) := by omega
      obtain ⟨memory, hm, hfr⟩ := ih ((i + 1) % 65536)
        { s with m_buffer := overlay s.m_buffer (5 + p_position + i) [c] }
        (Nat.mod_lt _ (by norm_num))
        (by
          intro h
          simp only
          omega)
        (by
          intro h
          simp only
          omega)
      refine ⟨memory, ?_, ?_⟩
      · simp only [writeStringLoop, if_neg hz, BUFFER_OFFSET]
        rw [store_eq _ _ _ (by omega)]
        simp only [bind_ok, bind, Except.bind]
        rw [hm]
        have e : ((i + 1) % 65536 + strlen cs) % 65536 = (i + (strlen cs + 1)) % 65536 := by
          omega
        rw [e]
      · intro j hj
        rw [hfr j hj]
        simp only
        rw [overlay_outside _ _ _ _ (by omega)]

/-- Method `writeString` on any string whose length prefix and characters fit behind
`p_position`: it stays inside the buffer, returns `2 + strlen` modulo 65536, leaves the
bytes below its start alone and stores the two prefix bytes computed from that counter. -/
theorem writeString_total (s : MqttLite) (p_position : Nat) (cs : List Nat)
    (hcap : 5 + p_position + 2 + strlen cs ≤ s.m_bufferSize) :
    ∃ memory, writeString s p_position cs =
        .ok ((2 + strlen cs) % 65536, { s with m_buffer := memory })
      ∧ (∀ j, j < 5 + p_position → memory j = s.m_buffer j)
      ∧ memory (5 + p_position)
          = toUInt8 (((((2 + strlen cs) % 65536 : Nat) : Int) - 2) >>> (8 : Nat)) % 256
      ∧ memory (5 + p_position + 1)
          = toUInt8 (((((2 + strlen cs) % 65536 : Nat) : Int) - 2) % 256) % 256 := by
  obtain ⟨m0, hloop, hfr⟩ := writeStringLoop_total p_position cs 2 s (by norm_num)
    (by intro _; omega) (by intro _; omega)
  refine ⟨overlay (overlay m0 (5 + p_position)
      [toUInt8 (((((2 + strlen cs) % 65536 : Nat) : Int) - 2) >>> (8 : Nat))])
      (5 + p_position + 1) [toUInt8 (((((2 + strlen cs) % 65536 : Nat) : Int) - 2) % 256)],
    ?_, ?_, ?_, ?_⟩
  · unfold writeString
    rw [hloop]
    simp only [bind_ok, bind, Except.bind, BUFFER_OFFSET]
    rw [store_eq _ _ _ (by simp only; omega)]
    simp only
    rw [store_eq _ _ _ (by simp only; omega)]
  · intro j hj
    rw [overlay_outside _ _ _ _ (by omega), overlay_outside _ _ _ _ (by omega)]
    exact hfr j hj
  · rw [overlay_outside _ _ _ _ (by omega), overlay_single]
  · rw [overlay_single]


/-! ## C17: the pre-checks of `subscribe` and `unsubscribe` -/

theorem write_reports (c : Client) (bytes : List Nat) :
    (c.write bytes).2.reports = c.reports.tail := by
  unfold Client.write
  split
  · rename_i h
    rw [h]
    rfl
  · rename_i r rs h
    rw [h]
    rfl

/-- A `writePacket` call consumes one scripted report of the transport. -/
theorem writePacket_reports (s : MqttLite) (p_type : packet_type_t) (p_length : Nat)
    (p_retain : Bool) (p_qos : qos_t) (p_dup : Bool) (bl : List Nat)
    (hbl : lengthLoop BUFFER_LENGTH_SIZE p_length [] = .ok bl)
    (hcap : 5 + p_length ≤ s.m_bufferSize) (ok : Bool) (s2 : MqttLite)
    (h : writePacket s p_type p_length p_retain p_qos p_dup = .ok (ok, s2)) :
    s2.m_client.reports = s.m_client.reports.tail := by
  have hw := writePacket_eq s p_type p_length p_retain p_qos p_dup bl _ hbl hcap rfl
  rw [hw] at h
  injection h with h
  injection h with _ h2
  subst h2
  exact write_reports _ _

theorem connected_true (s : MqttLite) (h : (connected s).1 = true) :
    s.m_client.up = true ∧ s.m_state = STATE_CONNECTED := by
  unfold connected Client.connected Client.stop at h
  by_cases hs : s.m_state = STATE_CONNECTED
  · cases hu : s.m_client.up with
    | true => exact ⟨rfl, hs⟩
    | false => simp [hs, hu] at h
  · cases hu : s.m_client.up <;> simp [hs, hu] at h

/-- What `connected()` may change: the state and the transport's up flag and stop count. -/
theorem connected_frame (s : MqttLite) :
    (connected s).2.m_client.written = s.m_client.written
    ∧ (connected s).2.m_buffer = s.m_buffer
    ∧ (connected s).2.m_messageId = s.m_messageId
    ∧ (connected s).2.m_bufferSize = s.m_bufferSize
    ∧ (connected s).2.calls = s.calls := by
  unfold connected Client.stop
  split <;> exact ⟨rfl, rfl, rfl, rfl, rfl⟩

/-- A connected client whose topic passes the size check of `subscribe`, whatever the topic:
the call stays inside the buffer, returns the message id when the transport accepts the
packet and otherwise 0 with state ConnectionLost. -/
theorem subscribe_run (s : MqttLite) (p_topic : List Nat) (p_qos : qos_t)
    (p_dupMessageId : Nat) (hup : s.m_client.up = true) (hstate : s.m_state = STATE_CONNECTED)
    (hcap : 5 + (2 + 2 + strlen p_topic + 1) ≤ s.m_bufferSize)
    (hlen : strlen p_topic + 10 < 2 ^ 32) :
    ∃ s2 L,
      subscribe s p_topic p_qos p_dupMessageId =
        (if nextReport s.m_client (wireLength L) = wireLength L
         then .ok (requestId s.m_messageId p_dupMessageId, s2)
         else .ok (0, { s2 with m_state := STATE_CONNECTION_LOST,
                                m_client := s2.m_client.stop }))
      ∧ s2.m_messageId =
          (if p_dupMessageId = 0 then (s.m_messageId + 1) % 65536 else s.m_messageId)
      ∧ s2.m_state = s.m_state ∧ s2.m_client.up = s.m_client.up
      ∧ s2.m_bufferSize = s.m_bufferSize
      ∧ s2.m_client.reports = s.m_client.reports.tail
      ∧ s2.m_client.written.length = s.m_client.written.length + 1 := by
  obtain ⟨memory, hws, _, _, _⟩ := writeString_total
    { s with
      m_messageId := if p_dupMessageId = 0 then (s.m_messageId + 1) % 65536 else s.m_messageId
      m_buffer := overlay (overlay s.m_buffer 5 [requestId s.m_messageId p_dupMessageId >>> 8])
        6 [requestId s.m_messageId p_dupMessageId &&& 255] }
    2 p_topic (by simp only; omega)
  have hk : (2 + strlen p_topic) % 65536 ≤ 2 + strlen p_topic := Nat.mod_le _ _
  have hk2 : (2 + strlen p_topic) % 65536 < 65536 := Nat.mod_lt _ (by norm_num)
  generalize (2 + strlen p_topic) % 65536 = k at hws hk hk2
  obtain ⟨bl, hbl⟩ := lengthLoop_total (2 + k + 1) (by omega)
  obtain ⟨s2, hw, hf, hwr, _⟩ := writePacket_sent
    { s with
      m_messageId := if p_dupMessageId = 0 then (s.m_messageId + 1) % 65536 else s.m_messageId
      m_buffer := overlay memory (5 + (2 + k)) [p_qos.val] }
    .PACKET_TYPE_SUBSCRIBE (2 + k + 1) false .QOS1 (decide (p_dupMessageId > 0)) bl hbl
    (by simp only; omega)
  have hsz := sendFrame_bufferSize hf
  have hrun : subscribe s p_topic p_qos p_dupMessageId =
      (if nextReport s.m_client (wireLength (2 + k + 1)) = wireLength (2 + k + 1)
       then .ok (requestId s.m_messageId p_dupMessageId, s2)
       else .ok (0, { s2 with m_state := STATE_CONNECTION_LOST,
                              m_client := s2.m_client.stop })) := by
    unfold subscribe
    simp only [connected_eq s hup hstate]
    rw [if_neg (by simp)]
    have e0 : (BUFFER_OFFSET + 2 + 2 + strlen p_topic + 1) % 2 ^ 32
        = BUFFER_OFFSET + 2 + 2 + strlen p_topic + 1 := by
      apply Nat.mod_eq_of_lt
      simp only [BUFFER_OFFSET]
      omega
    rw [e0, if_neg (by simp only [BUFFER_OFFSET]; omega)]
    simp only [nextMessageId_eq, BUFFER_OFFSET, Nat.add_zero]
    rw [store_eq _ _ _ (by simp only; omega)]
    simp only [bind_ok, bind, Except.bind]
    rw [store_eq _ _ _ (by simp only; omega)]
    simp only
    rw [hws]
    simp only
    have e1 : (2 + k) % 2 ^ 32 = 2 + k := Nat.mod_eq_of_lt (by omega)
    rw [e1, store_eq _ _ _ (by simp only; omega)]
    simp only
    rw [hw]
    by_cases hr : nextReport s.m_client (wireLength (2 + k + 1)) = wireLength (2 + k + 1)
    · simp [hr]
    · simp [hr]
  have hrep := writePacket_reports _ _ _ _ _ _ bl hbl (by simp only; omega) _ _ hw
  refine ⟨s2, 2 + k + 1, hrun, ?_, ?_, ?_, hsz, hrep, ?_⟩
  · rw [sendFrame_messageId hf]
  · rw [sendFrame_state hf]
  · rw [sendFrame_up hf]
  · rw [hwr]
    simp

/-- A connected client whose topic passes the size check of `subscribe`: every buffer
access of the call is inside the buffer, whatever the topic. -/
theorem subscribe_total (s : MqttLite) (p_topic : List Nat) (p_qos : qos_t)
    (p_dupMessageId : Nat) (hup : s.m_client.up = true) (hstate : s.m_state = STATE_CONNECTED)
    (hcap : 5 + (2 + 2 + strlen p_topic + 1) ≤ s.m_bufferSize)
    (hlen : strlen p_topic + 10 < 2 ^ 32) :
    ∃ r s', subscribe s p_topic p_qos p_dupMessageId = .ok (r, s')
      ∧ s'.m_bufferSize = s.m_bufferSize := by
  obtain ⟨s2, L, hrun, _, _, _, hsz, _⟩ := subscribe_run s p_topic p_qos p_dupMessageId hup hstate hcap hlen
  by_cases hr : nextReport s.m_client (wireLength L) = wireLength L
  · rw [if_pos hr] at hrun
    exact ⟨_, _, hrun, hsz⟩
  · rw [if_neg hr] at hrun
    exact ⟨_, _, hrun, hsz⟩

/-- A connected client whose topic passes the size check of `unsubscribe`, whatever the topic:
the call stays inside the buffer, returns the message id when the transport accepts the
packet and otherwise 0 with state ConnectionLost. -/
theorem unsubscribe_run (s : MqttLite) (p_topic : List Nat)
    (p_dupMessageId : Nat) (hup : s.m_client.up = true) (hstate : s.m_state = STATE_CONNECTED)
    (hcap : 5 + (2 + 2 + strlen p_topic) ≤ s.m_bufferSize)
    (hlen : strlen p_topic + 10 < 2 ^ 32) :
    ∃ s2 L,
      unsubscribe s p_topic p_dupMessageId =
        (if nextReport s.m_client (wireLength L) = wireLength L
         then .ok (requestId s.m_messageId p_dupMessageId, s2)
         else .ok (0, { s2 with m_state := STATE_CONNECTION_LOST,
                                m_client := s2.m_client.stop }))
      ∧ s2.m_messageId =
          (if p_dupMessageId = 0 then (s.m_messageId + 1) % 65536 else s.m_messageId)
      ∧ s2.m_state = s.m_state ∧ s2.m_client.up = s.m_client.up
      ∧ s2.m_bufferSize = s.m_bufferSize
      ∧ s2.m_client.reports = s.m_client.reports.tail
      ∧ s2.m_client.written.length = s.m_client.written.length + 1 := by
  obtain ⟨memory, hws, _, _, _⟩ := writeString_total
    { s with
      m_messageId := if p_dupMessageId = 0 then (s.m_messageId + 1) % 65536 else s.m_messageId
      m_buffer := overlay (overlay s.m_buffer 5 [requestId s.m_messageId p_dupMessageId >>> 8])
        6 [requestId s.m_messageId p_dupMessageId &&& 255] }
    2 p_topic (by simp only; omega)
  have hk : (2 + strlen p_topic) % 65536 ≤ 2 + strlen p_topic := Nat.mod_le _ _
  have hk2 : (2 + strlen p_topic) % 65536 < 65536 := Nat.mod_lt _ (by norm_num)
  generalize (2 + strlen p_topic) % 65536 = k at hws hk hk2
  obtain ⟨bl, hbl⟩ := lengthLoop_total (2 + k) (by omega)
  obtain ⟨s2, hw, hf, hwr, _⟩ := writePacket_sent
    { s with
      m_messageId := if p_dupMessageId = 0 then (s.m_messageId + 1) % 65536 else s.m_messageId
      m_buffer := memory }
    .PACKET_TYPE_UNSUBSCRIBE (2 + k) false .QOS1 (decide (p_dupMessageId > 0)) bl hbl
    (by simp only; omega)
  have hsz := sendFrame_bufferSize hf
  have hrun : unsubscribe s p_topic p_dupMessageId =
      (if nextReport s.m_client (wireLength (2 + k)) = wireLength (2 + k)
       then .ok (requestId s.m_messageId p_dupMessageId, s2)
       else .ok (0, { s2 with m_state := STATE_CONNECTION_LOST,
                              m_client := s2.m_client.stop })) := by
    unfold unsubscribe
    simp only [connected_eq s hup hstate]
    rw [if_neg (by simp)]
    have e0 : (BUFFER_OFFSET + 2 + 2 + strlen p_topic) % 2 ^ 32
        = BUFFER_OFFSET + 2 + 2 + strlen p_topic := by
      apply Nat.mod_eq_of_lt
      simp only [BUFFER_OFFSET]
      omega
    rw [e0, if_neg (by simp only [BUFFER_OFFSET]; omega)]
    simp only [nextMessageId_eq, BUFFER_OFFSET, Nat.add_zero]
    rw [store_eq _ _ _ (by simp only; omega)]
    simp only [bind_ok, bind, Except.bind]
    rw [store_eq _ _ _ (by simp only; omega)]
    simp only
    rw [hws]
    simp only
    have e1 : (2 + k) % 2 ^ 32 = 2 + k := Nat.mod_eq_of_lt (by omega)
    rw [e1, hw]
    by_cases hr : nextReport s.m_client (wireLength (2 + k)) = wireLength (2 + k)
    · simp [hr]
    · simp [hr]
  have hrep := writePacket_reports _ _ _ _ _ _ bl hbl (by simp only; omega) _ _ hw
  refine ⟨s2, 2 + k, hrun, ?_, ?_, ?_, hsz, hrep, ?_⟩
  · rw [sendFrame_messageId hf]
  · rw [sendFrame_state hf]
  · rw [sendFrame_up hf]
  · rw [hwr]
    simp

/-- A connected client whose topic passes the size check of `unsubscribe`: every buffer
access of the call is inside the buffer, whatever the topic. -/
theorem unsubscribe_total (s : MqttLite) (p_topic : List Nat)
    (p_dupMessageId : Nat) (hup : s.m_client.up = true) (hstate : s.m_state = STATE_CONNECTED)
    (hcap : 5 + (2 + 2 + strlen p_topic) ≤ s.m_bufferSize)
    (hlen : strlen p_topic + 10 < 2 ^ 32) :
    ∃ r s', unsubscribe s p_topic p_dupMessageId = .ok (r, s')
      ∧ s'.m_bufferSize = s.m_bufferSize := by
  obtain ⟨s2, L, hrun, _, _, _, hsz, _⟩ := unsubscribe_run s p_topic p_dupMessageId hup hstate hcap hlen
  by_cases hr : nextReport s.m_client (wireLength L) = wireLength L
  · rw [if_pos hr] at hrun
    exact ⟨_, _, hrun, hsz⟩
  · rw [if_neg hr] at hrun
    exact ⟨_, _, hrun, hsz⟩


theorem subscribe_rejects (s : MqttLite) (p_topic : List Nat) (p_qos : qos_t)
    (p_dupMessageId : Nat) (hlen : strlen p_topic + 10 < 2 ^ 32)
    (h : (connected s).1 = false ∨ 5 + (2 + 2 + strlen p_topic + 1) > s.m_bufferSize) :
    subscribe s p_topic p_qos p_dupMessageId = .ok (0, (connected s).2) := by
  unfold subscribe
  simp only
  by_cases hc : (connected s).1 = false
  · rw [if_pos hc]
  · rw [if_neg hc]
    have hbig : 5 + (2 + 2 + strlen p_topic + 1) > s.m_bufferSize := by
      rcases h with h | h
      · exact absurd h hc
      · exact h
    have e0 : (BUFFER_OFFSET + 2 + 2 + strlen p_topic + 1) % 2 ^ 32
        = BUFFER_OFFSET + 2 + 2 + strlen p_topic + 1 := by
      apply Nat.mod_eq_of_lt
      simp only [BUFFER_OFFSET]
      omega
    rw [e0, if_pos (by rw [(connected_frame s).2.2.2.1]; simp only [BUFFER_OFFSET]; omega)]

theorem unsubscribe_rejects (s : MqttLite) (p_topic : List Nat)
    (p_dupMessageId : Nat) (hlen : strlen p_topic + 10 < 2 ^ 32)
    (h : (connected s).1 = false ∨ 5 + (2 + 2 + strlen p_topic) > s.m_bufferSize) :
    unsubscribe s p_topic p_dupMessageId = .ok (0, (connected s).2) := by
  unfold unsubscribe
  simp only
  by_cases hc : (connected s).1 = false
  · rw [if_pos hc]
  · rw [if_neg hc]
    have hbig : 5 + (2 + 2 + strlen p_topic) > s.m_bufferSize := by
      rcases h with h | h
      · exact absurd h hc
      · exact h
    have e0 : (BUFFER_OFFSET + 2 + 2 + strlen p_topic) % 2 ^ 32
        = BUFFER_OFFSET + 2 + 2 + strlen p_topic := by
      apply Nat.mod_eq_of_lt
      simp only [BUFFER_OFFSET]
      omega
    rw [e0, if_pos (by rw [(connected_frame s).2.2.2.1]; simp only [BUFFER_OFFSET]; omega)]

/-- C17: for every topic (of fewer than 2^32 - 10 bytes, `strlen` being 32 bits wide), if
the client is not connected or 5 + payload size (2 + 2 + len(topic) + 1 for `subscribe`,
2 + 2 + len(topic) for `unsubscribe`) exceeds the buffer capacity, the call returns 0 and
leaves the transport's write log, the buffer contents and the message-id counter unchanged;
and if the pre-checks pass, the call runs to its end with every buffer access at an index
below the capacity (an access outside the buffer is a `Fault` in `store` and `load`). -/
theorem C17_subscribe_unsubscribe_prechecks (s : MqttLite) (p_topic : List Nat) (p_qos : qos_t)
    (p_dupMessageId : Nat) (hlen : strlen p_topic + 10 < 2 ^ 32) :
    (((connected s).1 = false ∨ 5 + (2 + 2 + strlen p_topic + 1) > s.m_bufferSize) →
      ∃ s', subscribe s p_topic p_qos p_dupMessageId = .ok (0, s')
        ∧ s'.m_client.written = s.m_client.written ∧ s'.m_buffer = s.m_buffer
        ∧ s'.m_messageId = s.m_messageId)
    ∧ (((connected s).1 = true ∧ 5 + (2 + 2 + strlen p_topic + 1) ≤ s.m_bufferSize) →
      ∃ r s', subscribe s p_topic p_qos p_dupMessageId = .ok (r, s')
        ∧ s'.m_bufferSize = s.m_bufferSize)
    ∧ (((connected s).1 = false ∨ 5 + (2 + 2 + strlen p_topic) > s.m_bufferSize) →
      ∃ s', unsubscribe s p_topic p_dupMessageId = .ok (0, s')
        ∧ s'.m_client.written = s.m_client.written ∧ s'.m_buffer = s.m_buffer
        ∧ s'.m_messageId = s.m_messageId)
    ∧ (((connected s).1 = true ∧ 5 + (2 + 2 + strlen p_topic) ≤ s.m_bufferSize) →
      ∃ r s', unsubscribe s p_topic p_dupMessageId = .ok (r, s')
        ∧ s'.m_bufferSize = s.m_bufferSize) := by
  obtain ⟨f1, f2, f3, _⟩ := connected_frame s
  refine ⟨?_, ?_, ?_, ?_⟩
  · intro h
    exact ⟨_, subscribe_rejects s p_topic p_qos p_dupMessageId hlen h, f1, f2, f3⟩
  · intro h
    obtain ⟨hup, hstate⟩ := connected_true s h.1
    exact subscribe_total s p_topic p_qos p_dupMessageId hup hstate h.2 hlen
  · intro h
    exact ⟨_, unsubscribe_rejects s p_topic p_dupMessageId hlen h, f1, f2, f3⟩
  · intro h
    obtain ⟨hup, hstate⟩ := connected_true s h.1
    exact unsubscribe_total s p_topic p_dupMessageId hup hstate h.2 hlen

theorem C17_subscribe_unsubscribe_prechecks_witness :
    (∃ s', subscribe (sample 10 []) [97] .QOS1 0 = .ok (0, s')
      ∧ s'.m_client.written = [] ∧ s'.m_messageId = 0)
    ∧ (∃ r s', subscribe (sample 11 []) [97] .QOS1 0 = .ok (r, s') ∧ s'.m_bufferSize = 11)
    ∧ (∃ s', unsubscribe (sampleFresh 32 []) [97] 0 = .ok (0, s')
      ∧ s'.m_client.written = [] ∧ s'.m_messageId = 0)
    ∧ (∃ r s', unsubscribe (sample 10 []) [97] 0 = .ok (r, s') ∧ s'.m_bufferSize = 10) := by
  obtain ⟨a, _, _, _⟩ := C17_subscribe_unsubscribe_prechecks (sample 10 []) [97] .QOS1 0
    (by decide)
  obtain ⟨_, b, _, _⟩ := C17_subscribe_unsubscribe_prechecks (sample 11 []) [97] .QOS1 0
    (by decide)
  obtain ⟨_, _, c, _⟩ := C17_subscribe_unsubscribe_prechecks (sampleFresh 32 []) [97] .QOS1 0
    (by decide)
  obtain ⟨_, _, _, d⟩ := C17_subscribe_unsubscribe_prechecks (sample 10 []) [97] .QOS1 0
    (by decide)
  obtain ⟨s1, h1, h2, _, h4⟩ := a (Or.inr (by decide))
  obtain ⟨s3, g1, g2, _, g4⟩ := c (Or.inl rfl)
  exact ⟨⟨s1, h1, h2, h4⟩, b ⟨rfl, by decide⟩, ⟨s3, g1, g2, g4⟩, d ⟨rfl, by decide⟩⟩


/-! ## C16: SUBSCRIBE and UNSUBSCRIBE on the wire -/

theorem subscribe_header (p_dupMessageId : Nat) :
    (packet_type_t.PACKET_TYPE_SUBSCRIBE.val <<< 4)
        ||| headerFlags false .QOS1 (decide (p_dupMessageId > 0))
      = if p_dupMessageId = 0 then 0x82 else 0x8A := by
  by_cases h : p_dupMessageId = 0
  · subst h
    rfl
  · have h2 : decide (p_dupMessageId > 0) = true := by
      simp only [decide_eq_true_eq]
      omega
    rw [h2, if_neg h]
    rfl

theorem unsubscribe_header (p_dupMessageId : Nat) :
    (packet_type_t.PACKET_TYPE_UNSUBSCRIBE.val <<< 4)
        ||| headerFlags false .QOS1 (decide (p_dupMessageId > 0))
      = if p_dupMessageId = 0 then 0xA2 else 0xAA := by
  by_cases h : p_dupMessageId = 0
  · subst h
    rfl
  · have h2 : decide (p_dupMessageId > 0) = true := by
      simp only [decide_eq_true_eq]
      omega
    rw [h2, if_neg h]
    rfl

theorem strlen_of_length (cs : List Nat) (hc : isCString cs) (n : Nat) (h : cs.length = n) :
    strlen cs = n := by
  rw [strlen_eq cs hc, h]

/-- A topic of 65536 characters passes the size check of `subscribe`, but `writeString`
returns 2 and stores a zero length prefix, so the packet handed to the transport is a
SUBSCRIBE with remaining length 5 and an empty topic. -/
theorem subscribe_topic_of_65536 (s : MqttLite) (cs : List Nat) (p_qos : qos_t)
    (hc : isCString cs) (hlen : cs.length = 65536) (hcap : 65546 ≤ s.m_bufferSize)
    (hup : s.m_client.up = true) (hstate : s.m_state = STATE_CONNECTED)
    (hrep : s.m_client.reports = []) :
    ∃ s', subscribe s cs p_qos 0 = .ok ((s.m_messageId + 1) % 65536, s')
      ∧ s'.m_client.written = s.m_client.written ++
          [[0x82, 5, ((s.m_messageId + 1) % 65536) / 256, ((s.m_messageId + 1) % 65536) % 256,
            0, 0, p_qos.val]] := by
  have hs := strlen_of_length cs hc 65536 hlen
  obtain ⟨memory, hws, hfr, hm7, hm8⟩ := writeString_total
    { s with
      m_messageId := (s.m_messageId + 1) % 65536
      m_buffer := overlay (overlay s.m_buffer 5 [requestId s.m_messageId 0 >>> 8])
        6 [requestId s.m_messageId 0 &&& 255] }
    2 cs (by simp only; rw [hs]; omega)
  rw [hs] at hws hm7 hm8
  have hk : (2 + 65536) % 65536 = 2 := by norm_num
  rw [hk] at hws hm7 hm8
  have hid : requestId s.m_messageId 0 = (s.m_messageId + 1) % 65536 := rfl
  have hidlt : (s.m_messageId + 1) % 65536 < 65536 := Nat.mod_lt _ (by norm_num)
  obtain ⟨s2, hw, _, hwr, _, _⟩ := writePacket_sent
    { s with
      m_messageId := (s.m_messageId + 1) % 65536
      m_buffer := overlay memory 9 [p_qos.val] }
    .PACKET_TYPE_SUBSCRIBE 5 false .QOS1 (decide ((0 : Nat) > 0)) [5] rfl
    (by simp only; omega)
  have hrepd : nextReport s.m_client (wireLength 5) = wireLength 5 := by
    unfold nextReport
    rw [hrep]
  have hq : p_qos.val % 256 = p_qos.val := by cases p_qos <;> rfl
  have hb : bytesAt (overlay memory 9 [p_qos.val]) 5 5
      = [((s.m_messageId + 1) % 65536) / 256, ((s.m_messageId + 1) % 65536) % 256, 0, 0,
          p_qos.val] := by
    have e : bytesAt (overlay memory 9 [p_qos.val]) 5 5
        = [overlay memory 9 [p_qos.val] 5 % 256, overlay memory 9 [p_qos.val] 6 % 256,
            overlay memory 9 [p_qos.val] 7 % 256, overlay memory 9 [p_qos.val] 8 % 256,
            overlay memory 9 [p_qos.val] 9 % 256] := rfl
    rw [e, overlay_outside _ _ _ _ (by omega), overlay_outside _ _ _ _ (by omega),
      overlay_outside _ _ _ _ (by omega), overlay_outside _ _ _ _ (by omega), overlay_single,
      hfr 5 (by omega), hfr 6 (by omega)]
    have e7 : memory 7 = 0 := by
      rw [hm7, toUInt8_high 2 (by norm_num)]
    have e8 : memory 8 = 0 := by
      rw [hm8, toUInt8_low 2 (by norm_num)]
    rw [e7, e8]
    simp only
    rw [overlay_single, overlay_outside _ _ _ _ (by omega), overlay_single, hid, shr8,
      and_0xff, hq]
    have a1 : (s.m_messageId + 1) % 65536 / 256 % 256 % 256
        = (s.m_messageId + 1) % 65536 / 256 := by omega
    have a2 : (s.m_messageId + 1) % 65536 % 256 % 256 % 256
        = (s.m_messageId + 1) % 65536 % 256 := by omega
    rw [a1, a2]
    have hq2 : p_qos.val < 256 := by cases p_qos <;> decide
    simp [Nat.mod_eq_of_lt hq2]
  simp only [hb, hrepd, decide_True] at hwr hw
  refine ⟨s2, ?_, hwr⟩
  unfold subscribe
  simp only [connected_eq s hup hstate]
  rw [if_neg (by simp), hs]
  rw [if_neg (by simp only [BUFFER_OFFSET]; omega)]
  simp only [nextMessageId_eq, BUFFER_OFFSET, Nat.add_zero]
  rw [store_eq _ _ _ (by simp only; omega)]
  simp only [bind_ok, bind, Except.bind]
  rw [store_eq _ _ _ (by simp only; omega)]
  simp only [if_true, Nat.reduceAdd]
  rw [hws]
  simp only
  have e1 : (2 + 2) % 2 ^ 32 = 4 := by norm_num
  rw [e1, store_eq _ _ _ (by simp only; omega)]
  simp only
  rw [hw]
  rfl


/-- C16 (as amended): for a topic of at most 65533 non-NUL bytes, a successful
`subscribe(topic, qos, dupMessageId)` (client connected, payload fitting the buffer, write
accepted in full) hands the transport the byte 0x82, or 0x8A when a non-zero duplicate id
is given, the remaining length, the 2-byte big-endian message id, the topic as a
length-prefixed string (2-byte big-endian length, then the raw bytes, no terminator) and
one requested-QoS byte equal to `qos`; a successful `unsubscribe(topic, dupMessageId)`
hands it 0xA2, or 0xAA for a non-zero duplicate id, the remaining length, the 2-byte
message id and the length-prefixed topic. -/
theorem C16_subscribe_unsubscribe_wire_format (s : MqttLite) (p_topic : List Nat)
    (p_qos : qos_t) (p_dupMessageId : Nat)
    (ht : validString p_topic) (hdup : p_dupMessageId < 65536)
    (hup : s.m_client.up = true) (hstate : s.m_state = STATE_CONNECTED) :
    ((5 + (5 + p_topic.length) ≤ s.m_bufferSize
        ∧ nextReport s.m_client (wireLength (5 + p_topic.length))
            = wireLength (5 + p_topic.length)) →
      ∃ s' bl, subscribe s p_topic p_qos p_dupMessageId
          = .ok (requestId s.m_messageId p_dupMessageId, s')
        ∧ lengthLoop BUFFER_LENGTH_SIZE (5 + p_topic.length) [] = .ok bl
        ∧ s'.m_client.written = s.m_client.written ++
            [(if p_dupMessageId = 0 then 0x82 else 0x8A) ::
              (bl ++ ([requestId s.m_messageId p_dupMessageId / 256,
                        requestId s.m_messageId p_dupMessageId % 256]
                ++ (p_topic.length / 256 :: p_topic.length % 256 :: p_topic)
                ++ [p_qos.val]))])
    ∧ ((5 + (4 + p_topic.length) ≤ s.m_bufferSize
        ∧ nextReport s.m_client (wireLength (4 + p_topic.length))
            = wireLength (4 + p_topic.length)) →
      ∃ s' bl, unsubscribe s p_topic p_dupMessageId
          = .ok (requestId s.m_messageId p_dupMessageId, s')
        ∧ lengthLoop BUFFER_LENGTH_SIZE (4 + p_topic.length) [] = .ok bl
        ∧ s'.m_client.written = s.m_client.written ++
            [(if p_dupMessageId = 0 then 0xA2 else 0xAA) ::
              (bl ++ ([requestId s.m_messageId p_dupMessageId / 256,
                        requestId s.m_messageId p_dupMessageId % 256]
                ++ (p_topic.length / 256 :: p_topic.length % 256 :: p_topic)))]) := by
  constructor
  · intro h
    obtain ⟨s2, bl, h1, h2, h3, _⟩ := subscribe_sent s p_topic p_qos p_dupMessageId ht hdup
      h.1 hup hstate
    rw [if_pos h.2] at h1
    rw [subscribe_header] at h3
    refine ⟨s2, bl, h1, h2, ?_⟩
    rw [h3]
    simp only [subscribeBytes, mqttString, shr8, and_0xff]
  · intro h
    obtain ⟨s2, bl, h1, h2, h3, _⟩ := unsubscribe_sent s p_topic p_dupMessageId ht hdup
      h.1 hup hstate
    rw [if_pos h.2] at h1
    rw [unsubscribe_header] at h3
    refine ⟨s2, bl, h1, h2, ?_⟩
    rw [h3]
    simp only [unsubscribeBytes, mqttString, shr8, and_0xff]

theorem C16_subscribe_unsubscribe_wire_format_witness :
    (∃ s', subscribe (sample 32 []) [97, 47, 98] .QOS2 0 = .ok (1, s')
      ∧ s'.m_client.written = [[0x82, 8, 0, 1, 0, 3, 97, 47, 98, 2]])
    ∧ (∃ s', unsubscribe (sample 32 []) [97, 47, 98] 0 = .ok (1, s')
      ∧ s'.m_client.written = [[0xA2, 7, 0, 1, 0, 3, 97, 47, 98]]) := by
  obtain ⟨h1, h2⟩ := C16_subscribe_unsubscribe_wire_format (sample 32 []) [97, 47, 98] .QOS2 0
    (by decide) (by decide) rfl rfl
  obtain ⟨s1, bl1, a1, a2, a3⟩ := h1 ⟨by decide, rfl⟩
  obtain ⟨s2, bl2, b1, b2, b3⟩ := h2 ⟨by decide, rfl⟩
  have e1 : bl1 = [8] := by
    have e : (Except.ok [8] : Except Fault (List Nat)) = .ok bl1 := a2
    injection e with e
    exact e.symm
  have e2 : bl2 = [7] := by
    have e : (Except.ok [7] : Except Fault (List Nat)) = .ok bl2 := b2
    injection e with e
    exact e.symm
  subst e1 e2
  exact ⟨⟨s1, a1, a3⟩, ⟨s2, b1, b3⟩⟩

/-- C16 counterexample: with the duplicate id 7 a successful `subscribe` writes the first
byte 0x8A and a successful `unsubscribe` 0xAA (the DUP bit is set), not 0x82 and 0xA2; and
for a topic of 65536 characters, which fits a buffer of 65546 bytes, a successful
`subscribe` writes 82 05 00 01 00 00 00, a packet with an empty topic. -/
theorem C16_counterexample_dup_flag_and_long_topic :
    (subscribe (sample 32 []) [97] .QOS1 7).map (fun r => (r.1, r.2.m_client.written))
        = .ok (7, [[0x8A, 6, 0, 7, 0, 1, 97, 1]])
    ∧ (unsubscribe (sample 32 []) [97] 7).map (fun r => (r.1, r.2.m_client.written))
        = .ok (7, [[0xAA, 5, 0, 7, 0, 1, 97]])
    ∧ ∃ s', subscribe (sample 65546 []) (List.replicate 65536 97) .QOS0 0 = .ok (1, s')
        ∧ s'.m_client.written = [[0x82, 5, 0, 1, 0, 0, 0]] := by
  refine ⟨rfl, rfl, ?_⟩
  obtain ⟨s', h1, h2⟩ := subscribe_topic_of_65536 (sample 65546 []) (List.replicate 65536 97)
    .QOS0
    (by
      intro c hc
      rw [List.eq_of_mem_replicate hc]
      decide)
    (List.length_replicate _ _) (by decide) rfl rfl rfl
  exact ⟨s', h1, h2⟩


/-! ## C15: the CONNECT packet -/

theorem receiveFrame_written {s s' : MqttLite} (h : receiveFrame s s') :
    s'.m_client.written = s.m_client.written := by
  have e : receiveErase s' = receiveErase s := h
  have e2 := congrArg (fun x => x.m_client.written) e
  exact e2

theorem receiveFrame_state {s s' : MqttLite} (h : receiveFrame s s') :
    s'.m_state = s.m_state := by
  have e : receiveErase s' = receiveErase s := h
  have e2 := congrArg MqttLite.m_state e
  exact e2

/-- On a buffer of at least 6 bytes `readPacket` returns, having touched only the inbound
queue, the buffer contents, `m_lastIn` and the clock. -/
theorem readPacket_frame (s : MqttLite) (p_length : Nat) (hcap : 6 ≤ s.m_bufferSize) :
    ∃ ok len s', readPacket s p_length = .ok (ok, len, s') ∧ receiveFrame s s' := by
  obtain ⟨d1, d2⟩ := readPacket_decode s p_length hcap
  cases hd : decodePacket s.m_bufferSize s.m_client.inbound with
  | none =>
    obtain ⟨len, s', e1, e2⟩ := d2 hd
    exact ⟨false, len, s', e1, e2⟩
  | some pk => exact ⟨true, _, _, d1 pk hd, rfl⟩

/-- The reply handling of `connect` hands nothing to the transport's `write`. -/
theorem connectReply_written (s : MqttLite) (length : Nat) (hcap : 7 ≤ s.m_bufferSize) :
    ∃ ok s', connectReply s length = .ok (ok, s')
      ∧ s'.m_client.written = s.m_client.written := by
  unfold connectReply
  simp only [Client.available]
  by_cases hin : s.m_client.inbound = []
  · rw [if_pos (by simp [hin])]
    refine ⟨_, _, rfl, ?_⟩
    simp only [Client.stop]
    exact receiveFrame_written (receiveFrame_waitExpired { s with m_lastIn := s.millis })
  · rw [if_neg (by
      intro h
      exact hin (List.length_eq_zero.mp h))]
    obtain ⟨ok, len, s1, hr, hf⟩ := readPacket_frame { s with m_lastIn := s.millis } length
      (by simp only; omega)
    have hsz : s1.m_bufferSize = s.m_bufferSize := receiveFrame_bufferSize hf
    have hwr : s1.m_client.written = s.m_client.written := receiveFrame_written hf
    rw [hr]
    simp only [bind_ok, bind, Except.bind]
    cases ok with
    | false => exact ⟨_, _, rfl, hwr⟩
    | true =>
      rw [if_neg (by simp), load_eq s1 0 (by omega)]
      simp only [BUFFER_OFFSET]
      by_cases ht : ((s1.m_buffer 0 % 256) >>> 4) &&& 0x0f
          ≠ packet_type_t.PACKET_TYPE_CONNECT_ACK.val
      · rw [if_pos ht]
        exact ⟨_, _, rfl, hwr⟩
      · rw [if_neg ht, load_eq _ (5 + 1) (by omega)]
        simp only
        by_cases hc : s1.m_buffer (5 + 1) % 256 ≠ 0
        · rw [if_pos hc]
          exact ⟨_, _, rfl, hwr⟩
        · rw [if_neg hc]
          exact ⟨_, _, rfl, hwr⟩

/-- The connect-flags byte computed by `connect` is the layout of the wire format, with
the password flag set exactly when a user and a password are given, and the will-retain
and will-QoS bits zero unless both will strings are given. -/
theorem connectFlags_layout (p_user p_password p_willTopic p_willMessage : Option (List Nat))
    (p_willRetain : Bool) (p_willQos : qos_t) (p_cleanSession : Bool) :
    connectFlags p_user p_password p_willTopic p_willMessage p_willRetain p_willQos
        p_cleanSession
      = connectFlagsLayout p_user.isSome (p_user.isSome && p_password.isSome)
          (p_willTopic.isSome && p_willMessage.isSome && p_willRetain)
          (if p_willTopic.isSome && p_willMessage.isSome then p_willQos.val else 0)
          (p_willTopic.isSome && p_willMessage.isSome) p_cleanSession := by
  cases p_user <;> cases p_password <;> cases p_willTopic <;> cases p_willMessage <;>
    cases p_willRetain <;> cases p_willQos <;> cases p_cleanSession <;>
    (simp [connectFlags, connectFlagsLayout, qos_t.val] <;> decide)

theorem connectFlags_lt (p_user p_password p_willTopic p_willMessage : Option (List Nat))
    (p_willRetain : Bool) (p_willQos : qos_t) (p_cleanSession : Bool) :
    connectFlags p_user p_password p_willTopic p_willMessage p_willRetain p_willQos
        p_cleanSession < 256
    ∧ connectFlags p_user p_password p_willTopic p_willMessage p_willRetain p_willQos
        p_cleanSession % 2 = 0 := by
  cases p_user <;> cases p_password <;> cases p_willTopic <;> cases p_willMessage <;>
    cases p_willRetain <;> cases p_willQos <;> cases p_cleanSession <;>
    (simp [connectFlags, qos_t.val] <;> decide)


theorem isBytes_willBytes (wt wm : Option (List Nat)) (h1 : validOption wt)
    (h2 : validOption wm) : isBytes (willBytes wt wm) := by
  cases wt with
  | none => intro b hb; cases wm <;> simp [willBytes] at hb
  | some t =>
    cases wm with
    | none => intro b hb; simp [willBytes] at hb
    | some m =>
      exact isBytes_append _ _ (isBytes_mqttString t h1) (isBytes_mqttString m h2)

theorem isBytes_credentialBytes (u p : Option (List Nat)) (h1 : validOption u)
    (h2 : validOption p) : isBytes (credentialBytes u p) := by
  cases u with
  | none => intro b hb; cases p <;> simp [credentialBytes] at hb
  | some us =>
    cases p with
    | none => exact isBytes_mqttString us h1
    | some pw =>
      exact isBytes_append _ _ (isBytes_mqttString us h1) (isBytes_mqttString pw h2)

/-- The keepalive field of the payload: the constructor stores `p_keepAlive * 1000`, and
`connect` writes the seconds back as two bytes, big-endian. -/
theorem keepAlive_bytes (keepAlive p_keepAlive : Nat) (hk : p_keepAlive < 65536)
    (hka : keepAlive = (p_keepAlive * 1000) % 2 ^ 32) :
    (keepAlive / 1000) >>> 8 = p_keepAlive / 256
    ∧ (keepAlive / 1000) &&& 0x0ff = p_keepAlive % 256 := by
  have e : keepAlive / 1000 = p_keepAlive := by
    rw [hka, Nat.mod_eq_of_lt (by omega)]
    omega
  rw [e, shr8, and_0xff]
  exact ⟨rfl, rfl⟩

theorem construct_keepAlive (p_client : Client) (p_publishCallback p_rawCallback : Bool)
    (p_bufferSize p_timeout p_keepAlive : Nat) (raw : MqttLite) :
    (construct p_client p_publishCallback p_rawCallback p_bufferSize p_timeout p_keepAlive
      raw).m_keepAlive = (p_keepAlive * 1000) % 2 ^ 32 := rfl

/-- The CONNECT payload of valid strings, byte for byte. -/
theorem connectBytes_layout (keepAlive p_keepAlive : Nat) (p_id : List Nat)
    (p_user p_password p_willTopic p_willMessage : Option (List Nat))
    (p_willRetain : Bool) (p_willQos : qos_t) (p_cleanSession : Bool)
    (hid : validString p_id) (hu : validOption p_user) (hp : validOption p_password)
    (hwt : validOption p_willTopic) (hwm : validOption p_willMessage)
    (hk : p_keepAlive < 65536) (hka : keepAlive = (p_keepAlive * 1000) % 2 ^ 32) :
    (connectBytes keepAlive p_id p_user p_password p_willTopic p_willMessage p_willRetain
        p_willQos p_cleanSession).map (fun b => b % 256)
      = [0x00, 0x04, 77, 81, 84, 84, 0x04,
          connectFlagsLayout p_user.isSome (p_user.isSome && p_password.isSome)
            (p_willTopic.isSome && p_willMessage.isSome && p_willRetain)
            (if p_willTopic.isSome && p_willMessage.isSome then p_willQos.val else 0)
            (p_willTopic.isSome && p_willMessage.isSome) p_cleanSession,
          p_keepAlive / 256, p_keepAlive % 256]
        ++ mqttString p_id ++ willBytes p_willTopic p_willMessage
        ++ credentialBytes p_user p_password := by
  obtain ⟨k1, k2⟩ := keepAlive_bytes keepAlive p_keepAlive hk hka
  obtain ⟨f1, _⟩ := connectFlags_lt p_user p_password p_willTopic p_willMessage p_willRetain
    p_willQos p_cleanSession
  unfold connectBytes
  rw [k1, k2, List.map_append, List.map_append, List.map_append,
    map_mod_of_isBytes _ (isBytes_mqttString p_id hid),
    map_mod_of_isBytes _ (isBytes_willBytes _ _ hwt hwm),
    map_mod_of_isBytes _ (isBytes_credentialBytes _ _ hu hp),
    ← connectFlags_layout]
  have e1 : p_keepAlive / 256 % 256 = p_keepAlive / 256 := by omega
  simp only [List.map_cons, List.map_nil, Nat.mod_eq_of_lt f1, Nat.mod_mod, e1]
  rfl


/-- C15 (as amended): for every client id and optional user, password, will topic and will
message of at most 65533 non-NUL bytes each, and every will-retain, will-QoS and
clean-session, whose payload fits the buffer, `connect` over a connected transport hands
the transport exactly one packet: 0x10, the remaining length, then the payload
00 04 'M' 'Q' 'T' 'T', 04, the connect-flags byte, the keepalive in seconds as 2 bytes
big-endian (the `p_keepAlive` given at construction), the client id string, then will topic
and will message only if both are present, then user if present, then password only if
user is present. The connect-flags byte is
user << 7 | password << 6 | will-retain << 5 | will-qos << 3 | will << 2 | clean << 1
with bit 0 clear, the password flag set exactly when a password string is emitted and the
will-retain and will-qos bits zero whenever the will flag is zero. -/
theorem C15_connect_packet_layout (s : MqttLite) (p_id : List Nat)
    (p_user p_password p_willTopic p_willMessage : Option (List Nat))
    (p_willRetain : Bool) (p_willQos : qos_t) (p_cleanSession : Bool) (p_keepAlive : Nat)
    (hid : validString p_id) (hu : validOption p_user) (hp : validOption p_password)
    (hwt : validOption p_willTopic) (hwm : validOption p_willMessage)
    (hk : p_keepAlive < 65536) (hka : s.m_keepAlive = (p_keepAlive * 1000) % 2 ^ 32)
    (hcap : 5 + (10 + (2 + p_id.length) + (willBytes p_willTopic p_willMessage).length
      + (credentialBytes p_user p_password).length) ≤ s.m_bufferSize)
    (hup : s.m_client.up = true) :
    ∃ ok s' bl,
      connect s p_id p_user p_password p_willTopic p_willMessage p_willRetain p_willQos
          p_cleanSession = .ok (ok, s')
      ∧ lengthLoop BUFFER_LENGTH_SIZE (10 + (2 + p_id.length)
          + (willBytes p_willTopic p_willMessage).length
          + (credentialBytes p_user p_password).length) [] = .ok bl
      ∧ s'.m_client.written = s.m_client.written ++
          [0x10 :: (bl ++
            ([0x00, 0x04, 77, 81, 84, 84, 0x04,
              connectFlagsLayout p_user.isSome (p_user.isSome && p_password.isSome)
                (p_willTopic.isSome && p_willMessage.isSome && p_willRetain)
                (if p_willTopic.isSome && p_willMessage.isSome then p_willQos.val else 0)
                (p_willTopic.isSome && p_willMessage.isSome) p_cleanSession,
              p_keepAlive / 256, p_keepAlive % 256]
            ++ mqttString p_id ++ willBytes p_willTopic p_willMessage
            ++ credentialBytes p_user p_password))]
      ∧ connectFlagsLayout p_user.isSome (p_user.isSome && p_password.isSome)
          (p_willTopic.isSome && p_willMessage.isSome && p_willRetain)
          (if p_willTopic.isSome && p_willMessage.isSome then p_willQos.val else 0)
          (p_willTopic.isSome && p_willMessage.isSome) p_cleanSession % 2 = 0 := by
  have hlen := connectBytes_length s.m_keepAlive p_id p_user p_password p_willTopic
    p_willMessage p_willRetain p_willQos p_cleanSession
  have hL : 10 + (2 + p_id.length) + (willBytes p_willTopic p_willMessage).length
      + (credentialBytes p_user p_password).length
      = (connectBytes s.m_keepAlive p_id p_user p_password p_willTopic
        p_willMessage p_willRetain p_willQos p_cleanSession).length := by
    rw [hlen]
    omega
  obtain ⟨s2, bl, hrun, hsz, _, _, _, hbl, hwr⟩ := connect_sent s p_id p_user p_password
    p_willTopic p_willMessage p_willRetain p_willQos p_cleanSession hid hu hp hwt hwm
    (by rw [← hL]; exact hcap) hup
  rw [connectBytes_layout s.m_keepAlive p_keepAlive p_id p_user p_password p_willTopic
    p_willMessage p_willRetain p_willQos p_cleanSession hid hu hp hwt hwm hk hka] at hwr
  have hflag := (connectFlags_lt p_user p_password p_willTopic p_willMessage p_willRetain
    p_willQos p_cleanSession).2
  rw [connectFlags_layout] at hflag
  rw [hL]
  by_cases hr : nextReport s.m_client (wireLength (connectBytes s.m_keepAlive p_id p_user
      p_password p_willTopic p_willMessage p_willRetain p_willQos p_cleanSession).length)
      = wireLength (connectBytes s.m_keepAlive p_id p_user p_password p_willTopic
        p_willMessage p_willRetain p_willQos p_cleanSession).length
  · rw [if_pos hr] at hrun
    obtain ⟨ok, s', hreply, hsame⟩ := connectReply_written s2
      (connectBytes s.m_keepAlive p_id p_user p_password p_willTopic p_willMessage
        p_willRetain p_willQos p_cleanSession).length (by rw [hsz]; omega)
    rw [hreply] at hrun
    exact ⟨ok, s', bl, hrun, hbl, by rw [hsame, hwr], hflag⟩
  · rw [if_neg hr] at hrun
    exact ⟨false, _, bl, hrun, hbl, hwr, hflag⟩

theorem C15_connect_packet_layout_witness :
    ∃ ok s',
      connect (construct (sampleClient []) true true 64 15 15 (sample 0 [])) [97]
          (some [117]) (some [112]) none none false .QOS0 true = .ok (ok, s')
      ∧ s'.m_client.written =
          [[0x10, 19, 0x00, 0x04, 77, 81, 84, 84, 0x04, 0xC2, 0, 15,
            0, 1, 97, 0, 1, 117, 0, 1, 112]] := by
  obtain ⟨ok, s', bl, h1, h2, h3, _⟩ := C15_connect_packet_layout
    (construct (sampleClient []) true true 64 15 15 (sample 0 [])) [97]
    (some [117]) (some [112]) none none false .QOS0 true 15
    (by decide) (by decide) (by decide) trivial trivial (by decide) rfl (by decide) rfl
  have e1 : bl = [19] := by
    have e : (Except.ok [19] : Except Fault (List Nat)) = .ok bl := h2
    injection e with e
    exact e.symm
  subst e1
  exact ⟨ok, s', h1, h3⟩


/-- A client id of 65536 characters fits a buffer of 65553 bytes, but `writeString`
returns 2 and stores a zero length prefix: the payload `connect` assembles is 12 bytes long
and ends in an empty client id. -/
theorem connectPayload_id_of_65536 (s : MqttLite) (cs : List Nat) (p_willRetain : Bool)
    (p_willQos : qos_t) (p_cleanSession : Bool)
    (hc : isCString cs) (hlen : cs.length = 65536) (hcap : 65553 ≤ s.m_bufferSize) :
    ∃ memory, connectPayload s cs none none none none p_willRetain p_willQos p_cleanSession
        = .ok (12, { s with m_buffer := memory })
      ∧ bytesAt memory 5 12 =
          [0x00, 0x04, 77, 81, 84, 84, 0x04,
            connectFlags none none none none p_willRetain p_willQos p_cleanSession % 256,
            ((s.m_keepAlive / 1000) >>> 8) % 256, ((s.m_keepAlive / 1000) &&& 0x0ff) % 256,
            0, 0] := by
  have hs := strlen_of_length cs hc 65536 hlen
  obtain ⟨memory, hws, hfr, hm15, hm16⟩ := writeString_total
    { s with m_buffer := (overlay s.m_buffer 5
        [0x00, 0x04, 'M'.toNat, 'Q'.toNat, 'T'.toNat, 'T'.toNat, MQTT_LEVEL,
          connectFlags none none none none p_willRetain p_willQos p_cleanSession,
          (s.m_keepAlive / 1000) >>> 8, (s.m_keepAlive / 1000) &&& 0x0ff]) }
    10 cs (by simp only; rw [hs]; omega)
  rw [hs] at hws hm15 hm16
  have hk : (2 + 65536) % 65536 = 2 := by norm_num
  rw [hk] at hws hm15 hm16
  refine ⟨memory, ?_, ?_⟩
  · unfold connectPayload
    simp only [BUFFER_OFFSET, Nat.add_zero]
    rw [store_eq _ _ _ (by omega)]
    simp only [bind_ok, bind, Except.bind]
    rw [store_eq _ _ _ (by simp only; omega)]
    simp only
    rw [store_eq _ _ _ (by simp only; omega)]
    simp only
    rw [store_eq _ _ _ (by simp only; omega)]
    simp only
    rw [store_eq _ _ _ (by simp only; omega)]
    simp only
    rw [store_eq _ _ _ (by simp only; omega)]
    simp only
    rw [store_eq _ _ _ (by simp only; omega)]
    simp only
    rw [store_eq _ _ _ (by simp only; omega)]
    simp only
    rw [store_eq _ _ _ (by simp only; omega)]
    simp only
    rw [store_eq _ _ _ (by simp only; omega)]
    simp only
    rw [overlay_join _ 5 _ _ _ (by rfl), overlay_join _ 5 _ _ _ (by rfl),
      overlay_join _ 5 _ _ _ (by rfl), overlay_join _ 5 _ _ _ (by rfl),
      overlay_join _ 5 _ _ _ (by rfl), overlay_join _ 5 _ _ _ (by rfl),
      overlay_join _ 5 _ _ _ (by rfl), overlay_join _ 5 _ _ _ (by rfl),
      overlay_join _ 5 _ _ _ (by rfl)]
    have hws2 := hws
    simp only [List.cons_append, List.nil_append] at hws2 ⊢
    rw [hws2]
    rfl
  · have e : bytesAt memory 5 12
        = [memory 5 % 256, memory 6 % 256, memory 7 % 256, memory 8 % 256, memory 9 % 256,
            memory 10 % 256, memory 11 % 256, memory 12 % 256, memory 13 % 256,
            memory 14 % 256, memory 15 % 256, memory 16 % 256] := rfl
    have e15 : memory 15 = 0 := by
      have h := hm15
      rw [toUInt8_high 2 (by norm_num)] at h
      exact h
    have e16 : memory 16 = 0 := by
      have h := hm16
      rw [toUInt8_low 2 (by norm_num)] at h
      exact h
    rw [e, hfr 5 (by omega), hfr 6 (by omega), hfr 7 (by omega), hfr 8 (by omega),
      hfr 9 (by omega), hfr 10 (by omega), hfr 11 (by omega), hfr 12 (by omega),
      hfr 13 (by omega), hfr 14 (by omega), e15, e16]
    simp [overlay, MQTT_LEVEL]


theorem connect_id_of_65536 (s : MqttLite) (cs : List Nat) (p_willRetain : Bool)
    (p_willQos : qos_t) (p_cleanSession : Bool)
    (hc : isCString cs) (hlen : cs.length = 65536) (hcap : 65553 ≤ s.m_bufferSize)
    (hup : s.m_client.up = true) :
    ∃ ok s', connect s cs none none none none p_willRetain p_willQos p_cleanSession
        = .ok (ok, s')
      ∧ s'.m_client.written = s.m_client.written ++
          [[0x10, 12, 0x00, 0x04, 77, 81, 84, 84, 0x04,
            connectFlags none none none none p_willRetain p_willQos p_cleanSession % 256,
            ((s.m_keepAlive / 1000) >>> 8) % 256, ((s.m_keepAlive / 1000) &&& 0x0ff) % 256,
            0, 0]] := by
  obtain ⟨memory, hpay, hbytes⟩ := connectPayload_id_of_65536 s cs p_willRetain p_willQos
    p_cleanSession hc hlen hcap
  obtain ⟨s2, hw, hf, hwr, _, _⟩ := writePacket_sent { s with m_buffer := memory }
    .PACKET_TYPE_CONNECT 12 false .QOS0 false [12] rfl (by simp only; omega)
  simp only [hbytes] at hwr
  have hsz := sendFrame_bufferSize hf
  have hrun : connect s cs none none none none p_willRetain p_willQos p_cleanSession =
      (if nextReport s.m_client (wireLength 12) = wireLength 12 then connectReply s2 12
       else .ok (false, { s2 with m_client := s2.m_client.stop,
                                  m_state := STATE_CONNECT_FAILED })) := by
    unfold connect
    rw [if_neg (by simp [Client.connected, hup]), hpay]
    simp only [bind_ok, bind, Except.bind]
    rw [hw]
    simp only
    by_cases hr : nextReport s.m_client (wireLength 12) = wireLength 12
    · simp [hr]
    · simp [hr]
  by_cases hr : nextReport s.m_client (wireLength 12) = wireLength 12
  · rw [if_pos hr] at hrun
    obtain ⟨ok, s', hreply, hsame⟩ := connectReply_written s2 12 (by rw [hsz]; simp only; omega)
    rw [hreply] at hrun
    exact ⟨ok, s', hrun, by rw [hsame, hwr]; rfl⟩
  · rw [if_neg hr] at hrun
    exact ⟨false, _, hrun, by simp only [Client.stop]; rw [hwr]; rfl⟩

/-- C15 counterexample: a client id of 65536 characters fits a buffer of 65553 bytes
(5 + 10 + 2 + 65536), but the packet `connect` hands to the transport is
10 0C 00 04 'M' 'Q' 'T' 'T' 04 00 00 0F 00 00: its payload ends in an empty client id
string, not in the client id given. -/
theorem C15_counterexample_client_id_of_65536_bytes :
    5 + (10 + (2 + (List.replicate 65536 97).length)) ≤ (sampleFresh 65553 []).m_bufferSize
    ∧ ∃ ok s', connect (sampleFresh 65553 []) (List.replicate 65536 97) none none none none
          false .QOS0 false = .ok (ok, s')
        ∧ s'.m_client.written = [[0x10, 12, 0, 4, 77, 81, 84, 84, 4, 0, 0, 15, 0, 0]] := by
  constructor
  · rw [List.length_replicate]
    exact Nat.le_refl 65553
  · obtain ⟨ok, s', h1, h2⟩ := connect_id_of_65536 (sampleFresh 65553 [])
      (List.replicate 65536 97) false .QOS0 false
      (by
        intro c hc
        rw [List.eq_of_mem_replicate hc]
        decide)
      (List.length_replicate _ _) (by decide) rfl
    exact ⟨ok, s', h1, h2⟩


/-! ## `publish`, `subscribe` and `unsubscribe` on arbitrary strings -/

/-- A connected client whose PUBLISH payload fits the buffer and the 3-byte length field,
whatever the topic: `publish` stays inside the buffer, returns the message id when the
transport accepts the packet and otherwise 0 with state ConnectionLost, and advances the
counter only for QoS 1 and 2 without a duplicate id. -/
theorem publish_run (s : MqttLite) (p_topic p_payload : List Nat) (p_retain : Bool)
    (p_qos : qos_t) (p_dupMessageId : Nat)
    (hup : s.m_client.up = true) (hstate : s.m_state = STATE_CONNECTED)
    (hcap : 5 + (2 + strlen p_topic + (if p_qos = .QOS0 then 0 else 2) + p_payload.length)
      ≤ s.m_bufferSize)
    (hsize : 2 + strlen p_topic + (if p_qos = .QOS0 then 0 else 2) + p_payload.length
      ≤ 2097151) :
    ∃ s2 L,
      publish s p_topic p_payload p_retain p_qos p_dupMessageId =
        (if nextReport s.m_client (wireLength L) = wireLength L
         then .ok (publishedId s.m_messageId p_qos p_dupMessageId, s2)
         else .ok (0, { s2 with m_state := STATE_CONNECTION_LOST,
                                m_client := s2.m_client.stop }))
      ∧ s2.m_messageId =
          (if p_qos ≠ .QOS0 ∧ p_dupMessageId = 0 then (s.m_messageId + 1) % 65536
           else s.m_messageId)
      ∧ s2.m_state = s.m_state ∧ s2.m_client.up = s.m_client.up
      ∧ s2.m_bufferSize = s.m_bufferSize
      ∧ s2.m_client.reports = s.m_client.reports.tail
      ∧ s2.m_client.written.length = s.m_client.written.length + 1 := by
  have hidl := idBytes_length p_qos (publishedId s.m_messageId p_qos p_dupMessageId)
  obtain ⟨memory, hws, _, _, _⟩ := writeString_total s 0 p_topic (by omega)
  have hk : (2 + strlen p_topic) % 65536 ≤ 2 + strlen p_topic := Nat.mod_le _ _
  generalize (2 + strlen p_topic) % 65536 = k at hws hk
  generalize hLdef : k + (if p_qos = qos_t.QOS0 then 0 else 2) + p_payload.length = L
  obtain ⟨bl, hbl⟩ := lengthLoop_total L (by omega)
  have hpay : (do
      let (n, s) ← writeString s 0 p_topic
      let length := (0 + n) % 2 ^ 32
      let (messageId, length, s) ← publishMessageId s length p_qos p_dupMessageId
      let s ← storeBytes p_payload (BUFFER_OFFSET + length) s
      Except.ok (messageId, (length + p_payload.length) % 2 ^ 32, s)
        : Except Fault (Nat × Nat × MqttLite)) =
      .ok (publishedId s.m_messageId p_qos p_dupMessageId, L,
        { s with
          m_messageId :=
            if p_qos ≠ .QOS0 ∧ p_dupMessageId = 0 then (s.m_messageId + 1) % 65536
            else s.m_messageId
          m_buffer := overlay (overlay memory (5 + k)
              (idBytes p_qos (publishedId s.m_messageId p_qos p_dupMessageId)))
            (5 + (k + (idBytes p_qos (publishedId s.m_messageId p_qos p_dupMessageId)).length))
            p_payload }) := by
    rw [hws]
    simp only [bind_ok, bind, Except.bind, Nat.zero_add, Nat.add_zero]
    have e1 : k % 2 ^ 32 = k := Nat.mod_eq_of_lt (by omega)
    rw [e1, publishMessageId_eq _ _ _ _ (by simp only; omega)]
    simp only [BUFFER_OFFSET]
    rw [storeBytes_eq _ _ _ (by simp only; rw [hidl]; omega)]
    simp only
    have e2 : (k + (idBytes p_qos (publishedId s.m_messageId p_qos p_dupMessageId)).length
        + p_payload.length) % 2 ^ 32 = L := by
      rw [Nat.mod_eq_of_lt (by rw [hidl]; omega), hidl]
      exact hLdef
    rw [e2]
  obtain ⟨s2, hw, hf, hwr, _, _⟩ := writePacket_sent
    { s with
      m_messageId :=
        if p_qos ≠ .QOS0 ∧ p_dupMessageId = 0 then (s.m_messageId + 1) % 65536
        else s.m_messageId
      m_buffer := overlay (overlay memory (5 + k)
          (idBytes p_qos (publishedId s.m_messageId p_qos p_dupMessageId)))
        (5 + (k + (idBytes p_qos (publishedId s.m_messageId p_qos p_dupMessageId)).length))
        p_payload }
    .PACKET_TYPE_PUBLISH L p_retain p_qos
    (decide (p_dupMessageId > 0)) bl hbl (by simp only; omega)
  have hrep := writePacket_reports _ _ _ _ _ _ bl hbl (by simp only; omega) _ _ hw
  refine ⟨s2, L, ?_, ?_, ?_, ?_, ?_, hrep, ?_⟩
  · unfold publish
    simp only [connected_eq s hup hstate]
    rw [if_neg (by simp)]
    have e0 : (BUFFER_OFFSET + 2 + strlen p_topic + p_payload.length) % 2 ^ 32
        = BUFFER_OFFSET + 2 + strlen p_topic + p_payload.length := by
      apply Nat.mod_eq_of_lt
      simp only [BUFFER_OFFSET]
      omega
    rw [e0, if_neg (by simp only [BUFFER_OFFSET]; omega)]
    have hsplit : ∀ (k : Nat × Nat × MqttLite → Except Fault (Nat × MqttLite)),
        (do
          let (n, s) ← writeString s 0 p_topic
          let length := (0 + n) % 2 ^ 32
          let (messageId, length, s) ← publishMessageId s length p_qos p_dupMessageId
          let s ← storeBytes p_payload (BUFFER_OFFSET + length) s
          k (messageId, (length + p_payload.length) % 2 ^ 32, s)) =
        ((do
          let (n, s) ← writeString s 0 p_topic
          let length := (0 + n) % 2 ^ 32
          let (messageId, length, s) ← publishMessageId s length p_qos p_dupMessageId
          let s ← storeBytes p_payload (BUFFER_OFFSET + length) s
          Except.ok (messageId, (length + p_payload.length) % 2 ^ 32, s)
            : Except Fault (Nat × Nat × MqttLite)) >>= k) := by
      intro k
      cases h1 : writeString s 0 p_topic with
      | error e => rfl
      | ok r1 =>
        simp only [bind_ok, bind, Except.bind]
        cases h2 : publishMessageId r1.2 ((0 + r1.1) % 2 ^ 32) p_qos p_dupMessageId with
        | error e => rfl
        | ok r2 =>
          simp only
          cases h3 : storeBytes p_payload (BUFFER_OFFSET + r2.2.1) r2.2.2 with
          | error e => rfl
          | ok r3 => rfl
    have hk := hsplit (fun r => do
      let (ok, s) ← writePacket r.2.2 .PACKET_TYPE_PUBLISH r.2.1 p_retain p_qos
        (decide (p_dupMessageId > 0))
      if ok = false then
        .ok (0, { s with m_state := STATE_CONNECTION_LOST, m_client := s.m_client.stop })
      else .ok (r.1, s))
    simp only at hk
    rw [hk, hpay]
    simp only [bind_ok, bind, Except.bind]
    rw [hw]
    by_cases hr : nextReport s.m_client (wireLength L) = wireLength L
    · simp [hr]
    · simp [hr]
  · rw [sendFrame_messageId hf]
  · rw [sendFrame_state hf]
  · rw [sendFrame_up hf]
  · rw [sendFrame_bufferSize hf]
  · rw [hwr]
    simp


/-! ## C11: message ids -/

theorem connected_of_state (s : MqttLite) (h : s.m_state ≠ STATE_CONNECTED) :
    (connected s).1 = false := by
  unfold connected
  simp [h]

theorem connected_again (s : MqttLite) (h : (connected s).1 = false) :
    (connected (connected s).2).1 = false := by
  by_cases hs : s.m_state = STATE_CONNECTED
  · cases hu : s.m_client.up with
    | true =>
      rw [connected_eq s hu hs] at h
      cases h
    | false =>
      apply connected_of_state
      unfold connected
      simp [hs, hu, Client.connected, STATE_CONNECTED, STATE_CONNECTION_LOST]
  · apply connected_of_state
    unfold connected
    simp [hs]

theorem delivered_same (s s' : MqttLite) (h : s'.m_client.written = s.m_client.written) :
    delivered s s' = false := by
  unfold delivered
  rw [h]
  simp

theorem delivered_lost (s s2 : MqttLite) :
    delivered s { s2 with m_state := STATE_CONNECTION_LOST, m_client := s2.m_client.stop }
      = false := by
  unfold delivered
  simp [STATE_CONNECTION_LOST, STATE_CONNECTED]

theorem delivered_sent (s s2 : MqttLite)
    (hw : s2.m_client.written.length = s.m_client.written.length + 1)
    (hst : s2.m_state = STATE_CONNECTED) : delivered s s2 = true := by
  unfold delivered
  simp [hw, hst]

/-- One admissible request on a client whose counter, if it is connected, stands at `c`:
the call returns; an id-taking call that goes through returns `(c + 1) % 65536` and leaves
the counter there; every other call leaves a connected client's counter at `c`. -/
theorem perform_step (s : MqttLite) (r : Request) (c : Nat)
    (hadm : r.admissible s.m_bufferSize)
    (hc : (connected s).1 = true → s.m_messageId = c) :
    ∃ v s', r.perform s = .ok (v, s') ∧ s'.m_bufferSize = s.m_bufferSize
      ∧ ((r.takesId = true ∧ delivered s s' = true ∧ v = (c + 1) % 65536
            ∧ ((connected s').1 = true → s'.m_messageId = (c + 1) % 65536))
        ∨ ((r.takesId && delivered s s') = false
            ∧ ((connected s').1 = true → s'.m_messageId = c))) := by
  cases hcon : (connected s).1 with
  | false =>
    have hagain := connected_again s hcon
    have hsz := (connected_frame s).2.2.2.1
    have hnot : delivered s (connected s).2 = false :=
      delivered_same s _ (connected_frame s).1
    refine ⟨0, (connected s).2, ?_, hsz, Or.inr ⟨by rw [hnot, Bool.and_false], ?_⟩⟩
    · cases r with
      | publish t p rt q => exact publish_not_connected s t p rt q 0 hcon
      | subscribe t q => exact subscribe_rejects s t q 0 hadm (Or.inl hcon)
      | unsubscribe t => exact unsubscribe_rejects s t 0 hadm (Or.inl hcon)
    · intro h
      rw [hagain] at h
      cases h
  | true =>
    obtain ⟨hup, hstate⟩ := connected_true s hcon
    have hcnt := hc hcon
    have hsame : (connected s).2 = s := by rw [connected_eq s hup hstate]
    have hnot : delivered s (connected s).2 = false :=
      delivered_same s _ (connected_frame s).1
    have hlost : ∀ s2 : MqttLite,
        (connected { s2 with m_state := STATE_CONNECTION_LOST,
                             m_client := s2.m_client.stop }).1 = true → False := by
      intro s2 h
      rw [connected_of_state _ (by simp only [STATE_CONNECTION_LOST, STATE_CONNECTED]; decide)]
        at h
      cases h
    cases r with
    | publish t p rt q =>
      obtain ⟨hlen, hfit⟩ := hadm
      rcases hfit with hbig | ⟨hcap, hsize⟩
      · refine ⟨0, s, publish_rejects_oversize s t p rt q 0 hup hstate hlen hbig, rfl,
          Or.inr ⟨by rw [delivered_same s s rfl, Bool.and_false], fun _ => hcnt⟩⟩
      · obtain ⟨s2, L, hrun, hid, hst, hu2, hsz, _, hwr⟩ := publish_run s t p rt q 0 hup
          hstate hcap hsize
        by_cases hr : nextReport s.m_client (wireLength L) = wireLength L
        · rw [if_pos hr] at hrun
          have hd := delivered_sent s s2 hwr (by rw [hst, hstate])
          refine ⟨_, s2, hrun, hsz, ?_⟩
          cases q with
          | QOS0 =>
            refine Or.inr ⟨by simp [Request.takesId], fun _ => ?_⟩
            rw [hid, if_neg (by simp)]
            exact hcnt
          | QOS1 =>
            refine Or.inl ⟨rfl, hd, ?_, fun _ => ?_⟩
            · simp only [publishedId, reduceCtorEq, if_false, if_true]
              rw [hcnt]
            · rw [hid, if_pos ⟨by simp, rfl⟩, hcnt]
          | QOS2 =>
            refine Or.inl ⟨rfl, hd, ?_, fun _ => ?_⟩
            · simp only [publishedId, reduceCtorEq, if_false, if_true]
              rw [hcnt]
            · rw [hid, if_pos ⟨by simp, rfl⟩, hcnt]
        · rw [if_neg hr] at hrun
          exact ⟨0, { s2 with m_state := STATE_CONNECTION_LOST, m_client := s2.m_client.stop },
            hrun, hsz, Or.inr ⟨by rw [delivered_lost, Bool.and_false],
              fun h => (hlost s2 h).elim⟩⟩
    | subscribe t q =>
      by_cases hbig : 5 + (2 + 2 + strlen t + 1) > s.m_bufferSize
      · refine ⟨0, (connected s).2, subscribe_rejects s t q 0 hadm (Or.inr hbig),
          (connected_frame s).2.2.2.1, Or.inr ⟨by rw [hnot, Bool.and_false], fun _ => ?_⟩⟩
        rw [hsame]
        exact hcnt
      · obtain ⟨s2, L, hrun, hid, hst, hu2, hsz, _, hwr⟩ := subscribe_run s t q 0 hup hstate
          (by omega) hadm
        by_cases hr : nextReport s.m_client (wireLength L) = wireLength L
        · rw [if_pos hr] at hrun
          have hd := delivered_sent s s2 hwr (by rw [hst, hstate])
          refine ⟨_, s2, hrun, hsz, Or.inl ⟨rfl, hd, ?_, fun _ => ?_⟩⟩
          · simp only [requestId, if_true]
            rw [hcnt]
          · rw [hid, if_pos rfl, hcnt]
        · rw [if_neg hr] at hrun
          exact ⟨0, { s2 with m_state := STATE_CONNECTION_LOST, m_client := s2.m_client.stop },
            hrun, hsz, Or.inr ⟨by rw [delivered_lost, Bool.and_false],
              fun h => (hlost s2 h).elim⟩⟩
    | unsubscribe t =>
      by_cases hbig : 5 + (2 + 2 + strlen t) > s.m_bufferSize
      · refine ⟨0, (connected s).2, unsubscribe_rejects s t 0 hadm (Or.inr hbig),
          (connected_frame s).2.2.2.1, Or.inr ⟨by rw [hnot, Bool.and_false], fun _ => ?_⟩⟩
        rw [hsame]
        exact hcnt
      · obtain ⟨s2, L, hrun, hid, hst, hu2, hsz, _, hwr⟩ := unsubscribe_run s t 0 hup hstate
          (by omega) hadm
        by_cases hr : nextReport s.m_client (wireLength L) = wireLength L
        · rw [if_pos hr] at hrun
          have hd := delivered_sent s s2 hwr (by rw [hst, hstate])
          refine ⟨_, s2, hrun, hsz, Or.inl ⟨rfl, hd, ?_, fun _ => ?_⟩⟩
          · simp only [requestId, if_true]
            rw [hcnt]
          · rw [hid, if_pos rfl, hcnt]
        · rw [if_neg hr] at hrun
          exact ⟨0, { s2 with m_state := STATE_CONNECTION_LOST, m_client := s2.m_client.stop },
            hrun, hsz, Or.inr ⟨by rw [delivered_lost, Bool.and_false],
              fun h => (hlost s2 h).elim⟩⟩


/-- The reply handling of `connect` answers `true` only on its last path, which sets the
state to Connected and the message-id counter to 0. -/
theorem connectReply_true (s : MqttLite) (length : Nat) (s' : MqttLite)
    (h : connectReply s length = .ok (true, s')) :
    s'.m_state = STATE_CONNECTED ∧ s'.m_messageId = 0 ∧ s'.m_pongReceived = true := by
  unfold connectReply at h
  simp only at h
  split at h
  · cases h
  · cases hr : readPacket { s with m_lastIn := s.millis } length with
    | error e =>
      rw [hr] at h
      cases h
    | ok r =>
      obtain ⟨ok, len, s1⟩ := r
      rw [hr] at h
      simp only [bind_ok, bind, Except.bind] at h
      split at h
      · cases h
      · cases hl : load s1 0 with
        | error e =>
          rw [hl] at h
          cases h
        | ok first =>
          rw [hl] at h
          simp only at h
          split at h
          · cases h
          · cases hl2 : load s1 (BUFFER_OFFSET + 1) with
            | error e =>
              rw [hl2] at h
              cases h
            | ok code =>
              rw [hl2] at h
              simp only at h
              split at h
              · cases h
              · injection h with h
                injection h with _ h
                subst h
                exact ⟨rfl, rfl, rfl⟩

/-- `connect` answers `true` only with the state Connected and the counter at 0. -/
theorem connect_true (s : MqttLite) (p_id : List Nat)
    (p_user p_password p_willTopic p_willMessage : Option (List Nat))
    (p_willRetain : Bool) (p_willQos : qos_t) (p_cleanSession : Bool) (s' : MqttLite)
    (h : connect s p_id p_user p_password p_willTopic p_willMessage p_willRetain p_willQos
      p_cleanSession = .ok (true, s')) :
    s'.m_state = STATE_CONNECTED ∧ s'.m_messageId = 0 ∧ s'.m_pongReceived = true := by
  unfold connect at h
  split at h
  · cases h
  · cases hp : connectPayload s p_id p_user p_password p_willTopic p_willMessage p_willRetain
        p_willQos p_cleanSession with
    | error e =>
      rw [hp] at h
      cases h
    | ok r =>
      obtain ⟨len, s1⟩ := r
      rw [hp] at h
      simp only [bind_ok, bind, Except.bind] at h
      cases hw : writePacket s1 .PACKET_TYPE_CONNECT len false .QOS0 false with
      | error e =>
        rw [hw] at h
        cases h
      | ok r2 =>
        obtain ⟨ok, s2⟩ := r2
        rw [hw] at h
        simp only at h
        split at h
        · cases h
        · exact connectReply_true s2 len s' h

theorem range_map_shift (c n : Nat) :
    (List.range (n + 1)).map (fun i => (c + 1 + i) % 65536)
      = (c + 1) % 65536
          :: (List.range n).map (fun i => ((c + 1) % 65536 + 1 + i) % 65536) := by
  rw [List.range_succ_eq_map, List.map_cons, List.map_map]
  refine congrArg₂ List.cons rfl (List.map_congr_left ?_)
  intro i _
  simp only [Function.comp, Nat.succ_eq_add_one]
  omega

/-- The ids handed out in a run of admissible requests, on a client whose counter, if it is
connected, stands at `c`: the run returns, and the ids are `c + 1, c + 2, ...` modulo 65536,
in order, whatever calls that take no id or do not go through lie in between. -/
theorem session_ids (reqs : List Request) :
    ∀ (s : MqttLite) (c : Nat), (∀ r ∈ reqs, r.admissible s.m_bufferSize) →
      ((connected s).1 = true → s.m_messageId = c) →
      ∃ ids, assignedIds s reqs = .ok ids ∧ ids.length ≤ reqs.length
        ∧ ids = (List.range ids.length).map (fun i => (c + 1 + i) % 65536) := by
  induction reqs with
  | nil =>
    intro s c _ _
    exact ⟨[], rfl, Nat.le_refl _, rfl⟩
  | cons r rs ih =>
    intro s c hadm hc
    obtain ⟨v, s1, hstep, hsz, hcase⟩ := perform_step s r c
      (hadm r (List.mem_cons_self _ _)) hc
    have hadm1 : ∀ x ∈ rs, x.admissible s1.m_bufferSize := by
      intro x hx
      rw [hsz]
      exact hadm x (List.mem_cons_of_mem _ hx)
    rcases hcase with ⟨ht, hd, hveq, hc1⟩ | ⟨hn, hc1⟩
    · obtain ⟨ids, hrun, hl, hids⟩ := ih s1 ((c + 1) % 65536) hadm1 hc1
      refine ⟨v :: ids, ?_, ?_, ?_⟩
      · simp only [assignedIds, hstep, bind_ok, bind, Except.bind, hrun, ht, hd,
          Bool.and_self, if_true]
      · simp only [List.length_cons]
        omega
      · rw [List.length_cons, range_map_shift, ← hids, hveq]
    · obtain ⟨ids, hrun, hl, hids⟩ := ih s1 c hadm1 hc1
      refine ⟨ids, ?_, ?_, hids⟩
      · simp only [assignedIds, hstep, bind_ok, bind, Except.bind, hrun, hn]
        rfl
      · simp only [List.length_cons]
        omega


/-- C11 (as amended): after a successful `connect`, every sequence of calls to `publish`,
`subscribe` and `unsubscribe` with `p_dupMessageId = 0` returns (lengths being 32-bit
values, and each publish being either turned down by the size check or fitting the buffer
with its message-id bytes in a remaining length of at most 2097151), and the ids returned
to the QoS 1 or 2 publishes, subscribes and unsubscribes that go through are 1, 2, 3, ...
modulo 65536 in order. So in every such sequence in which at most 65535 ids are handed out,
however many calls it has, each id is one more than the id returned by the previous such
call, the first being 1, and the ids increase strictly; QoS 0 publishes and calls that fail
a pre-check in between consume no id. -/
theorem C11_message_ids_increase (s0 s : MqttLite) (p_id : List Nat)
    (p_user p_password p_willTopic p_willMessage : Option (List Nat))
    (p_willRetain : Bool) (p_willQos : qos_t) (p_cleanSession : Bool) (reqs : List Request)
    (hconn : connect s0 p_id p_user p_password p_willTopic p_willMessage p_willRetain
      p_willQos p_cleanSession = .ok (true, s))
    (hadm : ∀ r ∈ reqs, r.admissible s.m_bufferSize) :
    ∃ ids, assignedIds s reqs = .ok ids
      ∧ ids = (List.range ids.length).map (fun i => (i + 1) % 65536)
      ∧ (ids.length ≤ 65535 →
          ids = List.range' 1 ids.length ∧ ids.Pairwise (fun a b => a < b)) := by
  obtain ⟨_, hzero, _⟩ := connect_true s0 p_id p_user p_password p_willTopic p_willMessage
    p_willRetain p_willQos p_cleanSession s hconn
  obtain ⟨ids, hrun, _, hids⟩ := session_ids reqs s 0 hadm (fun _ => hzero)
  have hmod : ids = (List.range ids.length).map (fun i => (i + 1) % 65536) := by
    refine hids.trans (List.map_congr_left ?_)
    intro i _
    show (0 + 1 + i) % 65536 = (i + 1) % 65536
    omega
  have hrange : ids.length ≤ 65535 → ids = List.range' 1 ids.length := by
    intro hn
    rw [List.range'_eq_map_range]
    refine hmod.trans (List.map_congr_left ?_)
    intro i hi
    have hlt := List.mem_range.mp hi
    show (i + 1) % 65536 = 1 + i
    omega
  refine ⟨ids, hrun, hmod, fun hn => ⟨hrange hn, ?_⟩⟩
  rw [hrange hn]
  exact List.pairwise_lt_range' _ _

/-- The handshake used in the examples: CONNACK with return code 0 on a 64-byte buffer. -/
theorem sample_connect :
    ∃ s, connect (sampleFresh 64 [0x20, 2, 0, 0]) [97] none none none none false .QOS0 true
        = .ok (true, s)
      ∧ s.m_client.up = true ∧ s.m_state = STATE_CONNECTED ∧ s.m_client.reports = []
      ∧ s.m_bufferSize = 64 ∧ s.m_messageId = 0 ∧ s.m_client.written.length = 1 :=
  ⟨_, rfl, rfl, rfl, rfl, rfl, rfl, rfl⟩

theorem C11_message_ids_increase_witness :
    ∃ s,
      connect (sampleFresh 64 [0x20, 2, 0, 0]) [97] none none none none false .QOS0 true
        = .ok (true, s)
      ∧ (∀ r ∈ [Request.subscribe [97] .QOS1, .publish [97] [1] false .QOS0,
          .publish [97] (List.replicate 60 7) false .QOS1, .subscribe (List.replicate 60 97) .QOS1,
          .publish [98] [2] false .QOS1, .unsubscribe [97]], r.admissible s.m_bufferSize)
      ∧ assignedIds s [.subscribe [97] .QOS1, .publish [97] [1] false .QOS0,
          .publish [97] (List.replicate 60 7) false .QOS1, .subscribe (List.replicate 60 97) .QOS1,
          .publish [98] [2] false .QOS1, .unsubscribe [97]] = .ok [1, 2, 3]
      ∧ ([1, 2, 3] : List Nat).length ≤ 65535
      ∧ ([1, 2, 3] : List Nat) = List.range' 1 3
      ∧ ([1, 2, 3] : List Nat).Pairwise (fun a b => a < b) := by
  have hc : ∃ s,
      connect (sampleFresh 64 [0x20, 2, 0, 0]) [97] none none none none false .QOS0 true
        = .ok (true, s)
      ∧ s.m_bufferSize = 64
      ∧ assignedIds s [.subscribe [97] .QOS1, .publish [97] [1] false .QOS0,
          .publish [97] (List.replicate 60 7) false .QOS1, .subscribe (List.replicate 60 97) .QOS1,
          .publish [98] [2] false .QOS1, .unsubscribe [97]] = .ok [1, 2, 3] :=
    ⟨_, rfl, rfl, rfl⟩
  obtain ⟨s, hconn, hsz, hrun⟩ := hc
  have hadm : ∀ r ∈ [Request.subscribe [97] .QOS1, .publish [97] [1] false .QOS0,
      .publish [97] (List.replicate 60 7) false .QOS1, .subscribe (List.replicate 60 97) .QOS1,
      .publish [98] [2] false .QOS1, .unsubscribe [97]], r.admissible s.m_bufferSize := by
    rw [hsz]
    decide
  obtain ⟨ids, h1, _, h3⟩ := C11_message_ids_increase (sampleFresh 64 [0x20, 2, 0, 0]) s
    [97] none none none none false .QOS0 true _ hconn hadm
  rw [hrun] at h1
  injection h1 with h1
  subst h1
  exact ⟨s, hconn, hadm, hrun, by decide, (h3 (by decide)).1, (h3 (by decide)).2⟩


/-! ## The counter at 65535 -/

theorem nextReport_nil (c : Client) (count : Nat) (h : c.reports = []) :
    nextReport c count = count := by
  unfold nextReport
  rw [h]

/-- Repeated `unsubscribe` on a connected client over a transport that accepts every
write: each call succeeds and returns the counter plus one, modulo 65536. -/
theorem session_unsubscribe_repeat (p_topic : List Nat) (hlen : strlen p_topic + 10 < 2 ^ 32)
    (n : Nat) :
    ∀ (s : MqttLite), s.m_client.up = true → s.m_state = STATE_CONNECTED →
      s.m_client.reports = [] → 5 + (2 + 2 + strlen p_topic) ≤ s.m_bufferSize →
      s.m_messageId < 65536 →
      ∃ s', session s (List.replicate n (.unsubscribe p_topic))
          = .ok ((List.range n).map (fun i => (s.m_messageId + 1 + i) % 65536), s')
        ∧ s'.m_client.up = true ∧ s'.m_state = STATE_CONNECTED ∧ s'.m_client.reports = []
        ∧ s'.m_bufferSize = s.m_bufferSize
        ∧ s'.m_messageId = (s.m_messageId + n) % 65536
        ∧ s'.m_client.written.length = s.m_client.written.length + n := by
  induction n with
  | zero =>
    intro s hup hstate hrep hcap hid
    exact ⟨s, rfl, hup, hstate, hrep, rfl, (Nat.mod_eq_of_lt hid).symm, rfl⟩
  | succ n ih =>
    intro s hup hstate hrep hcap hid
    obtain ⟨s2, L, hrun, hid2, hst2, hu2, hsz2, hrep2, hwr2⟩ := unsubscribe_run s p_topic 0
      hup hstate hcap hlen
    rw [if_pos (nextReport_nil _ _ hrep)] at hrun
    rw [if_pos rfl] at hid2
    rw [hrep] at hrep2
    obtain ⟨s', hses, a1, a2, a3, a4, a5, a6⟩ := ih s2 (by rw [hu2]; exact hup)
      (by rw [hst2]; exact hstate) hrep2 (by rw [hsz2]; exact hcap)
      (by rw [hid2]; exact Nat.mod_lt _ (by norm_num))
    refine ⟨s', ?_, a1, a2, a3, by rw [a4, hsz2], ?_, ?_⟩
    · simp only [List.replicate_succ, session, Request.perform, hrun, bind_ok, bind,
        Except.bind, hses]
      rw [List.range_succ_eq_map, List.map_cons, List.map_map]
      have e1 : requestId s.m_messageId 0 = (s.m_messageId + 1 + 0) % 65536 := rfl
      have e2 : (fun i => (s2.m_messageId + 1 + i) % 65536)
          = ((fun i => (s.m_messageId + 1 + i) % 65536) ∘ Nat.succ) := by
        funext i
        simp only [Function.comp, Nat.succ_eq_add_one]
        rw [hid2]
        omega
      rw [e1, e2]
    · rw [a5, hid2]
      omega
    · rw [a6, hwr2]
      omega

/-- Repeated `unsubscribe` on a connected client over a transport that accepts every
write: every call goes through, so the ids handed out are all the values returned. -/
theorem assignedIds_unsubscribe_repeat (p_topic : List Nat)
    (hlen : strlen p_topic + 10 < 2 ^ 32) (n : Nat) :
    ∀ (s : MqttLite), s.m_client.up = true → s.m_state = STATE_CONNECTED →
      s.m_client.reports = [] → 5 + (2 + 2 + strlen p_topic) ≤ s.m_bufferSize →
      assignedIds s (List.replicate n (.unsubscribe p_topic))
        = .ok ((List.range n).map (fun i => (s.m_messageId + 1 + i) % 65536)) := by
  induction n with
  | zero =>
    intro s _ _ _ _
    rfl
  | succ n ih =>
    intro s hup hstate hrep hcap
    obtain ⟨s2, L, hrun, hid2, hst2, hu2, hsz2, hrep2, hwr2⟩ := unsubscribe_run s p_topic 0
      hup hstate hcap hlen
    rw [if_pos (nextReport_nil _ _ hrep)] at hrun
    rw [if_pos rfl] at hid2
    rw [hrep] at hrep2
    have hd := delivered_sent s s2 hwr2 (by rw [hst2, hstate])
    have hnext := ih s2 (by rw [hu2]; exact hup) (by rw [hst2]; exact hstate) hrep2
      (by rw [hsz2]; exact hcap)
    rw [hid2] at hnext
    have e1 : requestId s.m_messageId 0 = (s.m_messageId + 1) % 65536 := rfl
    simp only [List.replicate_succ, assignedIds, Request.perform, hrun, bind_ok, bind,
      Except.bind, hnext, Request.takesId, hd, Bool.and_self, if_true]
    rw [range_map_shift, e1]


/-- C11 counterexample: after a successful `connect`, 65536 `unsubscribe` calls in a row
all succeed (every packet is written in full and the state stays Connected, so the ids
handed out are all 65536 values returned), but the 65535th returns 65535 and the 65536th
returns 0, which is not greater. -/
theorem C11_counterexample_counter_wraps :
    ∃ s vs s',
      connect (sampleFresh 64 [0x20, 2, 0, 0]) [97] none none none none false .QOS0 true
        = .ok (true, s)
      ∧ session s (List.replicate 65536 (.unsubscribe [97])) = .ok (vs, s')
      ∧ s'.m_state = STATE_CONNECTED ∧ s'.m_client.written.length = 1 + 65536
      ∧ assignedIds s (List.replicate 65536 (.unsubscribe [97])) = .ok vs
      ∧ vs.length = 65536
      ∧ vs[65534]? = some 65535 ∧ vs[65535]? = some 0 := by
  obtain ⟨s, hconn, hup, hstate, hrep, hsz, hzero, hwr⟩ := sample_connect
  obtain ⟨s', hses, _, hst, _, _, _, hlen⟩ := session_unsubscribe_repeat [97] (by decide)
    65536 s hup hstate hrep (by rw [hsz]; decide) (by rw [hzero]; decide)
  have hids := assignedIds_unsubscribe_repeat [97] (by decide) 65536 s hup hstate hrep
    (by rw [hsz]; decide)
  rw [hzero] at hses hids
  refine ⟨s, _, s', hconn, hses, hst, by rw [hlen, hwr], hids, ?_, ?_, ?_⟩
  · rw [List.length_map, List.length_range]
  · rw [List.getElem?_map, List.getElem?_range (by norm_num)]
    rfl
  · rw [List.getElem?_map, List.getElem?_range (by norm_num)]
    rfl

/-! ## C12: the value returned -/

/-- C12 (code defect): after a successful `connect` and 65535 successful `unsubscribe`
calls the counter stands at 65535; the next `subscribe` sends its packet in full, with the
message id 00 00, leaves the client Connected, and returns 0, the value that stands for
failure. -/
theorem C12_successful_call_returns_zero :
    ∃ s vs s1 s2,
      connect (sampleFresh 64 [0x20, 2, 0, 0]) [97] none none none none false .QOS0 true
        = .ok (true, s)
      ∧ session s (List.replicate 65535 (.unsubscribe [97])) = .ok (vs, s1)
      ∧ subscribe s1 [97] .QOS1 0 = .ok (0, s2)
      ∧ state s2 = STATE_CONNECTED ∧ s2.m_client.up = true
      ∧ s2.m_client.written = s1.m_client.written ++ [[0x82, 6, 0, 0, 0, 1, 97, 1]] := by
  obtain ⟨s, hconn, hup, hstate, hrep, hsz, hzero, _⟩ := sample_connect
  obtain ⟨s1, hses, hup1, hst1, hrep1, hsz1, hid1, _⟩ := session_unsubscribe_repeat [97]
    (by decide) 65535 s hup hstate hrep (by rw [hsz]; decide) (by rw [hzero]; decide)
  have hcount : s1.m_messageId = 65535 := by
    rw [hid1, hzero]
  obtain ⟨s2, bl, hrun, hbl, hwr, _, hst2, hup2, _⟩ := subscribe_sent s1 [97] .QOS1 0
    (by decide) (by decide) (by rw [hsz1, hsz]; decide) hup1 hst1
  rw [if_pos (nextReport_nil _ _ hrep1), hcount] at hrun
  have hbl2 : bl = [6] := by
    have e : (Except.ok [6] : Except Fault (List Nat)) = .ok bl := hbl
    injection e with e
    exact e.symm
  rw [hcount, hbl2] at hwr
  exact ⟨s, _, s1, s2, hconn, hses, hrun, by rw [state, hst2, hst1], by rw [hup2, hup1], hwr⟩


/-! ## C18: dispatch in `loop` -/

/-- On every buffer, `readPacket` accepts a packet the specification accepts: it returns
`true` and the remaining length, has consumed exactly the packet, and has laid the header
byte at offset 0, the length bytes from offset 1 and the payload from offset 5. -/
theorem readPacket_accepts (s : MqttLite) (p_length : Nat) (pk : Packet)
    (h : decodePacket s.m_bufferSize s.m_client.inbound = some pk) :
    readPacket s p_length =
      .ok (true, pk.payload.length,
        { s with m_client := { s.m_client with inbound := pk.rest }
                 m_buffer := overlay (overlay (overlay s.m_buffer 0 [pk.first]) 1
                               pk.lengthBytes) 5 pk.payload
                 m_lastIn := s.millis }) := by
  cases hin : s.m_client.inbound with
  | nil =>
    rw [hin] at h
    simp [decodePacket] at h
  | cons first bs =>
    rw [hin] at h
    cases hd : decodeLength 4 0 bs with
    | none =>
      rw [decodePacket_cons_none _ _ _ hd] at h
      cases h
    | some r =>
      obtain ⟨v, lb, rest⟩ := r
      rw [decodePacket_cons_some _ _ _ _ _ _ hd] at h
      by_cases hfit : 5 + v ≤ s.m_bufferSize ∧ v ≤ rest.length
      · rw [if_pos hfit] at h
        injection h with h
        subst h
        obtain ⟨e1, e2, e3, e4, e5, e6⟩ := decodeLength_spec 4 0 bs v lb rest hd
        have hne : lb ≠ [] := by
          intro hnil
          rw [hnil] at e3
          simp at e3
        have hsplit : lb = lb.dropLast ++ [lb.getLast hne] :=
          (List.dropLast_append_getLast hne).symm
        have hlast : lb.getLast? = some (lb.getLast hne) := List.getLast?_eq_getLast _ hne
        have htake : (rest.take v).length = v := by
          rw [List.length_take]
          omega
        have hrp := readPacket_eq s p_length first (lb.getLast hne) lb.dropLast (rest.take v)
          (rest.drop v)
          (by
            rw [hin, e1, List.take_append_drop]
            conv_lhs => rw [hsplit]
            simp)
          e5 (e6 _ hlast)
          (by
            rw [List.length_dropLast]
            omega)
          (by rw [htake, ← hsplit, e2])
          (by rw [htake]; exact hfit.1)
        rw [← hsplit] at hrp
        exact hrp
      · rw [if_neg hfit] at h
        cases h


/-- The PUBLISH branch of `loop` with a handler registered, whenever the topic length `tl`
found at offsets 5 and 6 keeps the copy inside the buffer: the topic is moved down by
three bytes and terminated, and the handler is called once with the topic at offset 4, the
payload behind the topic (and the message id for QoS 1 and 2) and the length
`length - 2 - tl - offset` in 32-bit arithmetic. -/
theorem loopPublish_run (r : MqttLite) (length tl : Nat)
    (hcb : r.m_publishCallback = true)
    (htl : tl = ((r.m_buffer 5 % 256) <<< 8) % 65536 ||| (r.m_buffer 6 % 256))
    (hcap : 7 + tl ≤ r.m_bufferSize) :
    loopPublish r length =
      .ok { r with
        m_buffer := overlay (fun j =>
            if 4 ≤ j ∧ j < 4 + tl then r.m_buffer (7 + (j - 4)) % 256 else r.m_buffer j)
          (4 + tl) [0]
        calls := r.calls ++
          [.publish 4 (7 + tl + (if ((r.m_buffer 0 % 256) >>> 1) &&& 0b011 ≠ 0 then 2 else 0))
            ((length + 2 ^ 32 - 2 - tl
                - (if ((r.m_buffer 0 % 256) >>> 1) &&& 0b011 ≠ 0 then 2 else 0)) % 2 ^ 32)
            (overlay (fun j =>
                if 4 ≤ j ∧ j < 4 + tl then r.m_buffer (7 + (j - 4)) % 256 else r.m_buffer j)
              (4 + tl) [0])] } := by
  unfold loopPublish
  rw [if_neg (by simp [hcb])]
  simp only [BUFFER_OFFSET]
  rw [load_eq _ _ (by omega), load_eq _ _ (by omega)]
  simp only [bind_ok, bind, Except.bind, Nat.add_zero, ← htl]
  rw [moveBytes_eq _ _ _ _ (by omega) (by omega)]
  simp only
  rw [store_eq _ _ _ (by simp only; omega)]
  simp only
  rw [load_eq _ _ (by simp only; omega)]
  simp only
  have h0 : overlay (fun j =>
      if 4 ≤ j ∧ j < 4 + tl then r.m_buffer (7 + (j - 4)) % 256 else r.m_buffer j)
      (4 + tl) [0] 0 = r.m_buffer 0 := by
    rw [overlay_outside _ _ _ _ (by omega)]
    rw [if_neg (by omega)]
  simp only [h0, qos_t.val]

theorem be16_add (a b : Nat) (ha : a < 256) (hb : b < 256) :
    (a <<< 8) % 65536 ||| b = a * 256 + b := by
  have h1 : a <<< 8 = 2 ^ 8 * a := by
    rw [Nat.shiftLeft_eq, Nat.mul_comm]
  have h2 : 2 ^ 8 * a < 65536 := by omega
  have h3 : b < 2 ^ 8 := by omega
  rw [h1, Nat.mod_eq_of_lt h2, ← Nat.mul_add_lt_is_or h3]
  omega

/-- The buffer after `readPacket` has accepted a packet, as the dispatch reads it. -/
theorem received_bytes (memory : Nat → Nat) (pk : Packet) :
    overlay (overlay (overlay memory 0 [pk.first]) 1 pk.lengthBytes) 5 pk.payload 0
        = pk.first % 256
    ∧ (∀ i, i < pk.payload.length →
        overlay (overlay (overlay memory 0 [pk.first]) 1 pk.lengthBytes) 5 pk.payload (5 + i)
          = pk.payload.getD i 0 % 256) := by
  constructor
  · rw [overlay_outside _ _ _ _ (by omega), overlay_outside _ _ _ _ (by omega), overlay_single]
  · intro i hi
    exact overlay_inside _ 5 _ i hi

theorem decodePacket_lengthBytes (capacity : Nat) (inbound : List Nat) (pk : Packet)
    (h : decodePacket capacity inbound = some pk) :
    pk.lengthBytes.length ≤ 4 ∧ 5 + pk.payload.length ≤ capacity := by
  cases inbound with
  | nil => simp [decodePacket] at h
  | cons first bs =>
    cases hd : decodeLength 4 0 bs with
    | none =>
      rw [decodePacket_cons_none _ _ _ hd] at h
      cases h
    | some r =>
      obtain ⟨v, lb, rest⟩ := r
      rw [decodePacket_cons_some _ _ _ _ _ _ hd] at h
      by_cases hfit : 5 + v ≤ capacity ∧ v ≤ rest.length
      · rw [if_pos hfit] at h
        injection h with h
        subst h
        obtain ⟨_, _, _, e4, _⟩ := decodeLength_spec 4 0 bs v lb rest hd
        refine ⟨e4, ?_⟩
        simp only [List.length_take]
        omega
      · rw [if_neg hfit] at h
        cases h


/-- With the client connected and no keepalive action due, `loop` is its receive half. -/
theorem loop_idle (s : MqttLite) (hup : s.m_client.up = true)
    (hstate : s.m_state = STATE_CONNECTED)
    (hin : elapsed s.millis s.m_lastIn ≤ s.m_keepAlive)
    (hout : elapsed s.millis s.m_lastOut ≤ s.m_keepAlive) :
    loop s = loopReceive s := by
  unfold loop
  simp only [connected_eq s hup hstate]
  rw [if_neg (by simp)]
  have hn : ¬ ((s.millis + 2 ^ 32 - s.m_lastIn) % 2 ^ 32 > s.m_keepAlive
      ∨ (s.millis + 2 ^ 32 - s.m_lastOut) % 2 ^ 32 > s.m_keepAlive) := by
    unfold elapsed at hin hout
    omega
  rw [if_neg hn]

/-- The receive half of `loop` on a packet the specification accepts: the packet is read
and handed to the dispatch. -/
theorem loopReceive_packet (s : MqttLite) (pk : Packet)
    (h : decodePacket s.m_bufferSize s.m_client.inbound = some pk) :
    loopReceive s =
      (dispatch
        { s with m_client := { s.m_client with inbound := pk.rest }
                 m_buffer := overlay (overlay (overlay s.m_buffer 0 [pk.first]) 1
                               pk.lengthBytes) 5 pk.payload
                 m_lastIn := s.millis } pk.payload.length) >>= fun s2 => .ok (true, s2) := by
  have hne : s.m_client.inbound.length ≠ 0 := by
    intro h0
    rw [List.length_eq_zero.mp h0] at h
    simp [decodePacket] at h
  unfold loopReceive Client.available
  rw [if_pos hne, readPacket_accepts s 0 pk h]
  simp only [bind_ok, bind, Except.bind]
  rw [if_neg (by simp)]

theorem dispatch_ping_request (s : MqttLite) (length : Nat) (hcap : 5 ≤ s.m_bufferSize)
    (htype : ((s.m_buffer 0 % 256) >>> 4) &&& 0x0f = 12) :
    ∃ s2, dispatch s length = .ok s2 ∧ sendFrame s s2
      ∧ s2.m_client.written = s.m_client.written ++ [[0xD0, 0x00]] := by
  obtain ⟨s2, hw, hf, hwr, _⟩ := writePacket_empty s .PACKET_TYPE_PING_RESPONSE hcap
  refine ⟨s2, ?_, hf, hwr⟩
  unfold dispatch
  rw [load_eq s 0 (by omega)]
  simp only [bind_ok, bind, Except.bind, packet_type_t.val]
  rw [if_pos htype, hw]

theorem dispatch_ping_response (s : MqttLite) (length : Nat) (hcap : 5 ≤ s.m_bufferSize)
    (htype : ((s.m_buffer 0 % 256) >>> 4) &&& 0x0f = 13) :
    dispatch s length = .ok { s with m_pongReceived := true } := by
  unfold dispatch
  rw [load_eq s 0 (by omega)]
  simp only [bind_ok, bind, Except.bind, packet_type_t.val]
  rw [if_neg (by rw [htype]; decide), if_pos htype]

theorem dispatch_publish (s : MqttLite) (length : Nat) (hcap : 5 ≤ s.m_bufferSize)
    (htype : ((s.m_buffer 0 % 256) >>> 4) &&& 0x0f = 3) :
    dispatch s length = loopPublish s length := by
  unfold dispatch
  rw [load_eq s 0 (by omega)]
  simp only [bind_ok, bind, Except.bind, packet_type_t.val]
  rw [if_neg (by rw [htype]; decide), if_neg (by rw [htype]; decide), if_pos htype]

theorem dispatch_other (s : MqttLite) (length : Nat) (hcap : 5 ≤ s.m_bufferSize)
    (h12 : ((s.m_buffer 0 % 256) >>> 4) &&& 0x0f ≠ 12)
    (h13 : ((s.m_buffer 0 % 256) >>> 4) &&& 0x0f ≠ 13)
    (h3 : ((s.m_buffer 0 % 256) >>> 4) &&& 0x0f ≠ 3) :
    dispatch s length =
      if s.m_rawCallback = false then .ok s
      else .ok { s with calls := s.calls ++
                  [.raw (((s.m_buffer 0 % 256) >>> 4) &&& 0x0f) ((s.m_buffer 0 % 256) &&& 0x0f)
                    length 5 s.m_buffer] } := by
  unfold dispatch
  rw [load_eq s 0 (by omega)]
  simp only [bind_ok, bind, Except.bind, packet_type_t.val]
  rw [if_neg h12, if_neg h13, if_neg h3]
  rfl


/-- C18: when the client is connected, no keepalive action is due and the inbound stream
starts with one well-formed packet `pk` that fits the buffer, `loop()` consumes exactly
that packet and returns true; for PINGREQ it writes a PINGRESP (D0 00) and calls no
handler; for PINGRESP it marks the pong received and calls no handler; for PUBLISH it
calls nothing if no publish handler is registered and otherwise, the payload holding the
topic it announces, only the publish handler, once; for every other type it calls nothing
if no raw handler is registered and otherwise only the raw handler, once, with the type,
the low nibble of the fixed-header byte, the remaining length and the payload at buffer
offset 5. Only the PINGREQ case writes to the transport. -/
theorem C18_dispatch_routing (s : MqttLite) (pk : Packet)
    (hup : s.m_client.up = true) (hstate : s.m_state = STATE_CONNECTED)
    (hin : elapsed s.millis s.m_lastIn ≤ s.m_keepAlive)
    (hout : elapsed s.millis s.m_lastOut ≤ s.m_keepAlive)
    (hsz : s.m_bufferSize < 2 ^ 32)
    (hpk : decodePacket s.m_bufferSize s.m_client.inbound = some pk) :
    (headerType pk.first = 12 →
      ∃ s', loop s = .ok (true, s') ∧ s'.m_client.inbound = pk.rest
        ∧ s'.m_client.written = s.m_client.written ++ [[0xD0, 0x00]]
        ∧ s'.calls = s.calls)
    ∧ (headerType pk.first = 13 →
      ∃ s', loop s = .ok (true, s') ∧ s'.m_client.inbound = pk.rest
        ∧ s'.m_pongReceived = true ∧ s'.calls = s.calls
        ∧ s'.m_client.written = s.m_client.written)
    ∧ (headerType pk.first = 3 → s.m_publishCallback = false →
      ∃ s', loop s = .ok (true, s') ∧ s'.m_client.inbound = pk.rest
        ∧ s'.calls = s.calls ∧ s'.m_client.written = s.m_client.written)
    ∧ (headerType pk.first = 3 → s.m_publishCallback = true → wellFormedPublish pk →
      ∃ s' memory, loop s = .ok (true, s') ∧ s'.m_client.inbound = pk.rest
        ∧ s'.calls = s.calls ++
            [.publish 4
              (7 + announcedTopicLength pk.payload + (if headerQos pk.first ≠ 0 then 2 else 0))
              (pk.payload.length - 2 - announcedTopicLength pk.payload
                - (if headerQos pk.first ≠ 0 then 2 else 0))
              memory]
        ∧ s'.m_client.written = s.m_client.written)
    ∧ (headerType pk.first ≠ 12 → headerType pk.first ≠ 13 → headerType pk.first ≠ 3 →
        s.m_rawCallback = false →
      ∃ s', loop s = .ok (true, s') ∧ s'.m_client.inbound = pk.rest
        ∧ s'.calls = s.calls ∧ s'.m_client.written = s.m_client.written)
    ∧ (headerType pk.first ≠ 12 → headerType pk.first ≠ 13 → headerType pk.first ≠ 3 →
        s.m_rawCallback = true →
      ∃ s' memory, loop s = .ok (true, s') ∧ s'.m_client.inbound = pk.rest
        ∧ s'.calls = s.calls ++
            [.raw (headerType pk.first) ((pk.first % 256) &&& 0x0f) pk.payload.length 5 memory]
        ∧ bytesAt memory 5 pk.payload.length = pk.payload.map (fun b => b % 256)
        ∧ s'.m_client.written = s.m_client.written) := by
  obtain ⟨hlb, hfit⟩ := decodePacket_lengthBytes _ _ pk hpk
  obtain ⟨hb0, hbody⟩ := received_bytes s.m_buffer pk
  have hloop := loop_idle s hup hstate hin hout
  rw [loopReceive_packet s pk hpk] at hloop
  generalize hS : ({ s with
      m_client := { s.m_client with inbound := pk.rest },
      m_buffer := (overlay (overlay (overlay s.m_buffer 0 [pk.first]) 1 pk.lengthBytes) 5
        pk.payload),
      m_lastIn := s.millis } : MqttLite) = s1 at hloop
  have h1cap : s1.m_bufferSize = s.m_bufferSize := by rw [← hS]
  have h1in : s1.m_client.inbound = pk.rest := by rw [← hS]
  have h1wr : s1.m_client.written = s.m_client.written := by rw [← hS]
  have h1calls : s1.calls = s.calls := by rw [← hS]
  have h1pcb : s1.m_publishCallback = s.m_publishCallback := by rw [← hS]
  have h1rcb : s1.m_rawCallback = s.m_rawCallback := by rw [← hS]
  have h1buf : s1.m_buffer = overlay (overlay (overlay s.m_buffer 0 [pk.first]) 1
      pk.lengthBytes) 5 pk.payload := by rw [← hS]
  have h1b0 : s1.m_buffer 0 % 256 = pk.first % 256 := by
    rw [h1buf, hb0, Nat.mod_mod]
  have htype : ((s1.m_buffer 0 % 256) >>> 4) &&& 0x0f = headerType pk.first := by
    rw [h1b0]
    rfl
  refine ⟨?_, ?_, ?_, ?_, ?_, ?_⟩
  · intro ht
    obtain ⟨s2, hd, hf, hwr⟩ := dispatch_ping_request s1 pk.payload.length (by omega)
      (by rw [htype, ht])
    rw [hd] at hloop
    exact ⟨s2, hloop, by rw [sendFrame_inbound hf, h1in], by rw [hwr, h1wr],
      by rw [sendFrame_calls hf, h1calls]⟩
  · intro ht
    rw [dispatch_ping_response s1 pk.payload.length (by omega) (by rw [htype, ht])] at hloop
    exact ⟨_, hloop, h1in, rfl, h1calls, h1wr⟩
  · intro ht hcb
    rw [dispatch_publish s1 pk.payload.length (by omega) (by rw [htype, ht])] at hloop
    have hlp : loopPublish s1 pk.payload.length = .ok s1 := by
      unfold loopPublish
      rw [if_pos (by rw [h1pcb, hcb])]
    rw [hlp] at hloop
    exact ⟨s1, hloop, h1in, h1calls, h1wr⟩
  · intro ht hcb hwf
    rw [dispatch_publish s1 pk.payload.length (by omega) (by rw [htype, ht])] at hloop
    unfold wellFormedPublish at hwf
    have hoffle : (if headerQos pk.first ≠ 0 then 2 else 0) ≤ 2 := by
      split <;> omega
    have htl : announcedTopicLength pk.payload
        = ((s1.m_buffer 5 % 256) <<< 8) % 65536 ||| (s1.m_buffer 6 % 256) := by
      have e5 := hbody 0 (by omega)
      have e6 := hbody 1 (by omega)
      rw [h1buf, e5, e6, Nat.mod_mod, Nat.mod_mod,
        be16_add _ _ (Nat.mod_lt _ (by norm_num)) (Nat.mod_lt _ (by norm_num))]
      rfl
    have hq : ((s1.m_buffer 0 % 256) >>> 1) &&& 0b011 = headerQos pk.first := by
      rw [h1b0]
      rfl
    rw [loopPublish_run s1 pk.payload.length (announcedTopicLength pk.payload)
      (by rw [h1pcb, hcb]) htl (by omega), hq] at hloop
    have hsub : (pk.payload.length + 2 ^ 32 - 2 - announcedTopicLength pk.payload
        - (if headerQos pk.first ≠ 0 then 2 else 0)) % 2 ^ 32
        = pk.payload.length - 2 - announcedTopicLength pk.payload
          - (if headerQos pk.first ≠ 0 then 2 else 0) := by
      omega
    rw [hsub] at hloop
    exact ⟨_, _, hloop, h1in, by simp only; rw [h1calls], h1wr⟩
  · intro h12 h13 h3 hcb
    rw [dispatch_other s1 pk.payload.length (by omega) (by rw [htype]; exact h12)
      (by rw [htype]; exact h13) (by rw [htype]; exact h3),
      if_pos (by rw [h1rcb, hcb])] at hloop
    exact ⟨s1, hloop, h1in, h1calls, h1wr⟩
  · intro h12 h13 h3 hcb
    rw [dispatch_other s1 pk.payload.length (by omega) (by rw [htype]; exact h12)
      (by rw [htype]; exact h13) (by rw [htype]; exact h3),
      if_neg (by rw [h1rcb, hcb]; simp), htype, h1b0] at hloop
    refine ⟨_, s1.m_buffer, hloop, h1in, by simp only; rw [h1calls], ?_, h1wr⟩
    rw [h1buf]
    exact bytesAt_overlay_self _ 5 pk.payload


theorem C18_dispatch_routing_witness :
    (∃ s', loop (sample 32 [0xC0, 0]) = .ok (true, s')
      ∧ s'.m_client.written = [[0xD0, 0x00]] ∧ s'.calls = [])
    ∧ (∃ s' memory, loop (sample 32 [0x90, 3, 0, 1, 0, 0x30]) = .ok (true, s')
      ∧ s'.m_client.inbound = [0x30] ∧ s'.calls = [.raw 9 0 3 5 memory]
      ∧ bytesAt memory 5 3 = [0, 1, 0])
    ∧ (∃ s' memory, loop (sample 32 [0x32, 7, 0, 1, 97, 0, 9, 5, 6]) = .ok (true, s')
      ∧ s'.calls = [.publish 4 10 2 memory]) := by
  obtain ⟨a, _, _, _, _, _⟩ := C18_dispatch_routing (sample 32 [0xC0, 0])
    { first := 0xC0, lengthBytes := [0], payload := [], rest := [] }
    rfl rfl (by decide) (by decide) (by decide) rfl
  obtain ⟨_, _, _, _, _, b⟩ := C18_dispatch_routing (sample 32 [0x90, 3, 0, 1, 0, 0x30])
    { first := 0x90, lengthBytes := [3], payload := [0, 1, 0], rest := [0x30] }
    rfl rfl (by decide) (by decide) (by decide) rfl
  obtain ⟨_, _, _, c, _, _⟩ := C18_dispatch_routing
    (sample 32 [0x32, 7, 0, 1, 97, 0, 9, 5, 6])
    { first := 0x32, lengthBytes := [7], payload := [0, 1, 97, 0, 9, 5, 6], rest := [] }
    rfl rfl (by decide) (by decide) (by decide) rfl
  obtain ⟨s1, a1, _, a3, a4⟩ := a (by decide)
  obtain ⟨s2, m2, b1, b2, b3, b4, _⟩ := b (by decide) (by decide) (by decide) rfl
  obtain ⟨s3, m3, c1, _, c3, _⟩ := c (by decide) rfl (by decide)
  exact ⟨⟨s1, a1, a3, a4⟩, ⟨s2, m2, b1, b2, b3, b4⟩, ⟨s3, m3, c1, c3⟩⟩


/-! ## C19: the PUBLISH branch on a topic length beyond the packet -/

/-- C19 (code defect): the inbound PUBLISH packet 30 02 00 05 has remaining length 2 and
announces a topic of 5 bytes. `readPacket` accepts it. On a 32-byte buffer the publish
handler is then called with the topic at offset 4, the payload at offset 12 and the length
4294967291 (2 - 2 - 5 wrapped to 32 bits), all beyond the two bytes received; on an 8-byte
buffer, which the packet fits, the `memmove` of the topic reads past the end of the
buffer. -/
theorem C19_publish_topic_length_beyond_packet :
    (decodePacket 32 [0x30, 2, 0, 5]).map (fun pk => pk.payload) = some [0, 5]
    ∧ (loop (sample 32 [0x30, 2, 0, 5])).map (fun r => (r.1, r.2.calls.map publishArgs))
        = .ok (true, [some (4, 12, 4294967291)])
    ∧ (decodePacket 8 [0x30, 2, 0, 5]).map (fun pk => pk.payload) = some [0, 5]
    ∧ loop (sample 8 [0x30, 2, 0, 5]) = .error (.bufferOverrun 8) :=
  ⟨rfl, rfl, rfl, rfl⟩

/-! ## C20: the values of the state -/

/-- C20 (code defect): a CONNACK with return code 6 leaves `state()` at 6, and one with
return code 200 at 200; neither is one of the ten enumerators -4 .. 5 of `state_t`. -/
theorem C20_connack_code_outside_enumeration :
    (connect (sampleFresh 64 [0x20, 2, 0, 6]) [97] none none none none false .QOS0 true).map
        (fun r => (r.1, state r.2)) = .ok (false, 6)
    ∧ (connect (sampleFresh 64 [0x20, 2, 0, 200]) [97] none none none none false .QOS0
        true).map (fun r => (r.1, state r.2)) = .ok (false, 200)
    ∧ (6 : Int) ∉ [STATE_CONNECTION_TIMEOUT, STATE_CONNECTION_LOST, STATE_CONNECT_FAILED,
        STATE_DISCONNECTED, STATE_CONNECTED, STATE_CONNECT_BAD_PROTOCOL,
        STATE_CONNECT_BAD_CLIENT_ID, STATE_CONNECT_UNAVAILABLE, STATE_CONNECT_BAD_CREDENTIALS,
        STATE_CONNECT_UNAUTHORIZED]
    ∧ (200 : Int) ∉ [STATE_CONNECTION_TIMEOUT, STATE_CONNECTION_LOST, STATE_CONNECT_FAILED,
        STATE_DISCONNECTED, STATE_CONNECTED, STATE_CONNECT_BAD_PROTOCOL,
        STATE_CONNECT_BAD_CLIENT_ID, STATE_CONNECT_UNAVAILABLE, STATE_CONNECT_BAD_CREDENTIALS,
        STATE_CONNECT_UNAUTHORIZED] :=
  ⟨rfl, rfl, by decide, by decide⟩


/-! ## What each operation can do to the state: buffer and transport primitives -/

theorem store_state (s : MqttLite) (index value : Nat) (s' : MqttLite)
    (h : store s index value = .ok s') : s'.m_state = s.m_state := by
  unfold store at h
  split at h
  · injection h with h
    subst h
    rfl
  · cases h

theorem storeBytes_state (bytes : List Nat) :
    ∀ (index : Nat) (s s' : MqttLite), storeBytes bytes index s = .ok s' →
      s'.m_state = s.m_state := by
  induction bytes with
  | nil =>
    intro index s s' h
    simp only [storeBytes] at h
    injection h with h
    subst h
    rfl
  | cons b bs ih =>
    intro index s s' h
    simp only [storeBytes] at h
    cases h1 : store s index b with
    | error e =>
      rw [h1] at h
      cases h
    | ok s1 =>
      rw [h1] at h
      simp only [bind_ok, bind, Except.bind] at h
      rw [ih _ _ _ h, store_state _ _ _ _ h1]

theorem writeStringLoop_state (p_position : Nat) (cs : List Nat) :
    ∀ (i : Nat) (s : MqttLite) (i' : Nat) (s' : MqttLite),
      writeStringLoop p_position cs i s = .ok (i', s') → s'.m_state = s.m_state := by
  induction cs with
  | nil =>
    intro i s i' s' h
    simp only [writeStringLoop] at h
    injection h with h
    injection h with _ h
    subst h
    rfl
  | cons c cs ih =>
    intro i s i' s' h
    simp only [writeStringLoop] at h
    split at h
    · injection h with h
      injection h with _ h
      subst h
      rfl
    · cases h1 : store s (BUFFER_OFFSET + p_position + i) c with
      | error e =>
        rw [h1] at h
        cases h
      | ok s1 =>
        rw [h1] at h
        simp only [bind_ok, bind, Except.bind] at h
        rw [ih _ _ _ _ h, store_state _ _ _ _ h1]

theorem writeString_state (s : MqttLite) (p_position : Nat) (cs : List Nat) (n : Nat)
    (s' : MqttLite) (h : writeString s p_position cs = .ok (n, s')) :
    s'.m_state = s.m_state := by
  unfold writeString at h
  cases h1 : writeStringLoop p_position cs 2 s with
  | error e =>
    rw [h1] at h
    cases h
  | ok r1 =>
    obtain ⟨i, s1⟩ := r1
    rw [h1] at h
    simp only [bind_ok, bind, Except.bind] at h
    cases h2 : store s1 (BUFFER_OFFSET + p_position)
        (toUInt8 (((i : Int) - 2) >>> (8 : Nat))) with
    | error e =>
      rw [h2] at h
      cases h
    | ok s2 =>
      rw [h2] at h
      simp only at h
      cases h3 : store s2 (BUFFER_OFFSET + p_position + 1) (toUInt8 (((i : Int) - 2) % 256)) with
      | error e =>
        rw [h3] at h
        cases h
      | ok s3 =>
        rw [h3] at h
        simp only at h
        injection h with h
        injection h with _ h
        subst h
        rw [store_state _ _ _ _ h3, store_state _ _ _ _ h2,
          writeStringLoop_state _ _ _ _ _ _ h1]

theorem writePacket_state (s : MqttLite) (p_type : packet_type_t) (p_length : Nat)
    (p_retain : Bool) (p_qos : qos_t) (p_dup : Bool) (ok : Bool) (s' : MqttLite)
    (h : writePacket s p_type p_length p_retain p_qos p_dup = .ok (ok, s')) :
    s'.m_state = s.m_state := by
  unfold writePacket at h
  cases h0 : lengthLoop BUFFER_LENGTH_SIZE p_length [] with
  | error e =>
    rw [h0] at h
    cases h
  | ok bl =>
    rw [h0] at h
    simp only [bind_ok, bind, Except.bind] at h
    cases h1 : store s (BUFFER_OFFSET - bl.length - 1)
        ((p_type.val <<< 4) ||| headerFlags p_retain p_qos p_dup) with
    | error e =>
      rw [h1] at h
      cases h
    | ok s1 =>
      rw [h1] at h
      simp only at h
      cases h2 : storeBytes bl (BUFFER_OFFSET - bl.length - 1 + 1) s1 with
      | error e =>
        rw [h2] at h
        cases h
      | ok s2 =>
        rw [h2] at h
        simp only at h
        have e12 : s2.m_state = s.m_state := by
          rw [storeBytes_state _ _ _ _ h2, store_state _ _ _ _ h1]
        split at h
        · cases h
        · split at h
          · injection h with h
            injection h with _ h
            subst h
            exact e12
          · injection h with h
            injection h with _ h
            subst h
            exact e12


/-! ## What each operation can do to the state: receiving -/

theorem waitExpired_state (s : MqttLite) : (waitExpired s).m_state = s.m_state := by
  unfold waitExpired
  split <;> rfl

theorem readByte_state (s : MqttLite) (p_length : Nat) (ok : Bool) (n : Nat) (s' : MqttLite)
    (h : readByte s p_length = .ok (ok, n, s')) : s'.m_state = s.m_state := by
  unfold readByte at h
  split at h
  · injection h with h
    injection h with _ h
    injection h with _ h
    subst h
    exact waitExpired_state s
  · rename_i b rest hin
    cases h1 : store { s with m_client := { s.m_client with inbound := rest } } p_length b with
    | error e =>
      simp only [bind, Except.bind] at h
      rw [h1] at h
      cases h
    | ok s1 =>
      simp only [bind, Except.bind] at h
      rw [h1] at h
      simp only at h
      injection h with h
      injection h with _ h
      injection h with _ h
      subst h
      have e := store_state _ _ _ _ h1
      exact e

theorem readLength_state (fuel : Nat) :
    ∀ (s : MqttLite) (cur acc shift : Nat) (ok : Bool) (cur' acc' : Nat) (s' : MqttLite),
      readLength fuel s cur acc shift = .ok (ok, cur', acc', s') → s'.m_state = s.m_state := by
  induction fuel with
  | zero =>
    intro s cur acc shift ok cur' acc' s' h
    simp only [readLength] at h
    cases h
  | succ fuel ih =>
    intro s cur acc shift ok cur' acc' s' h
    rw [readLength] at h
    cases hb : readByte s cur with
    | error e =>
      rw [hb] at h
      cases h
    | ok r =>
      obtain ⟨ok1, cur1, s1⟩ := r
      rw [hb] at h
      simp only [bind_ok] at h
      have e1 := readByte_state _ _ _ _ _ hb
      split at h
      · injection h with h
        injection h with _ h
        injection h with _ h
        injection h with _ h
        subst h
        exact e1
      · split at h
        · injection h with h
          injection h with _ h
          injection h with _ h
          injection h with _ h
          subst h
          exact e1
        · cases hl : load s1 (cur1 - 1) with
          | error e =>
            rw [hl] at h
            cases h
          | ok byte =>
            rw [hl] at h
            simp only [bind_ok] at h
            split at h
            · rw [ih _ _ _ _ _ _ _ _ h, e1]
            · injection h with h
              injection h with _ h
              injection h with _ h
              injection h with _ h
              subst h
              exact e1

theorem readPayload_state (n : Nat) :
    ∀ (s : MqttLite) (cur : Nat) (ok : Bool) (s' : MqttLite),
      readPayload n s cur = .ok (ok, s') → s'.m_state = s.m_state := by
  induction n with
  | zero =>
    intro s cur ok s' h
    simp only [readPayload] at h
    injection h with h
    injection h with _ h
    subst h
    rfl
  | succ n ih =>
    intro s cur ok s' h
    rw [readPayload] at h
    cases hb : readByte s cur with
    | error e =>
      rw [hb] at h
      cases h
    | ok r =>
      obtain ⟨ok1, cur1, s1⟩ := r
      rw [hb] at h
      simp only [bind_ok] at h
      have e1 := readByte_state _ _ _ _ _ hb
      split at h
      · injection h with h
        injection h with _ h
        subst h
        exact e1
      · rw [ih _ _ _ _ h, e1]

theorem readPacket_state (s : MqttLite) (p_length : Nat) (ok : Bool) (len : Nat)
    (s' : MqttLite) (h : readPacket s p_length = .ok (ok, len, s')) :
    s'.m_state = s.m_state := by
  unfold readPacket at h
  cases hb : readByte s 0 with
  | error e =>
    rw [hb] at h
    cases h
  | ok r =>
    obtain ⟨ok1, cur1, s1⟩ := r
    rw [hb] at h
    simp only [bind_ok] at h
    have e1 := readByte_state _ _ _ _ _ hb
    split at h
    · injection h with h
      injection h with _ h
      injection h with _ h
      subst h
      exact e1
    · cases hl : readLength 5 s1 cur1 0 0 with
      | error e =>
        rw [hl] at h
        cases h
      | ok r2 =>
        obtain ⟨ok2, cur2, acc2, s2⟩ := r2
        rw [hl] at h
        simp only [bind_ok] at h
        have e2 := readLength_state _ _ _ _ _ _ _ _ _ hl
        split at h
        · injection h with h
          injection h with _ h
          injection h with _ h
          subst h
          rw [e2, e1]
        · split at h
          · injection h with h
            injection h with _ h
            injection h with _ h
            subst h
            rw [e2, e1]
          · cases hp : readPayload acc2 s2 BUFFER_OFFSET with
            | error e =>
              rw [hp] at h
              cases h
            | ok r3 =>
              obtain ⟨ok3, s3⟩ := r3
              rw [hp] at h
              simp only [bind_ok] at h
              injection h with h
              injection h with _ h
              injection h with _ h
              subst h
              rw [readPayload_state _ _ _ _ _ hp, e2, e1]


/-! ## What each operation can do to the state: `loop`, `connected`, `disconnect` -/

theorem moveBytes_state (s : MqttLite) (dst src count : Nat) (s' : MqttLite)
    (h : moveBytes s dst src count = .ok s') : s'.m_state = s.m_state := by
  unfold moveBytes at h
  split at h
  · cases h
  · split at h
    · cases h
    · injection h with h
      subst h
      rfl

theorem loopPublish_state (s : MqttLite) (length : Nat) (s' : MqttLite)
    (h : loopPublish s length = .ok s') : s'.m_state = s.m_state := by
  unfold loopPublish at h
  split at h
  · injection h with h
    subst h
    rfl
  · cases h1 : load s (BUFFER_OFFSET + 0) with
    | error e =>
      rw [h1] at h
      cases h
    | ok high =>
      rw [h1] at h
      simp only [bind_ok] at h
      cases h2 : load s (BUFFER_OFFSET + 1) with
      | error e =>
        rw [h2] at h
        cases h
      | ok low =>
        rw [h2] at h
        simp only [bind_ok] at h
        cases h3 : moveBytes s (BUFFER_OFFSET - 1) (BUFFER_OFFSET + 2)
            (((high <<< 8) % 65536) ||| low) with
        | error e =>
          rw [h3] at h
          cases h
        | ok s1 =>
          rw [h3] at h
          simp only [bind_ok] at h
          cases h4 : store s1 (BUFFER_OFFSET - 1 + (((high <<< 8) % 65536) ||| low)) 0 with
          | error e =>
            rw [h4] at h
            cases h
          | ok s2 =>
            rw [h4] at h
            simp only [bind_ok] at h
            cases h5 : load s2 0 with
            | error e =>
              rw [h5] at h
              cases h
            | ok first =>
              rw [h5] at h
              simp only [bind_ok] at h
              injection h with h
              subst h
              simp only
              rw [store_state _ _ _ _ h4, moveBytes_state _ _ _ _ _ h3]

theorem dispatch_state (s : MqttLite) (length : Nat) (s' : MqttLite)
    (h : dispatch s length = .ok s') : s'.m_state = s.m_state := by
  unfold dispatch at h
  cases h1 : load s 0 with
  | error e =>
    rw [h1] at h
    cases h
  | ok first =>
    rw [h1] at h
    simp only [bind_ok] at h
    split at h
    · cases h2 : writePacket s .PACKET_TYPE_PING_RESPONSE 0 false .QOS0 false with
      | error e =>
        rw [h2] at h
        cases h
      | ok r =>
        obtain ⟨ok, s1⟩ := r
        rw [h2] at h
        simp only [bind_ok] at h
        injection h with h
        subst h
        exact writePacket_state _ _ _ _ _ _ _ _ h2
    · split at h
      · injection h with h
        subst h
        rfl
      · split at h
        · exact loopPublish_state _ _ _ h
        · split at h
          · injection h with h
            subst h
            rfl
          · injection h with h
            subst h
            rfl

/-- The receive half of `loop` leaves the state alone or sets it to ConnectionLost. -/
theorem loopReceive_state (s : MqttLite) (ok : Bool) (s' : MqttLite)
    (h : loopReceive s = .ok (ok, s')) :
    s'.m_state = s.m_state ∨ s'.m_state = STATE_CONNECTION_LOST := by
  unfold loopReceive at h
  split at h
  · cases h1 : readPacket s 0 with
    | error e =>
      rw [h1] at h
      cases h
    | ok r =>
      obtain ⟨ok1, len, s1⟩ := r
      rw [h1] at h
      simp only [bind_ok] at h
      have e1 := readPacket_state _ _ _ _ _ h1
      split at h
      · injection h with h
        injection h with _ h
        subst h
        exact Or.inr rfl
      · cases h2 : dispatch s1 len with
        | error e =>
          rw [h2] at h
          cases h
        | ok s2 =>
          rw [h2] at h
          simp only [bind_ok] at h
          injection h with h
          injection h with _ h
          subst h
          exact Or.inl (by rw [dispatch_state _ _ _ h2, e1])
  · injection h with h
    injection h with _ h
    subst h
    exact Or.inl rfl

/-- Method `connected` leaves the state alone or sets it to ConnectionLost. -/
theorem connected_state (s : MqttLite) :
    (connected s).2.m_state = s.m_state ∨ (connected s).2.m_state = STATE_CONNECTION_LOST := by
  unfold connected
  split
  · exact Or.inr rfl
  · exact Or.inl rfl

/-- Method `loop` leaves the state alone or sets it to ConnectionLost or
ConnectionTimeout. -/
theorem loop_state (s : MqttLite) (ok : Bool) (s' : MqttLite) (h : loop s = .ok (ok, s')) :
    s'.m_state = s.m_state ∨ s'.m_state = STATE_CONNECTION_LOST
      ∨ s'.m_state = STATE_CONNECTION_TIMEOUT := by
  have hc := connected_state s
  unfold loop at h
  simp only at h
  split at h
  · injection h with h
    injection h with _ h
    subst h
    rcases hc with hc | hc
    · exact Or.inl hc
    · exact Or.inr (Or.inl hc)
  · split at h
    · split at h
      · injection h with h
        injection h with _ h
        subst h
        exact Or.inr (Or.inr rfl)
      · cases h1 : writePacket (connected s).2 .PACKET_TYPE_PING_REQUEST 0 false .QOS0 false with
        | error e =>
          rw [h1] at h
          cases h
        | ok r =>
          obtain ⟨ok1, s1⟩ := r
          rw [h1] at h
          simp only [bind_ok] at h
          have e1 := writePacket_state _ _ _ _ _ _ _ _ h1
          rcases loopReceive_state _ _ _ h with e2 | e2
          · simp only at e2
            rw [e1] at e2
            rcases hc with hc | hc
            · exact Or.inl (by rw [e2, hc])
            · exact Or.inr (Or.inl (by rw [e2, hc]))
          · exact Or.inr (Or.inl e2)
    · rcases loopReceive_state _ _ _ h with e2 | e2
      · rcases hc with hc | hc
        · exact Or.inl (by rw [e2, hc])
        · exact Or.inr (Or.inl (by rw [e2, hc]))
      · exact Or.inr (Or.inl e2)

/-- Method `disconnect` ends in state Disconnected. -/
theorem disconnect_state (s : MqttLite) (s' : MqttLite) (h : disconnect s = .ok s') :
    s'.m_state = STATE_DISCONNECTED := by
  unfold disconnect at h
  simp only at h
  split at h
  · cases h1 : writePacket (connected s).2 .PACKET_TYPE_DISCONNECT 0 false .QOS0 false with
    | error e =>
      rw [h1] at h
      cases h
    | ok r =>
      rw [h1] at h
      simp only [bind_ok] at h
      injection h with h
      subst h
      rfl
  · injection h with h
    subst h
    rfl


/-! ## What each operation can do to the state: sending -/

theorem publishMessageId_state (s : MqttLite) (length : Nat) (p_qos : qos_t)
    (p_dupMessageId : Nat) (id len : Nat) (s' : MqttLite)
    (h : publishMessageId s length p_qos p_dupMessageId = .ok (id, len, s')) :
    s'.m_state = s.m_state := by
  unfold publishMessageId at h
  simp only at h
  split at h
  · generalize hr : (if p_dupMessageId = 0 then
        ((s.m_messageId + 1) % 65536, { s with m_messageId := (s.m_messageId + 1) % 65536 })
      else (1, s) : Nat × MqttLite) = r at h
    have hrs : r.2.m_state = s.m_state := by
      rw [← hr]
      split <;> rfl
    cases h1 : store r.2 (BUFFER_OFFSET + length) (r.1 >>> 8) with
    | error e =>
      rw [h1] at h
      cases h
    | ok s1 =>
      rw [h1] at h
      simp only [bind_ok] at h
      cases h2 : store s1 (BUFFER_OFFSET + (length + 1)) (r.1 &&& 0x0ff) with
      | error e =>
        rw [h2] at h
        cases h
      | ok s2 =>
        rw [h2] at h
        simp only [bind_ok] at h
        injection h with h
        injection h with _ h
        injection h with _ h
        subst h
        rw [store_state _ _ _ _ h2, store_state _ _ _ _ h1, hrs]
  · injection h with h
    injection h with _ h
    injection h with _ h
    subst h
    rfl

/-- Method `publish` leaves the state alone or sets it to ConnectionLost. -/
theorem publish_state (s : MqttLite) (p_topic p_payload : List Nat) (p_retain : Bool)
    (p_qos : qos_t) (p_dupMessageId : Nat) (v : Nat) (s' : MqttLite)
    (h : publish s p_topic p_payload p_retain p_qos p_dupMessageId = .ok (v, s')) :
    s'.m_state = s.m_state ∨ s'.m_state = STATE_CONNECTION_LOST := by
  have hc := connected_state s
  unfold publish at h
  simp only at h
  split at h
  · injection h with h
    injection h with _ h
    subst h
    exact hc
  · split at h
    · injection h with h
      injection h with _ h
      subst h
      exact hc
    · cases h1 : writeString (connected s).2 0 p_topic with
      | error e =>
        rw [h1] at h
        cases h
      | ok r1 =>
        obtain ⟨n, s1⟩ := r1
        rw [h1] at h
        simp only [bind_ok] at h
        cases h2 : publishMessageId s1 ((0 + n) % 2 ^ 32) p_qos p_dupMessageId with
        | error e =>
          rw [h2] at h
          cases h
        | ok r2 =>
          obtain ⟨id, len, s2⟩ := r2
          rw [h2] at h
          simp only [bind_ok] at h
          cases h3 : storeBytes p_payload (BUFFER_OFFSET + len) s2 with
          | error e =>
            rw [h3] at h
            cases h
          | ok s3 =>
            rw [h3] at h
            simp only [bind_ok] at h
            cases h4 : writePacket s3 .PACKET_TYPE_PUBLISH ((len + p_payload.length) % 2 ^ 32)
                p_retain p_qos (decide (p_dupMessageId > 0)) with
            | error e =>
              rw [h4] at h
              cases h
            | ok r4 =>
              obtain ⟨ok, s4⟩ := r4
              rw [h4] at h
              simp only [bind_ok] at h
              split at h
              · injection h with h
                injection h with _ h
                subst h
                exact Or.inr rfl
              · injection h with h
                injection h with _ h
                subst h
                rw [writePacket_state _ _ _ _ _ _ _ _ h4, storeBytes_state _ _ _ _ h3,
                  publishMessageId_state _ _ _ _ _ _ _ h2, writeString_state _ _ _ _ _ h1]
                exact hc

theorem nextMessageId_state (s : MqttLite) (p_dupMessageId : Nat) :
    (nextMessageId s p_dupMessageId).2.m_state = s.m_state := by
  unfold nextMessageId
  split <;> rfl

/-- Method `subscribe` leaves the state alone or sets it to ConnectionLost. -/
theorem subscribe_state (s : MqttLite) (p_topic : List Nat) (p_qos : qos_t)
    (p_dupMessageId : Nat) (v : Nat) (s' : MqttLite)
    (h : subscribe s p_topic p_qos p_dupMessageId = .ok (v, s')) :
    s'.m_state = s.m_state ∨ s'.m_state = STATE_CONNECTION_LOST := by
  have hc := connected_state s
  unfold subscribe at h
  simp only at h
  split at h
  · injection h with h
    injection h with _ h
    subst h
    exact hc
  · split at h
    · injection h with h
      injection h with _ h
      subst h
      exact hc
    · have hn := nextMessageId_state (connected s).2 p_dupMessageId
      generalize nextMessageId (connected s).2 p_dupMessageId = r at h hn
      cases h0 : store r.2 (BUFFER_OFFSET + 0) (r.1 >>> 8) with
      | error e =>
        rw [h0] at h
        cases h
      | ok s0 =>
        rw [h0] at h
        simp only [bind_ok] at h
        cases h1 : store s0 (BUFFER_OFFSET + 1) (r.1 &&& 0x0ff) with
        | error e =>
          rw [h1] at h
          cases h
        | ok s1 =>
          rw [h1] at h
          simp only [bind_ok] at h
          cases h2 : writeString s1 2 p_topic with
          | error e =>
            rw [h2] at h
            cases h
          | ok r2 =>
            obtain ⟨n, s2⟩ := r2
            rw [h2] at h
            simp only [bind_ok] at h
            cases h3 : store s2 (BUFFER_OFFSET + (2 + n) % 2 ^ 32) p_qos.val with
            | error e =>
              rw [h3] at h
              cases h
            | ok s3 =>
              rw [h3] at h
              simp only [bind_ok] at h
              cases h4 : writePacket s3 .PACKET_TYPE_SUBSCRIBE ((2 + n) % 2 ^ 32 + 1) false
                  .QOS1 (decide (p_dupMessageId > 0)) with
              | error e =>
                rw [h4] at h
                cases h
              | ok r4 =>
                obtain ⟨ok, s4⟩ := r4
                rw [h4] at h
                simp only [bind_ok] at h
                split at h
                · injection h with h
                  injection h with _ h
                  subst h
                  exact Or.inr rfl
                · injection h with h
                  injection h with _ h
                  subst h
                  rw [writePacket_state _ _ _ _ _ _ _ _ h4, store_state _ _ _ _ h3,
                    writeString_state _ _ _ _ _ h2, store_state _ _ _ _ h1,
                    store_state _ _ _ _ h0, hn]
                  exact hc

/-- Method `unsubscribe` leaves the state alone or sets it to ConnectionLost. -/
theorem unsubscribe_state (s : MqttLite) (p_topic : List Nat)
    (p_dupMessageId : Nat) (v : Nat) (s' : MqttLite)
    (h : unsubscribe s p_topic p_dupMessageId = .ok (v, s')) :
    s'.m_state = s.m_state ∨ s'.m_state = STATE_CONNECTION_LOST := by
  have hc := connected_state s
  unfold unsubscribe at h
  simp only at h
  split at h
  · injection h with h
    injection h with _ h
    subst h
    exact hc
  · split at h
    · injection h with h
      injection h with _ h
      subst h
      exact hc
    · have hn := nextMessageId_state (connected s).2 p_dupMessageId
      generalize nextMessageId (connected s).2 p_dupMessageId = r at h hn
      cases h0 : store r.2 (BUFFER_OFFSET + 0) (r.1 >>> 8) with
      | error e =>
        rw [h0] at h
        cases h
      | ok s0 =>
        rw [h0] at h
        simp only [bind_ok] at h
        cases h1 : store s0 (BUFFER_OFFSET + 1) (r.1 &&& 0x0ff) with
        | error e =>
          rw [h1] at h
          cases h
        | ok s1 =>
          rw [h1] at h
          simp only [bind_ok] at h
          cases h2 : writeString s1 2 p_topic with
          | error e =>
            rw [h2] at h
            cases h
          | ok r2 =>
            obtain ⟨n, s2⟩ := r2
            rw [h2] at h
            simp only [bind_ok] at h
            cases h4 : writePacket s2 .PACKET_TYPE_UNSUBSCRIBE ((2 + n) % 2 ^ 32) false
                .QOS1 (decide (p_dupMessageId > 0)) with
            | error e =>
              rw [h4] at h
              cases h
            | ok r4 =>
              obtain ⟨ok, s4⟩ := r4
              rw [h4] at h
              simp only [bind_ok] at h
              split at h
              · injection h with h
                injection h with _ h
                subst h
                exact Or.inr rfl
              · injection h with h
                injection h with _ h
                subst h
                rw [writePacket_state _ _ _ _ _ _ _ _ h4,
                  writeString_state _ _ _ _ _ h2, store_state _ _ _ _ h1,
                  store_state _ _ _ _ h0, hn]
                exact hc


/-! ## What `connect` can do to the state -/

theorem connectWill_state (s : MqttLite) (length : Nat) (wt wm : Option (List Nat))
    (n : Nat) (s' : MqttLite) (h : connectWill s length wt wm = .ok (n, s')) :
    s'.m_state = s.m_state := by
  cases wt with
  | none =>
    simp only [connectWill] at h
    injection h with h
    injection h with _ h
    subst h
    rfl
  | some t =>
    cases wm with
    | none =>
      simp only [connectWill] at h
      injection h with h
      injection h with _ h
      subst h
      rfl
    | some m =>
      simp only [connectWill] at h
      cases h1 : writeString s length t with
      | error e =>
        rw [h1] at h
        cases h
      | ok r1 =>
        obtain ⟨n1, s1⟩ := r1
        rw [h1] at h
        simp only [bind_ok] at h
        cases h2 : writeString s1 ((length + n1) % 2 ^ 32) m with
        | error e =>
          rw [h2] at h
          cases h
        | ok r2 =>
          obtain ⟨n2, s2⟩ := r2
          rw [h2] at h
          simp only [bind_ok] at h
          injection h with h
          injection h with _ h
          subst h
          rw [writeString_state _ _ _ _ _ h2, writeString_state _ _ _ _ _ h1]

theorem connectCredentials_state (s : MqttLite) (length : Nat) (u p : Option (List Nat))
    (n : Nat) (s' : MqttLite) (h : connectCredentials s length u p = .ok (n, s')) :
    s'.m_state = s.m_state := by
  cases u with
  | none =>
    simp only [connectCredentials] at h
    injection h with h
    injection h with _ h
    subst h
    rfl
  | some us =>
    cases p with
    | none =>
      simp only [connectCredentials] at h
      cases h1 : writeString s length us with
      | error e =>
        rw [h1] at h
        cases h
      | ok r1 =>
        obtain ⟨n1, s1⟩ := r1
        rw [h1] at h
        simp only [bind_ok] at h
        injection h with h
        injection h with _ h
        subst h
        exact writeString_state _ _ _ _ _ h1
    | some pw =>
      simp only [connectCredentials] at h
      cases h1 : writeString s length us with
      | error e =>
        rw [h1] at h
        cases h
      | ok r1 =>
        obtain ⟨n1, s1⟩ := r1
        rw [h1] at h
        simp only [bind_ok] at h
        cases h2 : writeString s1 ((length + n1) % 2 ^ 32) pw with
        | error e =>
          rw [h2] at h
          cases h
        | ok r2 =>
          obtain ⟨n2, s2⟩ := r2
          rw [h2] at h
          simp only [bind_ok] at h
          injection h with h
          injection h with _ h
          subst h
          rw [writeString_state _ _ _ _ _ h2, writeString_state _ _ _ _ _ h1]

theorem store_bind {α : Type} (s : MqttLite) (index value : Nat)
    (k : MqttLite → Except Fault α) (r : α) (h : (store s index value >>= k) = .ok r) :
    ∃ s1, s1.m_state = s.m_state ∧ k s1 = .ok r := by
  cases h1 : store s index value with
  | error e =>
    rw [h1] at h
    cases h
  | ok s1 =>
    rw [h1] at h
    exact ⟨s1, store_state _ _ _ _ h1, h⟩

theorem connectPayload_state (s : MqttLite) (p_id : List Nat)
    (p_user p_password p_willTopic p_willMessage : Option (List Nat))
    (p_willRetain : Bool) (p_willQos : qos_t) (p_cleanSession : Bool) (n : Nat)
    (s' : MqttLite)
    (h : connectPayload s p_id p_user p_password p_willTopic p_willMessage p_willRetain
      p_willQos p_cleanSession = .ok (n, s')) :
    s'.m_state = s.m_state := by
  unfold connectPayload at h
  obtain ⟨s1, e1, h⟩ := store_bind _ _ _ _ _ h
  obtain ⟨s2, e2, h⟩ := store_bind _ _ _ _ _ h
  obtain ⟨s3, e3, h⟩ := store_bind _ _ _ _ _ h
  obtain ⟨s4, e4, h⟩ := store_bind _ _ _ _ _ h
  obtain ⟨s5, e5, h⟩ := store_bind _ _ _ _ _ h
  obtain ⟨s6, e6, h⟩ := store_bind _ _ _ _ _ h
  obtain ⟨s7, e7, h⟩ := store_bind _ _ _ _ _ h
  obtain ⟨s8, e8, h⟩ := store_bind _ _ _ _ _ h
  obtain ⟨s9, e9, h⟩ := store_bind _ _ _ _ _ h
  obtain ⟨s10, e10, h⟩ := store_bind _ _ _ _ _ h
  dsimp only at h
  cases h1 : writeString s10 10 p_id with
  | error e =>
    rw [h1] at h
    cases h
  | ok r1 =>
    obtain ⟨n1, s11⟩ := r1
    rw [h1] at h
    simp only [bind_ok] at h
    cases h2 : connectWill s11 ((10 + n1) % 2 ^ 32) p_willTopic p_willMessage with
    | error e =>
      rw [h2] at h
      cases h
    | ok r2 =>
      obtain ⟨n2, s12⟩ := r2
      rw [h2] at h
      simp only [bind_ok] at h
      rw [connectCredentials_state _ _ _ _ _ _ h, connectWill_state _ _ _ _ _ _ h2,
        writeString_state _ _ _ _ _ h1, e10, e9, e8, e7, e6, e5, e4, e3, e2, e1]

/-- The outcomes of the reply handling of `connect`: `true` with the state Connected, or
`false` with ConnectionTimeout, ConnectFailed or the non-zero return code byte. -/
theorem connectReply_state (s : MqttLite) (length : Nat) (ok : Bool) (s' : MqttLite)
    (h : connectReply s length = .ok (ok, s')) :
    (ok = true ∧ s'.m_state = STATE_CONNECTED)
    ∨ (ok = false ∧ (s'.m_state = STATE_CONNECTION_TIMEOUT ∨ s'.m_state = STATE_CONNECT_FAILED
        ∨ (1 ≤ s'.m_state ∧ s'.m_state ≤ 255))) := by
  unfold connectReply at h
  simp only at h
  split at h
  · injection h with h
    injection h with h1 h2
    subst h1 h2
    exact Or.inr ⟨rfl, Or.inl rfl⟩
  · cases hr : readPacket { s with m_lastIn := s.millis } length with
    | error e =>
      rw [hr] at h
      cases h
    | ok r =>
      obtain ⟨ok1, len, s1⟩ := r
      rw [hr] at h
      simp only [bind_ok] at h
      split at h
      · injection h with h
        injection h with h1 h2
        subst h1 h2
        exact Or.inr ⟨rfl, Or.inr (Or.inl rfl)⟩
      · cases hl : load s1 0 with
        | error e =>
          rw [hl] at h
          cases h
        | ok first =>
          rw [hl] at h
          simp only [bind_ok] at h
          split at h
          · injection h with h
            injection h with h1 h2
            subst h1 h2
            exact Or.inr ⟨rfl, Or.inr (Or.inl rfl)⟩
          · cases hl2 : load s1 (BUFFER_OFFSET + 1) with
            | error e =>
              rw [hl2] at h
              cases h
            | ok code =>
              rw [hl2] at h
              simp only [bind_ok] at h
              have hcode : code < 256 := by
                unfold load at hl2
                split at hl2
                · injection hl2 with hl2
                  rw [← hl2]
                  exact Nat.mod_lt _ (by norm_num)
                · cases hl2
              split at h
              · rename_i hne
                injection h with h
                injection h with h1 h2
                subst h1 h2
                refine Or.inr ⟨rfl, Or.inr (Or.inr ?_)⟩
                simp only
                omega
              · injection h with h
                injection h with h1 h2
                subst h1 h2
                exact Or.inl ⟨rfl, rfl⟩

/-- Method `connect` answers `true` with the state Connected, or `false` with the state
unchanged, ConnectionTimeout, ConnectFailed or the non-zero return code byte. -/
theorem connect_state (s : MqttLite) (p_id : List Nat)
    (p_user p_password p_willTopic p_willMessage : Option (List Nat))
    (p_willRetain : Bool) (p_willQos : qos_t) (p_cleanSession : Bool) (ok : Bool)
    (s' : MqttLite)
    (h : connect s p_id p_user p_password p_willTopic p_willMessage p_willRetain p_willQos
      p_cleanSession = .ok (ok, s')) :
    (ok = true ∧ s'.m_state = STATE_CONNECTED)
    ∨ (ok = false ∧ (s'.m_state = s.m_state ∨ s'.m_state = STATE_CONNECTION_TIMEOUT
        ∨ s'.m_state = STATE_CONNECT_FAILED ∨ (1 ≤ s'.m_state ∧ s'.m_state ≤ 255))) := by
  unfold connect at h
  split at h
  · injection h with h
    injection h with h1 h2
    subst h1 h2
    exact Or.inr ⟨rfl, Or.inl rfl⟩
  · cases hp : connectPayload s p_id p_user p_password p_willTopic p_willMessage p_willRetain
        p_willQos p_cleanSession with
    | error e =>
      rw [hp] at h
      cases h
    | ok r =>
      obtain ⟨len, s1⟩ := r
      rw [hp] at h
      simp only [bind_ok] at h
      cases hw : writePacket s1 .PACKET_TYPE_CONNECT len false .QOS0 false with
      | error e =>
        rw [hw] at h
        cases h
      | ok r2 =>
        obtain ⟨ok2, s2⟩ := r2
        rw [hw] at h
        simp only [bind_ok] at h
        split at h
        · injection h with h
          injection h with h1 h2
          subst h1 h2
          exact Or.inr ⟨rfl, Or.inr (Or.inr (Or.inl rfl))⟩
        · rcases connectReply_state s2 len ok s' h with ⟨a, b⟩ | ⟨a, b⟩
          · exact Or.inl ⟨a, b⟩
          · rcases b with b | b | b
            · exact Or.inr ⟨a, Or.inr (Or.inl b)⟩
            · exact Or.inr ⟨a, Or.inr (Or.inr (Or.inl b))⟩
            · exact Or.inr ⟨a, Or.inr (Or.inr (Or.inr b))⟩


/-! ## The values `state()` can take -/

theorem map_ok {α β : Type} (f : α → β) (x : Except Fault α) (b : β)
    (h : x.map f = .ok b) : ∃ a, x = .ok a ∧ f a = b := by
  cases x with
  | error e => cases h
  | ok a =>
    injection h with h
    exact ⟨a, rfl, h⟩

/-- Supporting result for C20: in every object reachable from construction through
`connect`, `connected`, `publish`, `subscribe`, `unsubscribe`, `loop` and `disconnect`,
whatever the transport does, `state()` is one of the ten enumerated values -4 .. 5 or a
CONNACK return code 6 .. 255, and it is Connected only if some `connect` has answered
true. -/
theorem state_values (s : MqttLite) (b : Bool) (h : Reachable s b) :
    (-4 ≤ state s ∧ state s ≤ 255) ∧ (state s = STATE_CONNECTED → b = true) := by
  induction h with
  | construct p_client p_publishCallback p_rawCallback p_bufferSize p_timeout p_keepAlive raw =>
    simp [state, construct, STATE_DISCONNECTED, STATE_CONNECTED]
  | environment s b client t _ ih => exact ih
  | call s b c r s' _ hrun ih =>
    obtain ⟨⟨lo, hi⟩, hconn⟩ := ih
    simp only [state] at lo hi hconn ⊢
    have keep : s'.m_state = s.m_state → r = false →
        (-4 ≤ s'.m_state ∧ s'.m_state ≤ 255)
          ∧ (s'.m_state = STATE_CONNECTED → (b || r) = true) := by
      intro e hr
      rw [e, hr]
      exact ⟨⟨lo, hi⟩, fun h0 => by simp [hconn h0]⟩
    have other : ∀ v : Int, s'.m_state = v → -4 ≤ v → v ≤ 255 → v ≠ 0 →
        (-4 ≤ s'.m_state ∧ s'.m_state ≤ 255)
          ∧ (s'.m_state = STATE_CONNECTED → (b || r) = true) := by
      intro v e h1 h2 h3
      rw [e]
      refine ⟨⟨h1, h2⟩, fun h0 => ?_⟩
      simp only [STATE_CONNECTED] at h0
      exact absurd h0 h3
    cases c with
    | connect p_id p_user p_password p_willTopic p_willMessage p_willRetain p_willQos
        p_cleanSession =>
      simp only [Call.run] at hrun
      rcases connect_state _ _ _ _ _ _ _ _ _ _ _ hrun with ⟨a, e⟩ | ⟨a, e | e | e | e⟩
      · rw [e, a]
        simp [STATE_CONNECTED]
      · exact keep e a
      · exact other _ e (by decide) (by decide) (by decide)
      · exact other _ e (by decide) (by decide) (by decide)
      · exact other _ rfl (by omega) e.2 (by omega)
    | connected =>
      simp only [Call.run] at hrun
      injection hrun with hrun
      injection hrun with hr hs
      subst hs
      rcases connected_state s with e | e
      · exact keep e hr.symm
      · exact other _ e (by decide) (by decide) (by decide)
    | publish p_topic p_payload p_retain p_qos p_dupMessageId =>
      simp only [Call.run] at hrun
      obtain ⟨x, hx, hb⟩ := map_ok _ _ _ hrun
      injection hb with hr hs
      subst hs
      rcases publish_state _ _ _ _ _ _ _ _ hx with e | e
      · exact keep e hr.symm
      · exact other _ e (by decide) (by decide) (by decide)
    | subscribe p_topic p_qos p_dupMessageId =>
      simp only [Call.run] at hrun
      obtain ⟨x, hx, hb⟩ := map_ok _ _ _ hrun
      injection hb with hr hs
      subst hs
      rcases subscribe_state _ _ _ _ _ _ hx with e | e
      · exact keep e hr.symm
      · exact other _ e (by decide) (by decide) (by decide)
    | unsubscribe p_topic p_dupMessageId =>
      simp only [Call.run] at hrun
      obtain ⟨x, hx, hb⟩ := map_ok _ _ _ hrun
      injection hb with hr hs
      subst hs
      rcases unsubscribe_state _ _ _ _ _ hx with e | e
      · exact keep e hr.symm
      · exact other _ e (by decide) (by decide) (by decide)
    | loop =>
      simp only [Call.run] at hrun
      obtain ⟨x, hx, hb⟩ := map_ok _ _ _ hrun
      injection hb with hr hs
      subst hs
      rcases loop_state _ _ _ hx with e | e | e
      · exact keep e hr.symm
      · exact other _ e (by decide) (by decide) (by decide)
      · exact other _ e (by decide) (by decide) (by decide)
    | disconnect =>
      simp only [Call.run] at hrun
      obtain ⟨x, hx, hb⟩ := map_ok _ _ _ hrun
      injection hb with hr hs
      subst hs
      exact other _ (disconnect_state _ _ hx) (by decide) (by decide) (by decide)

end MqttLite
